import Mathlib

/-!
Moderate-messages box and statistics list controllers.

A shallow embedding of `boxes/moderate_messages_box.cpp` and
`info/statistics/info_statistics_list_controllers.cpp`.

Pointers to peers are modelled by their peer ids (`Nat`), a null pointer by
`none`.  Calls into the networking and data layers are recorded as values of
an effect type, in the order in which the code performs them.
-/

namespace Moderate

/-- Identity of a `PeerData` object (pointer equality in the source). -/
abbrev PeerId := Nat

/-- Message id of a history item (`FullMsgId::msg`). -/
abbrev MsgId := Nat

/-- The part of `HistoryItem` that the moderate box reads. -/
structure HistoryItem where
  /-- `item->history()->peer` -/
  historyPeer : PeerId
  /-- `item->suggestBanReport()` -/
  suggestBanReport : Bool
  /-- `item->suggestDeleteAllReport()` -/
  suggestDeleteAllReport : Bool
  /-- `item->from()`, `none` for a null author -/
  fromPeer : Option PeerId
  /-- `item->fullId().msg` -/
  msg : MsgId
  deriving DecidableEq, Repr

/-- `struct ModerateOptions`, with its default member initialisers. -/
structure ModerateOptions where
  allCanBan : Bool := false
  allCanDelete : Bool := false
  participants : List PeerId := []
  deriving DecidableEq, Repr

/-- The body of one iteration of the loop of `CalculateModerateOptions` after
both early-return tests: the two flag updates and the `push_back` of an
author that is not yet contained in `participants`. -/
def updateOptions (item : HistoryItem) (result : ModerateOptions) : ModerateOptions :=
  let result := if !item.suggestBanReport then { result with allCanBan := false } else result
  let result :=
    if !item.suggestDeleteAllReport then { result with allCanDelete := false } else result
  match item.fromPeer with
  | some p =>
    if !result.participants.contains p then
      { result with participants := result.participants ++ [p] }
    else result
  | none => result

/-- The `for (const auto &item : items)` loop of `CalculateModerateOptions`,
with its two `return {}` exits. -/
def calculateLoop (peer : PeerId) : List HistoryItem → ModerateOptions → ModerateOptions
  | [], result => result
  | item :: rest, result =>
    if !result.allCanBan && !result.allCanDelete then {}
    else if peer != item.historyPeer then {}
    else calculateLoop peer rest (updateOptions item result)

/-- `CalculateModerateOptions`; `none` is the violated `Expects(!items.empty())`. -/
def CalculateModerateOptions (items : List HistoryItem) : Option ModerateOptions :=
  match items with
  | [] => none
  | first :: _ =>
    some (calculateLoop first.historyPeer items { allCanBan := true, allCanDelete := true })

/-- `CanCreateModerateMessagesBox`. -/
def CanCreateModerateMessagesBox (items : List HistoryItem) : Option Bool :=
  (CalculateModerateOptions items).map fun options =>
    (options.allCanBan || options.allCanDelete) && !options.participants.isEmpty

/-- Position of the first item of `items` written by `p` (`items.length` when
there is none). -/
def firstMessageIndex (items : List HistoryItem) (p : PeerId) : Nat :=
  items.findIdx fun item => item.fromPeer == some p

/-- `const auto isSingle = participants.size() == 1;` -/
def isSingle (participants : List PeerId) : Bool :=
  participants.length == 1

/-- `FullMsgId`: the chat of a message and its id in that chat. -/
structure FullMsgId where
  peer : PeerId
  msg : MsgId
  deriving DecidableEq, Repr

/-- `item->fullId()`. -/
def HistoryItem.fullId (item : HistoryItem) : FullMsgId :=
  { peer := item.historyPeer, msg := item.msg }

/-- Modelled from the spec: `Data::Session::itemsToIds` is not part of these
sources; it returns the ids of `items`, one per item and in order. -/
def itemsToIds (items : List HistoryItem) : List FullMsgId :=
  items.map HistoryItem.fullId

/-- `ChatRestrictions`, a set of flags. -/
abbrev ChatRestrictions := Nat

/-- The part of `ChannelData` used by the requests. -/
structure ChannelData where
  id : PeerId
  /-- `channel->restrictions()` -/
  restrictions : ChatRestrictions
  deriving DecidableEq, Repr

/-- The calls into the API layer made by the three `Request` callbacks. -/
inductive ApiCall where
  /-- `MTPchannels_ReportSpam(c->inputChannel, p->input, ids)` -/
  | reportSpam (channel : PeerId) (participant : PeerId) (ids : List MsgId)
  /-- `api().deleteAllFromParticipant(c, p)` -/
  | deleteAllFromParticipant (channel : PeerId) (participant : PeerId)
  /-- `Api::ChatParticipants::Restrict(channel, peer, old, ChatRestrictionsInfo(rights, 0), ..)` -/
  | restrict (channel : PeerId) (participant : PeerId) (newRights : ChatRestrictions)
  /-- `chatParticipants().kick(channel, peer, rights, 0)` -/
  | kick (channel : PeerId) (participant : PeerId) (rights : ChatRestrictions)
  deriving DecidableEq, Repr

/-- The three callbacks of type `Request` that the box creates, with the
values they capture. -/
inductive Request where
  /-- The callback of the report section; captures `ids`. -/
  | report (ids : List FullMsgId)
  /-- The callback of the delete-all section. -/
  | deleteAll
  /-- The callback of the ban section; captures `kick` and `restrictions`. -/
  | ban (kick : Bool) (restrictions : ChatRestrictions)
  deriving DecidableEq, Repr

/-- Calling a `Request` callback as `request(from, channel)`. -/
def Request.call (request : Request) (p : PeerId) (c : ChannelData) : ApiCall :=
  match request with
  | .report ids => .reportSpam c.id p (ids.map fun id => id.msg)
  | .deleteAll => .deleteAllFromParticipant c.id p
  | .ban kick restrictions =>
    if !kick then .restrict c.id p restrictions else .kick c.id p c.restrictions

/-- What the timer callback of `sequentiallyRequest` reads from the session at
one tick: `session->data().peer(historyPeerId)->asChannel()` (`none` for a
null pointer) and whether `session->data().peer(id)` is non-null for a
participant id; the peer found is the one with that id. -/
structure SessionView where
  /-- the session still exists (`crl::guard(session, ..)` runs its callback) -/
  alive : Bool
  channel : Option ChannelData
  peer : PeerId → Bool

/-- State of one `sequentiallyRequest`: the captured request and participant
ids, `counter`, and whether `lifetime` (which owns the timer) still exists. -/
structure SequentialRequest where
  request : Request
  participantIds : List PeerId
  counter : Nat := 0
  alive : Bool := true
  deriving DecidableEq, Repr

/-- One run of the timer callback set in `sequentiallyRequest`: the new state
and the call issued, if any.  A destroyed lifetime has no timer. -/
def SequentialRequest.tick (job : SequentialRequest) (session : SessionView) :
    SequentialRequest × Option ApiCall :=
  if !job.alive || !session.alive then (job, none)
  else
    match job.participantIds[job.counter]? with
    | some id =>
      let call :=
        match session.channel, session.peer id with
        | some channel, true => some (job.request.call id channel)
        | _, _ => none
      ({ job with counter := job.counter + 1 }, call)
    | none => ({ job with alive := false }, none)

/-- `sequentiallyRequest(request, participants)`: the timer is created with
`counter = 0` over the ids of `participants`. -/
def sequentiallyRequest (request : Request) (participants : List PeerId) :
    SequentialRequest :=
  { request := request, participantIds := participants }

/-- What the box does to the outside, in the order of the source. -/
inductive Effect where
  /-- A call `sequentiallyRequest(request, participants)`. -/
  | sequentially (request : Request) (participants : List PeerId)
  /-- `confirmed()` -/
  | confirmedCallback
  /-- `data->histories().deleteMessages(ids, revoke)` -/
  | deleteMessages (ids : List FullMsgId) (revoke : Bool)
  /-- `data->sendHistoryChangeNotifications()` -/
  | sendHistoryChangeNotifications
  /-- `box->closeBox()` -/
  | closeBox
  deriving DecidableEq, Repr

/-- The part of the dialog that `CreateModerateMessagesBox` fixes. -/
structure ModerateBox where
  items : List HistoryItem
  /-- whether a non-empty `confirmed` callback was passed -/
  confirmed : Bool
  participants : List PeerId
  /-- whether the delete-all section was built (`if (allCanDelete)`) -/
  hasDeleteAll : Bool
  /-- whether the ban section was built (`if (allCanBan)`) -/
  hasBan : Bool
  /-- `ids` captured by the report callback -/
  reportIds : List FullMsgId
  /-- `ids` captured by the Delete button -/
  deleteIds : List FullMsgId
  deriving DecidableEq, Repr

/-- Why `CreateModerateMessagesBox` does not return. -/
inductive CreateError where
  /-- `Expects(!items.empty())` in `CalculateModerateOptions` -/
  | itemsEmpty
  /-- `Assert(!participants.empty())` -/
  | participantsEmpty
  /-- `items.front()->from()->owner()` with a null `from()` -/
  | firstItemWithoutAuthor
  deriving DecidableEq, Repr

/-- `CreateModerateMessagesBox`, as far as it decides what the box contains.
The layout of the widgets is left out. -/
def CreateModerateMessagesBox (items : List HistoryItem) (confirmed : Bool) :
    Except CreateError ModerateBox :=
  match CalculateModerateOptions items with
  | none => .error .itemsEmpty
  | some options =>
    if options.participants.isEmpty then .error .participantsEmpty
    else
      match items.head?.bind (·.fromPeer) with
      | none => .error .firstItemWithoutAuthor
      | some _ =>
        .ok {
          items := items
          confirmed := confirmed
          participants := options.participants
          hasDeleteAll := options.allCanDelete
          hasBan := options.allCanBan
          reportIds := itemsToIds items
          deleteIds := itemsToIds items }

/-- A checkbox with its `ExpandablePeerListController` at some moment:
`checkbox->checked()` and `controller->collectRequests`, where `none` is an
empty `Fn` and `some ps` a function that returns `ps` when called now. -/
structure SectionState where
  checked : Bool
  collectRequests : Option (List PeerId)
  deriving DecidableEq, Repr

/-- The state of the widgets of the box at some moment.  The states of the
sections that were not built are not read. -/
structure UiState where
  report : SectionState
  deleteAll : SectionState
  ban : SectionState
  /-- `wrap->toggled()`: the restrictions panel is expanded -/
  wrapToggled : Bool
  /-- what `getRestrictions()` returns -/
  restrictions : ChatRestrictions
  /-- the box still exists (`crl::guard(box, ..)` runs its callback) -/
  boxAlive : Bool
  deriving DecidableEq, Repr

/-- The subscriber installed by `handleConfirmation(checkbox, controller, request)`. -/
def handleConfirmation (section_ : SectionState) (request : Request) : List Effect :=
  match section_.checked, section_.collectRequests with
  | true, some participants => [.sequentially request participants]
  | _, _ => []

/-- The subscriber of the ban section (`// Handle confirmation manually.`). -/
def handleBanConfirmation (ui : UiState) : List Effect :=
  match ui.ban.checked, ui.ban.collectRequests with
  | true, some participants =>
    let kick := !ui.wrapToggled
    let restrictions := ui.restrictions
    [.sequentially (.ban kick restrictions) participants]
  | _, _ => []

/-- `confirms->fire({})`: the subscribers run in the order of subscription. -/
def fireConfirms (box : ModerateBox) (ui : UiState) : List Effect :=
  handleConfirmation ui.report (.report box.reportIds)
    ++ (if box.hasDeleteAll then handleConfirmation ui.deleteAll .deleteAll else [])
    ++ (if box.hasBan then handleBanConfirmation ui else [])

/-- `close`, which is `crl::guard(box, [=] { box->closeBox(); })`. -/
def closeGuarded (ui : UiState) : List Effect :=
  if ui.boxAlive then [.closeBox] else []

/-- The callback of the Delete button. -/
def pressDelete (box : ModerateBox) (ui : UiState) : List Effect :=
  fireConfirms box ui
    ++ (if box.confirmed then [.confirmedCallback] else [])
    ++ [.deleteMessages box.deleteIds true, .sendHistoryChangeNotifications]
    ++ closeGuarded ui

/-- The callback of the Cancel button. -/
def pressCancel (_box : ModerateBox) (ui : UiState) : List Effect :=
  closeGuarded ui

/-- Runs the timer of a `sequentiallyRequest` once per element of `sessions`
and collects the calls issued. -/
def SequentialRequest.run (job : SequentialRequest) :
    List SessionView → SequentialRequest × List ApiCall
  | [] => (job, [])
  | session :: later =>
    let step := job.tick session
    let done := SequentialRequest.run step.1 later
    (done.1, step.2.toList ++ done.2)

/-- The requests created by the report section. -/
def Request.isReport : Request → Bool
  | .report _ => true
  | _ => false

/-- The requests created by the delete-all section. -/
def Request.isDeleteAll : Request → Bool
  | .deleteAll => true
  | _ => false

/-- The requests created by the ban section. -/
def Request.isBan : Request → Bool
  | .ban _ _ => true
  | _ => false

/-- The `sequentiallyRequest` calls among `effects` whose request satisfies
`kind`, in order. -/
def scheduled (kind : Request → Bool) (effects : List Effect) :
    List (Request × List PeerId) :=
  effects.filterMap fun
    | .sequentially request participants =>
      if kind request then some (request, participants) else none
    | _ => none

/-- The `deleteMessages` calls among `effects`, in order. -/
def deletions (effects : List Effect) : List (List FullMsgId × Bool) :=
  effects.filterMap fun
    | .deleteMessages ids revoke => some (ids, revoke)
    | _ => none

/-- A session in which the channel `c` and every participant are found. -/
def SessionView.resolves (session : SessionView) (c : ChannelData)
    (participants : List PeerId) : Prop :=
  session.alive = true ∧ session.channel = some c ∧
    ∀ p ∈ participants, session.peer p = true

/-- A call that kicks or restricts a participant. -/
def ApiCall.isKickOrRestrict : ApiCall → Bool
  | .restrict _ _ _ => true
  | .kick _ _ _ => true
  | _ => false

/-! ### `DeleteChatBox` -/

/-- The part of `PeerData` read by `DeleteChatBox`. -/
structure PeerData where
  id : PeerId
  /-- `peer->asUser()` is not null -/
  isUser : Bool
  /-- `maybeUser->isBot()` -/
  isBot : Bool
  /-- `peer->canRevokeFullHistory()` -/
  canRevokeFullHistory : Bool
  /-- `peer->migrateFrom()` -/
  migrateFrom : Option PeerId
  deriving DecidableEq, Repr

/-- State of the two optional checkboxes, were they to exist, and of the box. -/
structure DeleteChatUi where
  revokeChecked : Bool
  botChecked : Bool
  boxAlive : Bool
  deriving DecidableEq, Repr

/-- `maybeCheckbox`: `none` is `nullptr`, `some c` a checkbox with
`checked() = c`. -/
def maybeCheckbox (peer : PeerData) (ui : DeleteChatUi) : Option Bool :=
  if !peer.canRevokeFullHistory then none else some ui.revokeChecked

/-- `maybeBotCheckbox`. -/
def maybeBotCheckbox (peer : PeerData) (ui : DeleteChatUi) : Option Bool :=
  if !peer.isUser || !peer.isBot then none else some ui.botChecked

/-- The calls made by the confirm button of `DeleteChatBox`. -/
inductive ChatEffect where
  /-- `Core::App().closeChatFromWindows(peer)` -/
  | closeChatFromWindows (peer : PeerId)
  /-- `api().blockedPeers().block(peer)` -/
  | block (peer : PeerId)
  /-- `api().deleteConversation(peer, revoke)` -/
  | deleteConversation (peer : PeerId) (revoke : Bool)
  /-- `box->closeBox()` -/
  | closeBox
  deriving DecidableEq, Repr

/-- The `deleteConversation` calls among `effects`, in order. -/
def conversationDeletions (effects : List ChatEffect) : List (PeerId × Bool) :=
  effects.filterMap fun
    | .deleteConversation peer revoke => some (peer, revoke)
    | _ => none

/-- The test `checkbox && checkbox->checked()` on a checkbox pointer. -/
def existsAndChecked : Option Bool → Bool
  | none => false
  | some checked => checked

/-- The callback of the confirm button of `DeleteChatBox`. -/
def deleteChatConfirm (peer : PeerData) (ui : DeleteChatUi) : List ChatEffect :=
  let revoke := existsAndChecked (maybeCheckbox peer ui)
  let stopBot := existsAndChecked (maybeBotCheckbox peer ui)
  [.closeChatFromWindows peer.id]
    ++ (if stopBot then [.block peer.id] else [])
    ++ [.deleteConversation peer.id revoke]
    ++ (if ui.boxAlive then [.closeBox] else [])

/-- The two texts of the confirm button of `DeleteChatBox`. -/
inductive ButtonText where
  | lng_box_delete
  | lng_box_leave
  deriving DecidableEq, Repr

/-- The current value of `buttonText` of `DeleteChatBox`. -/
def buttonText (peer : PeerData) (ui : DeleteChatUi) : ButtonText :=
  if peer.isUser then .lng_box_delete
  else
    match maybeCheckbox peer ui with
    | none => .lng_box_leave
    | some checked => if checked then .lng_box_delete else .lng_box_leave

/-- The value of an `int` converted to `std::size_t` (64 bits). -/
def intToSize (x : Int) : Nat :=
  (x % 2 ^ 64).toNat

/-- The values that `MessagesCountValue(history, from)` produces: 0 at once,
then the total of every result of the search, `totals`. -/
def MessagesCountValue (totals : List Int) : List Int :=
  0 :: totals

/-- The number of low bits that the conversion to `float64` rounds away in a
`std::size_t` value `n`: the least `e` with `n < 2 ^ (53 + e)`. -/
def float64Shift (n : Nat) : Nat :=
  ((List.range 12).find? fun e => decide (n < 2 ^ (53 + e))).getD 11

/-- The value of a `std::size_t` converted to `float64`: the nearest number
with 53 significant bits, a tie going to the even one. -/
def sizeToFloat64 (n : Nat) : Nat :=
  let e := float64Shift n
  let q := n / 2 ^ e
  let r := n % 2 ^ e
  if 2 * r > 2 ^ e ∨ (2 * r = 2 ^ e ∧ q % 2 = 1) then (q + 1) * 2 ^ e else q * 2 ^ e

/-- The count of the title of the single-author box with a delete-all section:
`float64((checked && all) ? all : s)` with `s = items.size()`, a
`std::size_t`, to which the `int` `all` is converted. -/
def titleCount (s : Nat) (all : Int) (checked : Bool) : Nat :=
  sizeToFloat64 (if checked && all != 0 then intToSize all else s)

/-- The count in the title when the results of the search with the totals
`found` have arrived and the delete-all checkbox is in the state `checked`:
`rpl::combine` maps the latest value of `MessagesCountValue` and of
`checkedValue()`. -/
def combinedTitleCount (s : Nat) (found : List Int) (checked : Bool) : Nat :=
  titleCount s ((MessagesCountValue found).getLastD 0) checked

/-! ### Definitions used in the proofs -/

/-- The loop without its early exits: all updates applied in order. -/
def foldOptions (items : List HistoryItem) (result : ModerateOptions) : ModerateOptions :=
  items.foldl (fun r item => updateOptions item r) result

/-- The condition under which the loop runs to its end with a flag still set. -/
def loopSucceeds (peer : PeerId) (items : List HistoryItem) (r : ModerateOptions) : Bool :=
  items.all (fun item => item.historyPeer == peer) &&
    ((r.allCanBan && items.all (·.suggestBanReport)) ||
      (r.allCanDelete && items.all (·.suggestDeleteAllReport)))

/-- Two messages of the authors 5 and 7 in the chat 1, used at concrete
inputs. -/
def sampleItems : List HistoryItem :=
  [⟨1, true, true, some 5, 10⟩, ⟨1, true, true, some 7, 11⟩]

/-- The box created for `sampleItems` without a `confirmed` callback. -/
def sampleBox : ModerateBox :=
  { items := sampleItems, confirmed := false, participants := [5, 7],
    hasDeleteAll := true, hasBan := true,
    reportIds := [⟨1, 10⟩, ⟨1, 11⟩], deleteIds := [⟨1, 10⟩, ⟨1, 11⟩] }

/-- A state of `sampleBox`: only the report checkbox is checked, with the
participant 7 selected. -/
def sampleUi : UiState :=
  { report := ⟨true, some [7]⟩, deleteAll := ⟨false, some [5, 7]⟩,
    ban := ⟨false, some [5, 7]⟩, wrapToggled := false, restrictions := 0,
    boxAlive := true }

end Moderate

namespace Statistics

/-- Identity of a user (`UserId`). -/
abbrev UserId := Nat

/-- `QString`. -/
abbrev QString := String

/-- The value of an `int` expression whose mathematical value is `x`
(32 bits, two's complement). -/
def toInt32 (x : Int) : Int :=
  (x + 2 ^ 31) % 2 ^ 32 - 2 ^ 31

/-- The value of an `int` converted to `std::size_t` (64 bits). -/
def toSize (x : Int) : Nat :=
  (x % 2 ^ 64).toNat

/-! ### Top members -/

/-- A `tr::phrase<lngtag_count>`: `none` is the default-constructed phrase
`{}`, which cannot be called; `some f` gives the text `f n` for the count `n`. -/
abbrev Phrase := Option (Int → QString)

/-- `phrase(tr::now, lt_count, value)`; `none` when the phrase cannot be called. -/
def Phrase.text (phrase : Phrase) (value : Int) : Option QString :=
  phrase.map fun f => f value

/-- One of the three blocks of `FormatText`: when `value > 0`, the separator
is appended if `resultText` is not empty and then the text of the phrase. -/
def formatPart (withSeparator : Bool) (resultText : QString) (value : Int)
    (phrase : Phrase) : Option QString :=
  if value > 0 then
    let resultText :=
      if withSeparator && !resultText.isEmpty then resultText ++ ", " else resultText
    (phrase.text value).map fun text => resultText ++ text
  else some resultText

/-- `FormatText`; `none` when a phrase that cannot be called is called.  The
first block has no separator test. -/
def FormatText (value1 : Int) (phrase1 : Phrase) (value2 : Int) (phrase2 : Phrase)
    (value3 : Int) (phrase3 : Phrase) : Option QString :=
  (formatPart false "" value1 phrase1).bind fun resultText =>
    (formatPart true resultText value2 phrase2).bind fun resultText =>
      formatPart true resultText value3 phrase3

/-- `Data::StatisticsMessageSenderInfo`. -/
structure StatisticsMessageSenderInfo where
  userId : UserId
  sentMessageCount : Int
  averageCharacterCount : Int
  deriving DecidableEq, Repr

/-- `Data::StatisticsAdministratorActionsInfo`. -/
structure StatisticsAdministratorActionsInfo where
  userId : UserId
  deletedMessageCount : Int
  bannedUserCount : Int
  restrictedUserCount : Int
  deriving DecidableEq, Repr

/-- `Data::StatisticsInviterInfo`. -/
structure StatisticsInviterInfo where
  userId : UserId
  addedMemberCount : Int
  deriving DecidableEq, Repr

/-- The three lists of `Data::SupergroupStatistics` that the members list reads. -/
structure SupergroupStatistics where
  topSenders : List StatisticsMessageSenderInfo
  topAdministrators : List StatisticsAdministratorActionsInfo
  topInviters : List StatisticsInviterInfo
  deriving DecidableEq, Repr

/-- The six language phrases named in `MembersController::addRows`. -/
structure MemberPhrases where
  lng_stats_member_messages : Int → QString
  lng_stats_member_characters : Int → QString
  lng_stats_member_deletions : Int → QString
  lng_stats_member_bans : Int → QString
  lng_stats_member_restrictions : Int → QString
  lng_stats_member_invitations : Int → QString

/-- A row of the members list: the user and the custom status. -/
structure MemberRow where
  userId : UserId
  status : QString
  deriving DecidableEq, Repr

/-- An entry of one of the three statistics lists. -/
inductive MemberEntry where
  | sender (member : StatisticsMessageSenderInfo)
  | administrator (admin : StatisticsAdministratorActionsInfo)
  | inviter (inviter : StatisticsInviterInfo)
  deriving DecidableEq, Repr

/-- The row that `addRows` makes for an entry: `addRow(userId, FormatText(..))`
with the arguments of the branch of that kind of entry. -/
def memberRow (tr : MemberPhrases) : MemberEntry → Option MemberRow
  | .sender member =>
    (FormatText member.sentMessageCount (some tr.lng_stats_member_messages)
      member.averageCharacterCount (some tr.lng_stats_member_characters)
      0 none).map fun text => { userId := member.userId, status := text }
  | .administrator admin =>
    (FormatText admin.deletedMessageCount (some tr.lng_stats_member_deletions)
      admin.bannedUserCount (some tr.lng_stats_member_bans)
      admin.restrictedUserCount (some tr.lng_stats_member_restrictions)).map fun text =>
        { userId := admin.userId, status := text }
  | .inviter inviter =>
    (FormatText inviter.addedMemberCount (some tr.lng_stats_member_invitations)
      0 none 0 none).map fun text => { userId := inviter.userId, status := text }

/-- `MembersController`: `_data`, `_limit` and the rows handed to the delegate
by `peerListAppendRow`, in order. -/
structure MembersController where
  data : SupergroupStatistics
  limit : Int := 0
  rows : List MemberRow := []
  deriving DecidableEq, Repr

/-- The loop `for (auto i = from; i < to; i++)` over one statistics list;
`steps` is the number of iterations left.  `none` is an index outside of the
list or a phrase that cannot be called. -/
def addRowsLoop (tr : MemberPhrases) (entries : List MemberEntry) :
    (steps : Nat) → (i : Int) → List MemberRow → Option (List MemberRow)
  | 0, _, rows => some rows
  | steps + 1, i, rows =>
    if i < 0 then none
    else
      match entries[i.toNat]? with
      | none => none
      | some entry =>
        (memberRow tr entry).bind fun row =>
          addRowsLoop tr entries steps (i + 1) (rows ++ [row])

/-- `MembersController::addRows(from, to)`: the new list of rows. -/
def MembersController.addRows (tr : MemberPhrases) (c : MembersController)
    (from_ to_ : Int) : Option (List MemberRow) :=
  if !c.data.topSenders.isEmpty then
    addRowsLoop tr (c.data.topSenders.map .sender) (to_ - from_).toNat from_ c.rows
  else if !c.data.topAdministrators.isEmpty then
    addRowsLoop tr (c.data.topAdministrators.map .administrator) (to_ - from_).toNat from_ c.rows
  else if !c.data.topInviters.isEmpty then
    addRowsLoop tr (c.data.topInviters.map .inviter) (to_ - from_).toNat from_ c.rows
  else some c.rows

/-- `MembersController::setLimit`. -/
def MembersController.setLimit (tr : MemberPhrases) (c : MembersController)
    (limit : Int) : Option MembersController :=
  (c.addRows tr c.limit limit).map fun rows => { c with rows := rows, limit := limit }

/-- `max` of `AddMembersList`. -/
def membersMax (data : SupergroupStatistics) : Nat :=
  if !data.topSenders.isEmpty then data.topSenders.length
  else if !data.topAdministrators.isEmpty then data.topAdministrators.length
  else if !data.topInviters.isEmpty then data.topInviters.length
  else 0

/-- `kPerPage` of `AddMembersList`. -/
def kPerPage : Int := 40

/-- `State` of `AddMembersList`, with whether the show-more button is shown. -/
structure MembersState where
  controller : MembersController
  limit : Int := 0
  showMoreShown : Bool := true
  deriving DecidableEq, Repr

/-- The `showMore` callback of `AddMembersList`. -/
def MembersState.showMore (tr : MemberPhrases) (max : Nat) (state : MembersState) :
    Option MembersState :=
  let limit := min (toInt32 max) (toInt32 (state.limit + kPerPage))
  (state.controller.setLimit tr limit).map fun controller =>
    { controller := controller
      limit := limit
      showMoreShown := if toSize limit == max then false else state.showMoreShown }

/-- How `AddMembersList` can end without a list. -/
inductive MembersError where
  /-- one of the two early `return`s: not a megagroup, or `max` is zero -/
  | notShown
  /-- an access outside of a list, or a call of an empty phrase -/
  | invalidAccess
  deriving DecidableEq, Repr

/-- `AddMembersList`: the state after the first, automatic `showMore()`. -/
def AddMembersList (tr : MemberPhrases) (data : SupergroupStatistics) (isMegagroup : Bool) :
    Except MembersError MembersState :=
  if !isMegagroup then .error .notShown
  else if membersMax data == 0 then .error .notShown
  else
    match MembersState.showMore tr (membersMax data) { controller := { data := data } } with
    | none => .error .invalidAccess
    | some state => .ok state

/-- Further clicks on the show-more button, `clicks` of them. -/
def showMoreTimes (tr : MemberPhrases) (max : Nat) :
    (clicks : Nat) → MembersState → Option MembersState
  | 0, state => some state
  | clicks + 1, state => (state.showMore tr max).bind (showMoreTimes tr max clicks)

/-- The statistics list that is displayed: `topSenders` if it is not empty,
else `topAdministrators` if it is not empty, else `topInviters`. -/
def displayedList (data : SupergroupStatistics) : List MemberEntry :=
  if data.topSenders ≠ [] then data.topSenders.map .sender
  else if data.topAdministrators ≠ [] then data.topAdministrators.map .administrator
  else data.topInviters.map .inviter

/-! ### Boosts -/

/-- The part of `Data::Boost` read by `BoostsController`. -/
structure Boost where
  userId : UserId
  isUnclaimed : Bool
  multiplier : Int
  deriving DecidableEq, Repr

/-- `Data::BoostsListSlice::OffsetToken`. -/
structure BoostsOffsetToken where
  next : QString := ""
  gifts : Bool := false
  deriving DecidableEq, Repr

/-- `Data::BoostsListSlice`; the defaults are those of a value-initialised slice. -/
structure BoostsListSlice where
  list : List Boost := []
  multipliedTotal : Int := 0
  allLoaded : Bool := false
  token : BoostsOffsetToken := {}
  deriving DecidableEq, Repr

/-- A `BoostRow`: made for a user, or without one. -/
structure BoostRow where
  user : Option UserId
  boost : Boost
  deriving DecidableEq, Repr

/-- `BoostsController`, with the rows handed to the delegate. -/
structure BoostsController where
  firstSlice : BoostsListSlice
  apiToken : BoostsOffsetToken := {}
  allLoaded : Bool := false
  requesting : Bool := false
  totalBoosts : Int := 0
  rows : List BoostRow := []
  deriving DecidableEq, Repr

/-- `BoostsController::skipRequest`. -/
def BoostsController.skipRequest (c : BoostsController) : Bool :=
  c.requesting || c.allLoaded

/-- The row that `applySlice` makes for a boost. -/
def boostRow (item : Boost) : BoostRow :=
  if item.userId != 0 && !item.isUnclaimed then { user := some item.userId, boost := item }
  else { user := none, boost := item }

/-- `BoostsController::applySlice`. -/
def BoostsController.applySlice (c : BoostsController) (slice : BoostsListSlice) :
    BoostsController :=
  let c := { c with allLoaded := slice.allLoaded, apiToken := slice.token }
  let loop := slice.list.foldl
    (fun (acc : Int × List BoostRow) item =>
      (toInt32 (acc.1 + (if item.multiplier != 0 then item.multiplier else 1)),
        acc.2 ++ [boostRow item]))
    (0, c.rows)
  { c with rows := loop.2, totalBoosts := toInt32 (c.totalBoosts + loop.1) }

/-- Modelled from the spec: `base::take` is not part of these sources; as its
name says it takes the value out of a variable, which is left
value-initialised (`std::exchange(value, T())`).  The result is the value
taken and the new content of the variable, `empty` being `T()`. -/
def take {α : Type} (value : α) (empty : α) : α × α :=
  (value, empty)

/-- `BoostsController::prepare`. -/
def BoostsController.prepare (c : BoostsController) : BoostsController :=
  let taken := take c.firstSlice {}
  { c with firstSlice := taken.2 }.applySlice taken.1

/-- `BoostsController::requestNext`: the new state and the token passed to
`_api.requestBoosts`. -/
def BoostsController.requestNext (c : BoostsController) :
    BoostsController × BoostsOffsetToken :=
  ({ c with requesting := true }, c.apiToken)

/-- The callback that `requestNext` passes to `_api.requestBoosts`. -/
def BoostsController.requestDone (c : BoostsController) (slice : BoostsListSlice) :
    BoostsController :=
  { c with requesting := false }.applySlice slice

/-- The boosts list with its requests: those sent so far, in order, and how
many of them were answered. -/
structure BoostsList where
  controller : BoostsController
  sent : List BoostsOffsetToken := []
  answered : Nat := 0
  deriving DecidableEq, Repr

/-- What can happen to the boosts list. -/
inductive BoostsEvent where
  /-- a click on the show-more button -/
  | showMore
  /-- the answer to a request arrives -/
  | response (slice : BoostsListSlice)
  deriving DecidableEq, Repr

/-- Requests sent and not yet answered. -/
def BoostsList.outstanding (s : BoostsList) : Nat :=
  s.sent.length - s.answered

/-- `AddBoostsList`: the controller is created and prepared by `setDelegate`. -/
def AddBoostsList (firstSlice : BoostsListSlice) : BoostsList :=
  { controller := BoostsController.prepare { firstSlice := firstSlice } }

/-- One event; `none` when an answer arrives with no request unanswered. -/
def BoostsList.step (s : BoostsList) : BoostsEvent → Option BoostsList
  | .showMore =>
    if !s.controller.skipRequest then
      let next := s.controller.requestNext
      some { s with controller := next.1, sent := s.sent ++ [next.2] }
    else some s
  | .response slice =>
    if s.answered < s.sent.length then
      some { s with controller := s.controller.requestDone slice, answered := s.answered + 1 }
    else none

/-- A sequence of events. -/
def BoostsList.run (s : BoostsList) : List BoostsEvent → Option BoostsList
  | [] => some s
  | event :: later => (s.step event).bind fun next => next.run later

/-! ### Credits history -/

/-- The part of `Data::CreditsHistoryEntry` read here; the defaults are those
of a value-initialised entry. -/
structure CreditsHistoryEntry where
  id : QString := ""
  title : QString := ""
  date : Nat := 0
  barePeerId : Nat := 0
  credits : Int := 0
  subscriptionUntil : Option Nat := none
  refunded : Bool := false
  pending : Bool := false
  failed : Bool := false
  in_ : Bool := false
  gift : Bool := false
  reaction : Bool := false
  /-- the value of `explicit operator bool`, declared outside of these sources -/
  nonNull : Bool := false
  deriving DecidableEq, Repr

/-- The part of `Data::SubscriptionEntry` read here. -/
structure SubscriptionEntry where
  id : QString := ""
  /-- `until` -/
  untilDate : Nat := 0
  barePeerId : Nat := 0
  cancelled : Bool := false
  expired : Bool := false
  /-- `bool(subscription.subscription)` -/
  hasSubscription : Bool := false
  /-- `subscription.subscription.credits` -/
  subscriptionCredits : Nat := 0
  /-- the value of `explicit operator bool`, declared outside of these sources -/
  nonNull : Bool := false
  deriving DecidableEq, Repr

/-- `Data::CreditsStatusSlice`. -/
structure CreditsStatusSlice where
  list : List CreditsHistoryEntry := []
  subscriptions : List SubscriptionEntry := []
  allLoaded : Bool := false
  token : QString := ""
  tokenSubscriptions : QString := ""
  deriving DecidableEq, Repr

/-- A `CreditsRow`: the peer it was made for, if any, the entry, the
subscription, and `_rightLabel`, of which only the credits are kept. -/
structure CreditsRow where
  peer : Option Nat
  entry : CreditsHistoryEntry
  subscription : SubscriptionEntry
  rightLabel : Option Nat
  deriving DecidableEq, Repr

/-- The two constructors of `CreditsRow`: with a peer (`some`), which sets
`_rightLabel` for a running subscription, and without (`none`). -/
def CreditsRow.create (peer : Option Nat) (entry : CreditsHistoryEntry)
    (subscription : SubscriptionEntry) : CreditsRow :=
  match peer with
  | some p =>
    { peer := some p, entry := entry, subscription := subscription
      rightLabel :=
        if !subscription.cancelled && !subscription.expired && subscription.hasSubscription
        then some subscription.subscriptionCredits else none }
  | none => { peer := none, entry := entry, subscription := subscription, rightLabel := none }

/-- The texts of the right side of a credits row. -/
inductive StatusText where
  | lng_credits_subscription_status_off_right
  | lng_credits_subscription_status_none_right
  deriving DecidableEq, Repr

/-- What `CreditsRow::rightActionSize` measures to get the width. -/
inductive MeasuredAction where
  /-- `_rightLabel->size` -/
  | label
  /-- the width of `text` in `st::contactsStatusFont` -/
  | status (text : StatusText)
  /-- `_rightText.maxWidth()` -/
  | rightText
  /-- `QSize()` -/
  | nothing
  deriving DecidableEq, Repr

/-- `CreditsRow::rightActionSize`. -/
def CreditsRow.rightActionSize (row : CreditsRow) : MeasuredAction :=
  if row.rightLabel.isSome then .label
  else if row.subscription.cancelled || row.subscription.expired then
    let text :=
      if row.subscription.cancelled then StatusText.lng_credits_subscription_status_off_right
      else StatusText.lng_credits_subscription_status_none_right
    .status text
  else if row.subscription.nonNull || row.entry.nonNull then .rightText
  else if !row.entry.nonNull && !row.subscription.nonNull then .nothing
  else .nothing

/-- What `CreditsRow::rightActionPaint` draws. -/
inductive PaintedAction where
  /-- `_rightLabel->draw(..)` -/
  | label
  /-- `p.drawTextRight(.., text)` -/
  | status (text : StatusText)
  /-- `_rightText.draw(..)` -/
  | rightText
  deriving DecidableEq, Repr

/-- `CreditsRow::rightActionPaint`. -/
def CreditsRow.rightActionPaint (row : CreditsRow) : PaintedAction :=
  if row.rightLabel.isSome then .label
  else if row.subscription.cancelled || row.subscription.expired then
    .status
      (if row.subscription.expired then StatusText.lng_credits_subscription_status_none_right
      else StatusText.lng_credits_subscription_status_off_right)
  else .rightText

/-- The text whose width `rightActionSize` measures, if it measures one. -/
def MeasuredAction.text : MeasuredAction → Option StatusText
  | .status text => some text
  | _ => none

/-- The text that `rightActionPaint` draws, if it draws one. -/
def PaintedAction.text : PaintedAction → Option StatusText
  | .status text => some text
  | _ => none

/-- The two requests of `Api::CreditsHistory`, with the token passed. -/
inductive CreditsRequest where
  /-- `_api.requestSubscriptions(token, done)` -/
  | requestSubscriptions (token : QString)
  /-- `_api.request(token, done)` -/
  | request (token : QString)
  deriving DecidableEq, Repr

/-- `CreditsController`, with the rows handed to the delegate. -/
structure CreditsController where
  subscription : Bool
  firstSlice : CreditsStatusSlice
  apiToken : QString := ""
  allLoaded : Bool := false
  requesting : Bool := false
  rows : List CreditsRow := []
  deriving DecidableEq, Repr

/-- `CreditsController::skipRequest`. -/
def CreditsController.skipRequest (c : CreditsController) : Bool :=
  c.requesting || c.allLoaded

/-- The lambda `create` of `CreditsController::applySlice`. -/
def createCreditsRow (i : CreditsHistoryEntry) (s : SubscriptionEntry) : CreditsRow :=
  let peerId := (i.barePeerId + s.barePeerId) % 2 ^ 64
  if peerId != 0 then CreditsRow.create (some peerId) i s
  else CreditsRow.create none i s

/-- `CreditsController::applySlice`. -/
def CreditsController.applySlice (c : CreditsController) (slice : CreditsStatusSlice) :
    CreditsController :=
  { c with
    allLoaded := slice.allLoaded
    apiToken := if c.subscription then slice.tokenSubscriptions else slice.token
    rows := c.rows
      ++ slice.list.map (fun item => createCreditsRow item {})
      ++ slice.subscriptions.map (fun item => createCreditsRow {} item) }

/-- `CreditsController::prepare`. -/
def CreditsController.prepare (c : CreditsController) : CreditsController :=
  let taken := take c.firstSlice {}
  { c with firstSlice := taken.2 }.applySlice taken.1

/-- `CreditsController::requestNext`: the new state and the request made. -/
def CreditsController.requestNext (c : CreditsController) :
    CreditsController × CreditsRequest :=
  let c' := { c with requesting := true }
  if !c.firstSlice.subscriptions.isEmpty then (c', .requestSubscriptions c.apiToken)
  else (c', .request c.apiToken)

/-- The callback `done` of `requestNext`. -/
def CreditsController.requestDone (c : CreditsController) (slice : CreditsStatusSlice) :
    CreditsController :=
  { c with requesting := false }.applySlice slice

/-- The credits list with its requests: those sent so far, in order, and how
many of them were answered. -/
structure CreditsList where
  controller : CreditsController
  sent : List CreditsRequest := []
  answered : Nat := 0
  deriving DecidableEq, Repr

/-- What can happen to the credits list. -/
inductive CreditsEvent where
  /-- a click on the show-more button -/
  | showMore
  /-- the answer to a request arrives -/
  | response (slice : CreditsStatusSlice)
  deriving DecidableEq, Repr

/-- Requests sent and not yet answered. -/
def CreditsList.outstanding (s : CreditsList) : Nat :=
  s.sent.length - s.answered

/-- `AddCreditsHistoryList`: the controller is created and prepared by
`setDelegate`. -/
def AddCreditsHistoryList (firstSlice : CreditsStatusSlice) (subscription : Bool) :
    CreditsList :=
  { controller :=
      CreditsController.prepare { subscription := subscription, firstSlice := firstSlice } }

/-- One event; `none` when an answer arrives with no request unanswered. -/
def CreditsList.step (s : CreditsList) : CreditsEvent → Option CreditsList
  | .showMore =>
    if !s.controller.skipRequest then
      let next := s.controller.requestNext
      some { s with controller := next.1, sent := s.sent ++ [next.2] }
    else some s
  | .response slice =>
    if s.answered < s.sent.length then
      some { s with controller := s.controller.requestDone slice, answered := s.answered + 1 }
    else none

/-- A sequence of events. -/
def CreditsList.run (s : CreditsList) : List CreditsEvent → Option CreditsList
  | [] => some s
  | event :: later => (s.step event).bind fun next => next.run later

/-- Whether `AddBoostsList` shows the show-more button: the value that
`wrap->toggleOn` receives for the current total,
`rpl::mappers::_1 > 0 && rpl::mappers::_1 < max` with
`max = firstSlice.multipliedTotal`. -/
def BoostsList.showMoreShown (firstSlice : BoostsListSlice) (s : BoostsList) : Bool :=
  let max := firstSlice.multipliedTotal
  decide (s.controller.totalBoosts > 0) && decide (s.controller.totalBoosts < max)

/-- The count in the label of the show-more button of `AddBoostsList`:
`max - rpl::mappers::_1` for the current total, an `int`. -/
def BoostsList.showMoreCount (firstSlice : BoostsListSlice) (s : BoostsList) : Int :=
  let max := firstSlice.multipliedTotal
  toInt32 (max - s.controller.totalBoosts)

/-! ### Public forwards -/

/-- `FullStoryId`. -/
structure FullStoryId where
  peer : Nat
  story : Nat
  deriving DecidableEq, Repr

/-- `Data::RecentPostId`: a message id or a story id; `none` is an id that
converts to `false`. -/
structure RecentPostId where
  messageId : Option Moderate.FullMsgId := none
  storyId : Option FullStoryId := none
  deriving DecidableEq, Repr

/-- The part of `Data::PublicForwardsSlice` read by the controller; the
offset token is kept as a number. -/
structure PublicForwardsSlice where
  list : List RecentPostId := []
  total : Int := 0
  allLoaded : Bool := false
  token : Nat := 0
  deriving DecidableEq, Repr

/-- What `PublicForwardsController::applySlice` reads from the session:
whether `session().data().peerLoaded(id)` is non-null, and the peer of the
story found by `session().data().stories().lookup(id)`, `none` when the
lookup fails. -/
structure ForwardsSession where
  peerLoaded : Nat → Bool
  storyPeer : FullStoryId → Option Nat

/-- A `PeerListRowWithFullId`: the peer and the context id.  The custom status
text is left out. -/
structure ForwardRow where
  peer : Nat
  contextId : RecentPostId
  deriving DecidableEq, Repr

/-- `PublicForwardsController`, with the rows of the delegate. -/
structure PublicForwardsController where
  firstSlice : PublicForwardsSlice
  apiToken : Nat := 0
  allLoaded : Bool := false
  rows : List ForwardRow := []
  deriving DecidableEq, Repr

/-- Modelled from the spec: `peerListFindRow` of the delegate is not part of
these sources; it finds the row whose id is the given peer id, if the list
has one. -/
def peerListFindRow (rows : List ForwardRow) (id : Nat) : Option ForwardRow :=
  rows.find? fun row => row.peer == id

/-- `PublicForwardsController::appendRow`: the new rows of the delegate. -/
def appendRow (rows : List ForwardRow) (peer : Nat) (contextId : RecentPostId) :
    List ForwardRow :=
  if (peerListFindRow rows peer).isSome then rows
  else rows ++ [{ peer := peer, contextId := contextId }]

/-- The peer with which the loop of `applySlice` calls `appendRow` for `item`,
if it does: the loaded peer of the message id when the item has one, and
otherwise the peer of the story found for the story id. -/
def resolveForward (session : ForwardsSession) (item : RecentPostId) : Option Nat :=
  match item.messageId with
  | some full => if session.peerLoaded full.peer then some full.peer else none
  | none =>
    match item.storyId with
    | some full => session.storyPeer full
    | none => none

/-- The body of the loop of `PublicForwardsController::applySlice`. -/
def applyForward (session : ForwardsSession) (rows : List ForwardRow) (item : RecentPostId) :
    List ForwardRow :=
  match resolveForward session item with
  | some peer => appendRow rows peer item
  | none => rows

/-- `PublicForwardsController::applySlice`. -/
def PublicForwardsController.applySlice (c : PublicForwardsController)
    (session : ForwardsSession) (slice : PublicForwardsSlice) : PublicForwardsController :=
  { c with
    allLoaded := slice.allLoaded
    apiToken := slice.token
    rows := slice.list.foldl (applyForward session) c.rows }

/-- `PublicForwardsController::prepare`. -/
def PublicForwardsController.prepare (c : PublicForwardsController)
    (session : ForwardsSession) : PublicForwardsController :=
  let taken := take c.firstSlice {}
  { c with firstSlice := taken.2 }.applySlice session taken.1

/-- `PublicForwardsController::loadMoreRows`: the token requested, if any. -/
def PublicForwardsController.loadMoreRows (c : PublicForwardsController) : Option Nat :=
  if c.allLoaded then none else some c.apiToken

/-- Slices applied one after the other, each in the session of its moment. -/
def PublicForwardsController.applySlices (c : PublicForwardsController)
    (slices : List (ForwardsSession × PublicForwardsSlice)) : PublicForwardsController :=
  slices.foldl (fun c slice => c.applySlice slice.1 slice.2) c

/-! ### The status and the row id of a credits row -/

/-- `UniqueRowIdFromEntry`, before the hashing by `UniqueRowIdFromString`: the
string `entry.id + ('1' or '0')` for `refunded`, `pending`, `failed`, `in`. -/
def uniqueRowKey (entry : CreditsHistoryEntry) : QString :=
  (((entry.id.push (if entry.refunded then '1' else '0')).push
    (if entry.pending then '1' else '0')).push
    (if entry.failed then '1' else '0')).push
    (if entry.in_ then '1' else '0')

/-- `UniqueRowIdFromEntry`, with `UniqueRowIdFromString`, which is not part of
these sources, as a parameter. -/
def UniqueRowIdFromEntry (UniqueRowIdFromString : QString → Nat)
    (entry : CreditsHistoryEntry) : Nat :=
  UniqueRowIdFromString (uniqueRowKey entry)

/-- The texts that `CreditsRow::init` takes from the language pack,
`tr::lng_..(tr::now, ..)`, and the two date formats. -/
structure CreditsPhrases where
  lng_channel_earn_history_return : QString
  lng_channel_earn_history_pending : QString
  lng_channel_earn_history_failed : QString
  lng_credits_box_history_entry_subscription : QString
  lng_credits_box_history_entry_anonymous : QString
  lng_credits_subscription_status_none : QString → QString
  lng_credits_subscription_status_off : QString → QString
  lng_credits_subscription_status_on : QString → QString
  langDateTimeFull : Nat → QString
  langDayOfMonthFull : Nat → QString

/-- The two names that `CreditsRow::init` takes from outside:
`PeerListRow::generateName()` and `Ui::GenerateEntryName(_entry).text`. -/
structure RowNames where
  generateName : QString
  generateEntryName : QString

/-- `joiner` of `CreditsRow::init`: a space, the character 8212 and a space. -/
def joiner : QString :=
  ((String.singleton ' ').push (Char.ofNat 8212)).push ' '

/-- `isSpecial` of `CreditsRow::init`: the row was made without a peer. -/
def CreditsRow.isSpecial (row : CreditsRow) : Bool :=
  row.peer.isNone

/-- `name` of `CreditsRow::init`. -/
def CreditsRow.initName (names : RowNames) (row : CreditsRow) : QString :=
  if !row.isSpecial then names.generateName else names.generateEntryName

/-- `_name` as set by `CreditsRow::init`. -/
def CreditsRow.name (names : RowNames) (row : CreditsRow) : QString :=
  if row.entry.reaction then names.generateEntryName
  else if row.entry.title.isEmpty then row.initName names
  else row.entry.title

/-- The second summand of the status in `CreditsRow::init`: the state of the
entry. -/
def CreditsRow.stateSuffix (tr : CreditsPhrases) (row : CreditsRow) : QString :=
  if row.entry.refunded then joiner ++ tr.lng_channel_earn_history_return
  else if row.entry.pending then joiner ++ tr.lng_channel_earn_history_pending
  else if row.entry.failed then joiner ++ tr.lng_channel_earn_history_failed
  else if !row.entry.subscriptionUntil.isNone then
    joiner ++ tr.lng_credits_box_history_entry_subscription
  else ""

/-- The third summand of the status in `CreditsRow::init`: the name. -/
def CreditsRow.nameSuffix (tr : CreditsPhrases) (names : RowNames) (row : CreditsRow) :
    QString :=
  if row.entry.gift && row.isSpecial then joiner ++ tr.lng_credits_box_history_entry_anonymous
  else if row.name names == row.initName names then ""
  else joiner ++ row.initName names

/-- The argument of the first `setCustomStatus` of `CreditsRow::init`. -/
def CreditsRow.entryStatus (tr : CreditsPhrases) (names : RowNames) (row : CreditsRow) :
    QString :=
  tr.langDateTimeFull row.entry.date ++ row.stateSuffix tr ++ row.nameSuffix tr names

/-- The argument of the second `setCustomStatus` of `CreditsRow::init`, made
`if (_subscription)`. -/
def CreditsRow.subscriptionStatus (tr : CreditsPhrases) (row : CreditsRow) : QString :=
  (if row.subscription.expired then tr.lng_credits_subscription_status_none
    else if row.subscription.cancelled then tr.lng_credits_subscription_status_off
    else tr.lng_credits_subscription_status_on)
    (tr.langDayOfMonthFull row.subscription.untilDate)

/-- The custom status of the row after `CreditsRow::init`. -/
def CreditsRow.customStatus (tr : CreditsPhrases) (names : RowNames) (row : CreditsRow) :
    QString :=
  let status := row.entryStatus tr names
  if row.subscription.nonNull then row.subscriptionStatus tr else status

/-! ### Definitions used in the proofs -/

/-- The state of the members list after `runs` runs of `showMore`. -/
def MembersInv (tr : MemberPhrases) (data : SupergroupStatistics) (runs : Nat)
    (state : MembersState) : Prop :=
  state.limit = ((min (membersMax data) (40 * runs) : Nat) : Int) ∧
    state.controller.limit = state.limit ∧
    state.controller.data = data ∧
    state.controller.rows.map some =
      ((displayedList data).take (min (membersMax data) (40 * runs))).map (memberRow tr)

/-- Phrases that show the number after a letter, used at concrete inputs. -/
def samplePhrases : MemberPhrases :=
  { lng_stats_member_messages := fun n => "m" ++ toString n
    lng_stats_member_characters := fun n => "c" ++ toString n
    lng_stats_member_deletions := fun n => "d" ++ toString n
    lng_stats_member_bans := fun n => "b" ++ toString n
    lng_stats_member_restrictions := fun n => "r" ++ toString n
    lng_stats_member_invitations := fun n => "i" ++ toString n }

/-- Statistics with two administrators and one inviter. -/
def sampleStatistics : SupergroupStatistics :=
  { topSenders := []
    topAdministrators := [⟨3, 1, 0, 2⟩, ⟨4, 0, 0, 0⟩]
    topInviters := [⟨5, 6⟩] }

/-- What holds of the boosts list after any events. -/
def BoostsList.Inv (s : BoostsList) : Prop :=
  s.answered ≤ s.sent.length ∧
    s.outstanding = (if s.controller.requesting = true then 1 else 0) ∧
    (s.controller.allLoaded = true → s.controller.requesting = false)

/-- What holds of the credits list after any events. -/
def CreditsList.Inv (s : CreditsList) : Prop :=
  s.answered ≤ s.sent.length ∧
    s.outstanding = (if s.controller.requesting = true then 1 else 0) ∧
    (s.controller.allLoaded = true → s.controller.requesting = false)

/-- A first slice of one boost with more to load. -/
def sampleBoostsSlice : BoostsListSlice :=
  { list := [⟨1, false, 2⟩], multipliedTotal := 5, token := { next := "a" } }

/-- The boosts list made from `sampleBoostsSlice` after a click on show-more
and the arrival of an empty last slice. -/
def sampleBoostsList : BoostsList :=
  { controller :=
      { firstSlice := {}, apiToken := {}, allLoaded := true, requesting := false,
        totalBoosts := 2, rows := [⟨some 1, ⟨1, false, 2⟩⟩] }
    sent := [{ next := "a" }]
    answered := 1 }

/-- A first slice of one history entry with more to load. -/
def sampleCreditsSlice : CreditsStatusSlice :=
  { list := [{ id := "e", barePeerId := 9, nonNull := true }], token := "b" }

/-- The credits list made from `sampleCreditsSlice` after a click on show-more. -/
def sampleCreditsList : CreditsList :=
  { controller :=
      { subscription := false, firstSlice := {}, apiToken := "b", allLoaded := false,
        requesting := true
        rows := [⟨some 9, { id := "e", barePeerId := 9, nonNull := true }, {}, none⟩] }
    sent := [.request "b"]
    answered := 0 }

/-- A first slice of subscriptions with one subscription and more to load. -/
def sampleSubscriptionsSlice : CreditsStatusSlice :=
  { subscriptions := [{ id := "s", barePeerId := 7, nonNull := true }],
    tokenSubscriptions := "next" }

/-- The weight of a boost: its multiplier if that is not zero, and 1 otherwise. -/
def boostWeight (boost : Boost) : Int :=
  if boost.multiplier ≠ 0 then boost.multiplier else 1

/-- Slices applied one after the other by `applySlice`. -/
def BoostsController.applySlices (c : BoostsController) (slices : List BoostsListSlice) :
    BoostsController :=
  slices.foldl BoostsController.applySlice c

/-- The sum of the weights of `boosts`. -/
def weightSum (boosts : List Boost) : Int :=
  (boosts.map boostWeight).sum

/-- The sum of the absolute values of the weights of `boosts`. -/
def weightSize (boosts : List Boost) : Nat :=
  (boosts.map fun boost => (boostWeight boost).natAbs).sum

/-- Whether `text` starts with the separator `", "` of `FormatText`. -/
def startsWithSeparator (text : QString) : Bool :=
  ", ".toList.isPrefixOf text.toList

/-- Whether `text` ends with the separator `", "` of `FormatText`. -/
def endsWithSeparator (text : QString) : Bool :=
  ", ".toList.isSuffixOf text.toList

/-- The texts of the phrases of the values that are positive, in the order
of the arguments of `FormatText`. -/
def positiveTexts (v1 : Int) (p1 : Phrase) (v2 : Int) (p2 : Phrase) (v3 : Int) (p3 : Phrase) :
    List QString :=
  ([(v1, p1), (v2, p2), (v3, p3)].filter fun vp => decide (vp.1 > 0)).filterMap
    fun vp => vp.2.text vp.1

/-- The forwards of `slices` that resolve, each with its peer, in order. -/
def resolvedForwards (slices : List (ForwardsSession × PublicForwardsSlice)) :
    List (Nat × RecentPostId) :=
  slices.flatMap fun slice =>
    slice.2.list.filterMap fun item => (resolveForward slice.1 item).map fun peer => (peer, item)

/-- `appendRow` for each of `forwards`, in order. -/
def appendRows (rows : List ForwardRow) (forwards : List (Nat × RecentPostId)) :
    List ForwardRow :=
  forwards.foldl (fun rows forward => appendRow rows forward.1 forward.2) rows

/-- The peer for which a row is made from a bare peer id: none for the id 0. -/
def rowPeer (barePeerId : Nat) : Option Nat :=
  if barePeerId ≠ 0 then some barePeerId else none

/-- A slice with one history entry of the peer 9, one without peer, and one
subscription of the peer 7. -/
def sampleMixedSlice : CreditsStatusSlice :=
  { list := [{ id := "a", barePeerId := 9, nonNull := true }, { id := "b", nonNull := true }]
    subscriptions := [{ id := "s", barePeerId := 7, nonNull := true }]
    token := "h"
    tokenSubscriptions := "t" }

/-- The value of the first pair of `choices` whose condition holds. -/
def firstHolding {α : Type} : List (Bool × α) → Option α
  | [] => none
  | (condition, value) :: rest => if condition then some value else firstHolding rest

/-- The user of an entry of a statistics list. -/
def MemberEntry.userId : MemberEntry → UserId
  | .sender info => info.userId
  | .administrator info => info.userId
  | .inviter info => info.userId

/-- What the row of an entry has to be: the row of the user of the entry,
with the status that `FormatText` gives for the counts of the entry, each
with its phrase: messages and characters for a sender; deletions, bans and
restrictions for an administrator; invitations for an inviter. -/
def RowOfEntry (tr : MemberPhrases) : MemberEntry → MemberRow → Prop
  | .sender member, row =>
    row.userId = member.userId ∧
      some row.status =
        FormatText member.sentMessageCount (some tr.lng_stats_member_messages)
          member.averageCharacterCount (some tr.lng_stats_member_characters) 0 none
  | .administrator admin, row =>
    row.userId = admin.userId ∧
      some row.status =
        FormatText admin.deletedMessageCount (some tr.lng_stats_member_deletions)
          admin.bannedUserCount (some tr.lng_stats_member_bans)
          admin.restrictedUserCount (some tr.lng_stats_member_restrictions)
  | .inviter inviter, row =>
    row.userId = inviter.userId ∧
      some row.status =
        FormatText inviter.addedMemberCount (some tr.lng_stats_member_invitations)
          0 none 0 none

/-- Statistics with 41 inviters, the users 1 to 41, the user `i` having
invited `i - 1` members. -/
def sampleManyInviters : SupergroupStatistics :=
  { topSenders := []
    topAdministrators := []
    topInviters := (List.range 41).map fun i => ⟨i + 1, i⟩ }

end Statistics

namespace Moderate

/-! ## `CalculateModerateOptions` -/

theorem updateOptions_allCanBan (item : HistoryItem) (r : ModerateOptions) :
    (updateOptions item r).allCanBan = (r.allCanBan && item.suggestBanReport) := by
  unfold updateOptions
  cases item.suggestBanReport <;> cases item.suggestDeleteAllReport <;>
    cases item.fromPeer <;> simp <;> split <;> simp

theorem updateOptions_allCanDelete (item : HistoryItem) (r : ModerateOptions) :
    (updateOptions item r).allCanDelete = (r.allCanDelete && item.suggestDeleteAllReport) := by
  unfold updateOptions
  cases item.suggestBanReport <;> cases item.suggestDeleteAllReport <;>
    cases item.fromPeer <;> simp <;> split <;> simp

theorem updateOptions_participants (item : HistoryItem) (r : ModerateOptions) :
    (updateOptions item r).participants =
      match item.fromPeer with
      | some p => if p ∈ r.participants then r.participants else r.participants ++ [p]
      | none => r.participants := by
  unfold updateOptions
  cases item.suggestBanReport <;> cases item.suggestDeleteAllReport <;>
    cases item.fromPeer <;> simp <;> split <;> simp_all

theorem foldOptions_allCanBan (items : List HistoryItem) (r : ModerateOptions) :
    (foldOptions items r).allCanBan = (r.allCanBan && items.all (·.suggestBanReport)) := by
  induction items generalizing r with
  | nil => simp [foldOptions]
  | cons item rest ih =>
    have := ih (updateOptions item r)
    simp only [foldOptions, List.foldl_cons] at this ⊢
    rw [this, updateOptions_allCanBan, List.all_cons, Bool.and_assoc]

theorem foldOptions_allCanDelete (items : List HistoryItem) (r : ModerateOptions) :
    (foldOptions items r).allCanDelete =
      (r.allCanDelete && items.all (·.suggestDeleteAllReport)) := by
  induction items generalizing r with
  | nil => simp [foldOptions]
  | cons item rest ih =>
    have := ih (updateOptions item r)
    simp only [foldOptions, List.foldl_cons] at this ⊢
    rw [this, updateOptions_allCanDelete, List.all_cons, Bool.and_assoc]

theorem calculateLoop_of_succeeds (peer : PeerId) (items : List HistoryItem)
    (r : ModerateOptions) (h : loopSucceeds peer items r = true) :
    calculateLoop peer items r = foldOptions items r := by
  induction items generalizing r with
  | nil => simp [calculateLoop, foldOptions]
  | cons item rest ih =>
    have hr : loopSucceeds peer rest (updateOptions item r) = true := by
      simp only [loopSucceeds, List.all_cons, updateOptions_allCanBan,
        updateOptions_allCanDelete] at h ⊢
      revert h
      cases r.allCanBan <;> cases r.allCanDelete <;> cases item.suggestBanReport <;>
        cases item.suggestDeleteAllReport <;> simp <;> tauto
    have hflags : (!r.allCanBan && !r.allCanDelete) = false := by
      simp only [loopSucceeds] at h
      revert h
      cases r.allCanBan <;> cases r.allCanDelete <;> simp
    have hpeer : (peer != item.historyPeer) = false := by
      simp only [loopSucceeds, List.all_cons] at h
      revert h
      simp only [Bool.and_eq_true, beq_iff_eq, bne_eq_false_iff_eq]
      intro h
      exact h.1.1.symm
    rw [calculateLoop, hflags, hpeer]
    simp only [Bool.false_eq_true, if_false]
    rw [ih _ hr]
    simp [foldOptions]

theorem calculateLoop_of_fails (peer : PeerId) (items : List HistoryItem)
    (r : ModerateOptions) (h : loopSucceeds peer items r = false) :
    (calculateLoop peer items r).allCanBan = false ∧
      (calculateLoop peer items r).allCanDelete = false := by
  induction items generalizing r with
  | nil =>
    simp only [loopSucceeds, List.all_nil, Bool.and_true, Bool.true_and] at h
    simp only [calculateLoop]
    revert h
    cases r.allCanBan <;> cases r.allCanDelete <;> simp
  | cons item rest ih =>
    rw [calculateLoop]
    split
    · exact ⟨rfl, rfl⟩
    · split
      · exact ⟨rfl, rfl⟩
      · rename_i h1 h2
        apply ih
        simp only [bne_iff_ne, ne_eq, Decidable.not_not] at h2
        simp only [loopSucceeds, List.all_cons, updateOptions_allCanBan,
          updateOptions_allCanDelete, ← h2, beq_self_eq_true, Bool.true_and] at h ⊢
        revert h
        cases r.allCanBan <;> cases r.allCanDelete <;> cases item.suggestBanReport <;>
          cases item.suggestDeleteAllReport <;> simp

theorem firstMessageIndex_cons_of_ne (item : HistoryItem) (rest : List HistoryItem)
    (q : PeerId) (h : item.fromPeer ≠ some q) :
    firstMessageIndex (item :: rest) q = firstMessageIndex rest q + 1 := by
  have hb : (item.fromPeer == some q) = false := by simpa using h
  simp [firstMessageIndex, List.findIdx_cons, hb]

theorem firstMessageIndex_cons_of_eq (item : HistoryItem) (rest : List HistoryItem)
    (q : PeerId) (h : item.fromPeer = some q) :
    firstMessageIndex (item :: rest) q = 0 := by
  simp [firstMessageIndex, List.findIdx_cons, h]

/-- What the updates of the loop do to `participants`: they append, in the
order of first appearance, the authors that were not yet present. -/
theorem foldOptions_participants (items : List HistoryItem) (r : ModerateOptions) :
    ∃ added : List PeerId,
      (foldOptions items r).participants = r.participants ++ added ∧
      (∀ q ∈ added, q ∉ r.participants) ∧
      (∀ q ∈ added, ∃ item ∈ items, item.fromPeer = some q) ∧
      (∀ q, (∃ item ∈ items, item.fromPeer = some q) → q ∈ r.participants ∨ q ∈ added) ∧
      added.Pairwise (fun p q => firstMessageIndex items p < firstMessageIndex items q) := by
  induction items generalizing r with
  | nil => exact ⟨[], by simp [foldOptions]⟩
  | cons item rest ih =>
    obtain ⟨added, hEq, hNew, hFrom, hAll, hOrd⟩ := ih (updateOptions item r)
    have hfold : foldOptions (item :: rest) r = foldOptions rest (updateOptions item r) := by
      simp [foldOptions]
    rw [hfold, hEq, updateOptions_participants]
    rw [updateOptions_participants] at hNew hAll
    cases hp : item.fromPeer with
    | none =>
      simp only [hp] at hNew hAll ⊢
      refine ⟨added, rfl, hNew, ?_, ?_, ?_⟩
      · intro q hq
        obtain ⟨it, hit, hitq⟩ := hFrom q hq
        exact ⟨it, List.mem_cons_of_mem _ hit, hitq⟩
      · rintro q ⟨it, hit, hitq⟩
        rcases List.mem_cons.1 hit with rfl | hit
        · rw [hp] at hitq; cases hitq
        · exact hAll q ⟨it, hit, hitq⟩
      · refine hOrd.imp ?_
        intro a b hab
        rw [firstMessageIndex_cons_of_ne _ _ a (by simp [hp]),
          firstMessageIndex_cons_of_ne _ _ b (by simp [hp])]
        omega
    | some p =>
      by_cases hmem : p ∈ r.participants
      · simp only [hp, hmem, if_true] at hNew hAll ⊢
        have hne : ∀ q ∈ added, item.fromPeer ≠ some q := by
          intro q hq hcontra
          rw [hp] at hcontra
          cases hcontra
          exact hNew p hq hmem
        refine ⟨added, rfl, hNew, ?_, ?_, ?_⟩
        · intro q hq
          obtain ⟨it, hit, hitq⟩ := hFrom q hq
          exact ⟨it, List.mem_cons_of_mem _ hit, hitq⟩
        · rintro q ⟨it, hit, hitq⟩
          rcases List.mem_cons.1 hit with rfl | hit
          · rw [hp] at hitq; cases hitq
            exact Or.inl hmem
          · exact hAll q ⟨it, hit, hitq⟩
        · refine hOrd.imp_of_mem ?_
          intro a b ha hb hab
          rw [firstMessageIndex_cons_of_ne _ _ a (hne a ha),
            firstMessageIndex_cons_of_ne _ _ b (hne b hb)]
          omega
      · simp only [hp, hmem, if_false] at hNew hAll ⊢
        have hne : ∀ q ∈ added, item.fromPeer ≠ some q := by
          intro q hq hcontra
          rw [hp] at hcontra
          cases hcontra
          exact hNew p hq (by simp)
        refine ⟨p :: added, by simp, ?_, ?_, ?_, ?_⟩
        · intro q hq
          rcases List.mem_cons.1 hq with rfl | hq
          · exact hmem
          · intro hqr
            exact hNew q hq (by simp [hqr])
        · intro q hq
          rcases List.mem_cons.1 hq with rfl | hq
          · exact ⟨item, by simp, hp⟩
          · obtain ⟨it, hit, hitq⟩ := hFrom q hq
            exact ⟨it, List.mem_cons_of_mem _ hit, hitq⟩
        · rintro q ⟨it, hit, hitq⟩
          rcases List.mem_cons.1 hit with rfl | hit
          · rw [hp] at hitq; cases hitq
            exact Or.inr (by simp)
          · rcases hAll q ⟨it, hit, hitq⟩ with h | h
            · rcases List.mem_append.1 h with h | h
              · exact Or.inl h
              · simp only [List.mem_singleton] at h
                exact Or.inr (by simp [h])
            · exact Or.inr (List.mem_cons_of_mem _ h)
        · refine List.pairwise_cons.2 ⟨?_, ?_⟩
          · intro q hq
            rw [firstMessageIndex_cons_of_eq _ _ p hp,
              firstMessageIndex_cons_of_ne _ _ q (hne q hq)]
            omega
          · refine hOrd.imp_of_mem ?_
            intro a b ha hb hab
            rw [firstMessageIndex_cons_of_ne _ _ a (hne a ha),
              firstMessageIndex_cons_of_ne _ _ b (hne b hb)]
            omega

theorem loopSucceeds_init_iff (peer : PeerId) (items : List HistoryItem) :
    loopSucceeds peer items { allCanBan := true, allCanDelete := true } = true ↔
      (∀ item ∈ items, item.historyPeer = peer) ∧
        ((∀ item ∈ items, item.suggestBanReport = true) ∨
          (∀ item ∈ items, item.suggestDeleteAllReport = true)) := by
  simp [loopSucceeds]

/-- The participants of a completed loop that started from the empty list. -/
theorem foldOptions_init_participants (items : List HistoryItem) (ban del : Bool) :
    (∀ q, q ∈ (foldOptions items
        { allCanBan := ban, allCanDelete := del }).participants ↔
      ∃ item ∈ items, item.fromPeer = some q) ∧
    (foldOptions items { allCanBan := ban, allCanDelete := del }).participants.Pairwise
      (fun p q => firstMessageIndex items p < firstMessageIndex items q) := by
  obtain ⟨added, hEq, -, hFrom, hAll, hOrd⟩ :=
    foldOptions_participants items { allCanBan := ban, allCanDelete := del }
  simp only [List.nil_append] at hEq
  rw [hEq]
  refine ⟨fun q => ⟨hFrom q, fun h => ?_⟩, hOrd⟩
  rcases hAll q h with h | h
  · simp at h
  · exact h

/-- C1: for a non-empty list of items `CanCreateModerateMessagesBox` returns
true exactly when every item is in the chat of the first item, every item
suggests ban-report or every item suggests delete-all-report, and some item
has an author; in particular it returns false as soon as one item belongs to
another chat. -/
theorem canCreateModerateMessagesBox_iff (first : HistoryItem) (rest : List HistoryItem) :
    ∃ b, CanCreateModerateMessagesBox (first :: rest) = some b ∧
      (b = true ↔
        (∀ item ∈ first :: rest, item.historyPeer = first.historyPeer) ∧
        ((∀ item ∈ first :: rest, item.suggestBanReport = true) ∨
          (∀ item ∈ first :: rest, item.suggestDeleteAllReport = true)) ∧
        (∃ item ∈ first :: rest, item.fromPeer ≠ none)) ∧
      ((∃ item ∈ first :: rest, item.historyPeer ≠ first.historyPeer) → b = false) := by
  refine ⟨_, rfl, ?_⟩
  have key :
      (((calculateLoop first.historyPeer (first :: rest)
            { allCanBan := true, allCanDelete := true }).allCanBan ||
          (calculateLoop first.historyPeer (first :: rest)
            { allCanBan := true, allCanDelete := true }).allCanDelete) &&
        !(calculateLoop first.historyPeer (first :: rest)
            { allCanBan := true, allCanDelete := true }).participants.isEmpty) = true ↔
      (∀ item ∈ first :: rest, item.historyPeer = first.historyPeer) ∧
        ((∀ item ∈ first :: rest, item.suggestBanReport = true) ∨
          (∀ item ∈ first :: rest, item.suggestDeleteAllReport = true)) ∧
        (∃ item ∈ first :: rest, item.fromPeer ≠ none) := by
    cases hs : loopSucceeds first.historyPeer (first :: rest)
        { allCanBan := true, allCanDelete := true } with
    | false =>
      obtain ⟨h1, h2⟩ := calculateLoop_of_fails _ _ _ hs
      rw [h1, h2]
      have hn := (loopSucceeds_init_iff first.historyPeer (first :: rest)).not.1
        (by simp [hs])
      constructor
      · intro h; simp at h
      · rintro ⟨ha, hb, -⟩
        exact absurd ⟨ha, hb⟩ hn
    | true =>
      rw [calculateLoop_of_succeeds _ _ _ hs, foldOptions_allCanBan,
        foldOptions_allCanDelete]
      obtain ⟨ha, hb⟩ := (loopSucceeds_init_iff first.historyPeer (first :: rest)).1 hs
      obtain ⟨hmem, -⟩ := foldOptions_init_participants (first :: rest) true true
      have hflags : ((true && (first :: rest).all (·.suggestBanReport)) ||
          (true && (first :: rest).all (·.suggestDeleteAllReport))) = true := by
        rcases hb with hb | hb
        · have : (first :: rest).all (·.suggestBanReport) = true :=
            List.all_eq_true.2 hb
          simp [this]
        · have : (first :: rest).all (·.suggestDeleteAllReport) = true :=
            List.all_eq_true.2 hb
          simp [this]
      rw [hflags]
      simp only [Bool.true_and, Bool.not_eq_true', List.isEmpty_eq_false]
      constructor
      · intro hnil
        refine ⟨ha, hb, ?_⟩
        obtain ⟨q, hq⟩ := List.exists_mem_of_ne_nil _ hnil
        obtain ⟨item, hitem, hfrom⟩ := (hmem q).1 hq
        exact ⟨item, hitem, by simp [hfrom]⟩
      · rintro ⟨-, -, item, hitem, hfrom⟩
        obtain ⟨q, hq⟩ := Option.ne_none_iff_exists'.1 hfrom
        exact List.ne_nil_of_mem ((hmem q).2 ⟨item, hitem, hq⟩)
  refine ⟨key, ?_⟩
  rintro ⟨item, hitem, hpeer⟩
  apply Bool.eq_false_iff.2
  intro hb
  exact hpeer ((key.1 hb).1 item hitem)

theorem loopSucceeds_of_canCreate (first : HistoryItem) (rest : List HistoryItem)
    (h : CanCreateModerateMessagesBox (first :: rest) = some true) :
    loopSucceeds first.historyPeer (first :: rest)
      { allCanBan := true, allCanDelete := true } = true := by
  cases hs : loopSucceeds first.historyPeer (first :: rest)
      { allCanBan := true, allCanDelete := true } with
  | true => rfl
  | false =>
    obtain ⟨h1, h2⟩ := calculateLoop_of_fails _ _ _ hs
    simp [CanCreateModerateMessagesBox, CalculateModerateOptions, h1, h2] at h

/-- C2: when `CanCreateModerateMessagesBox` holds for a non-empty list, the
participants computed by `CalculateModerateOptions` are exactly the authors
of the items, without repetition and ordered by the position of their first
message; the box is in single-author mode exactly when all authored items
have the same author, and `Assert(!participants.empty())` holds. -/
theorem calculateModerateOptions_participants (first : HistoryItem)
    (rest : List HistoryItem)
    (h : CanCreateModerateMessagesBox (first :: rest) = some true) :
    ∃ options, CalculateModerateOptions (first :: rest) = some options ∧
      (∀ q, q ∈ options.participants ↔ ∃ item ∈ first :: rest, item.fromPeer = some q) ∧
      options.participants.Nodup ∧
      options.participants.Pairwise (fun p q =>
        firstMessageIndex (first :: rest) p < firstMessageIndex (first :: rest) q) ∧
      (isSingle options.participants = true ↔
        ∀ i ∈ first :: rest, ∀ j ∈ first :: rest, ∀ p q,
          i.fromPeer = some p → j.fromPeer = some q → p = q) ∧
      options.participants ≠ [] ∧
      ∀ confirmed,
        CreateModerateMessagesBox (first :: rest) confirmed ≠ .error .participantsEmpty := by
  have hs := loopSucceeds_of_canCreate first rest h
  have hopt : CalculateModerateOptions (first :: rest) =
      some (foldOptions (first :: rest) { allCanBan := true, allCanDelete := true }) := by
    simp only [CalculateModerateOptions]
    rw [calculateLoop_of_succeeds _ _ _ hs]
  obtain ⟨hmem, hord⟩ := foldOptions_init_participants (first :: rest) true true
  have hnodup : (foldOptions (first :: rest)
      { allCanBan := true, allCanDelete := true }).participants.Nodup := by
    refine hord.imp ?_
    intro a b hab heq
    rw [heq] at hab
    exact Nat.lt_irrefl _ hab
  have hne : (foldOptions (first :: rest)
      { allCanBan := true, allCanDelete := true }).participants ≠ [] := by
    intro hnil
    simp [CanCreateModerateMessagesBox, hopt, hnil] at h
  refine ⟨_, hopt, hmem, hnodup, hord, ?_, hne, ?_⟩
  · generalize (foldOptions (first :: rest)
      { allCanBan := true, allCanDelete := true }).participants = parts at hmem hnodup hne
    constructor
    · intro hsingle i hi j hj p q hp hq
      have hp' := (hmem p).2 ⟨i, hi, hp⟩
      have hq' := (hmem q).2 ⟨j, hj, hq⟩
      simp only [isSingle, beq_iff_eq] at hsingle
      obtain ⟨a, rfl⟩ := List.length_eq_one.1 hsingle
      simp only [List.mem_singleton] at hp' hq'
      rw [hp', hq']
    · intro hall
      match parts, hmem, hnodup, hne with
      | [a], _, _, _ => rfl
      | a :: b :: t, hmem, hnodup, _ =>
        exfalso
        obtain ⟨i, hi, hia⟩ := (hmem a).1 (by simp)
        obtain ⟨j, hj, hjb⟩ := (hmem b).1 (by simp)
        have hab := hall i hi j hj a b hia hjb
        simp [hab] at hnodup
  · intro confirmed
    simp only [CreateModerateMessagesBox, hopt]
    have hemp : (foldOptions (first :: rest)
        { allCanBan := true, allCanDelete := true }).participants.isEmpty = false := by
      simpa using hne
    rw [hemp]
    simp only [Bool.false_eq_true, if_false]
    split <;> simp

/-- C2 at a list of three messages of one chat by the authors 7, 5, 7. -/
theorem calculateModerateOptions_participants_witness :
    CanCreateModerateMessagesBox
        [⟨1, true, false, some 7, 10⟩, ⟨1, true, false, some 5, 11⟩,
          ⟨1, true, true, some 7, 12⟩] = some true ∧
      ∃ options, CalculateModerateOptions
          [⟨1, true, false, some 7, 10⟩, ⟨1, true, false, some 5, 11⟩,
            ⟨1, true, true, some 7, 12⟩] = some options ∧
        options.participants = [7, 5] := by
  refine ⟨by decide, ?_⟩
  obtain ⟨options, hopt, -⟩ := calculateModerateOptions_participants
    ⟨1, true, false, some 7, 10⟩
    [⟨1, true, false, some 5, 11⟩, ⟨1, true, true, some 7, 12⟩] (by decide)
  exact ⟨options, hopt, by
    have : CalculateModerateOptions
        [⟨1, true, false, some 7, 10⟩, ⟨1, true, false, some 5, 11⟩,
          ⟨1, true, true, some 7, 12⟩] =
        some ⟨true, false, [7, 5]⟩ := by decide
    rw [this] at hopt
    cases hopt
    rfl⟩

/-! ## The timer of `sequentiallyRequest` -/

/-- While the session resolves the channel and the participants, a running
timer started at `counter = k` issues the request for the remaining
participants in order and destroys itself on the tick after the last one. -/
theorem SequentialRequest.run_of_resolves (request : Request) (ids : List PeerId)
    (c : ChannelData) (sessions : List SessionView) (k : Nat) (hk : k ≤ ids.length)
    (hlen : sessions.length = ids.length - k + 1)
    (hres : ∀ session ∈ sessions, session.resolves c ids) :
    SequentialRequest.run
        { request := request, participantIds := ids, counter := k, alive := true } sessions =
      ({ request := request, participantIds := ids, counter := ids.length, alive := false },
        (ids.drop k).map fun p => request.call p c) := by
  induction sessions generalizing k with
  | nil => simp at hlen
  | cons session later ih =>
    obtain ⟨halive, hchan, hpeer⟩ := hres session (by simp)
    rcases Nat.lt_or_ge k ids.length with hlt | hge
    · have hget : ids[k]? = some ids[k] := List.getElem?_eq_getElem hlt
      have hp : session.peer ids[k] = true := hpeer ids[k] (List.getElem_mem _)
      have hstep : SequentialRequest.tick
          { request := request, participantIds := ids, counter := k, alive := true } session =
          ({ request := request, participantIds := ids, counter := k + 1, alive := true },
            some (request.call ids[k] c)) := by
        simp only [SequentialRequest.tick, halive, hget, hchan, hp]
        rfl
      have hlater := ih (k + 1) hlt (by simp at hlen; omega)
        (fun s hs => hres s (List.mem_cons_of_mem _ hs))
      rw [SequentialRequest.run, hstep]
      simp only [hlater, Option.toList]
      rw [List.drop_eq_getElem_cons hlt]
      rfl
    · have hkeq : k = ids.length := Nat.le_antisymm hk hge
      subst hkeq
      have hget : ids[ids.length]? = none := List.getElem?_eq_none (Nat.le_refl _)
      have hnil : later = [] := by
        apply List.eq_nil_of_length_eq_zero
        simp only [List.length_cons, Nat.sub_self] at hlen
        omega
      subst hnil
      simp [SequentialRequest.run, SequentialRequest.tick, halive, hget]

theorem scheduled_append (kind : Request → Bool) (a b : List Effect) :
    scheduled kind (a ++ b) = scheduled kind a ++ scheduled kind b := by
  simp [scheduled, List.filterMap_append]

theorem scheduled_handleConfirmation (kind : Request → Bool) (section_ : SectionState)
    (request : Request) :
    scheduled kind (handleConfirmation section_ request) =
      if kind request = true ∧ section_.checked = true then
        (section_.collectRequests.map fun ps => (request, ps)).toList
      else [] := by
  rcases section_ with ⟨checked, collect⟩
  cases checked <;> cases collect <;> cases hk : kind request <;>
    simp [handleConfirmation, scheduled, hk]

theorem scheduled_handleBanConfirmation (kind : Request → Bool) (ui : UiState) :
    scheduled kind (handleBanConfirmation ui) =
      if kind (.ban (!ui.wrapToggled) ui.restrictions) = true ∧ ui.ban.checked = true then
        (ui.ban.collectRequests.map fun ps =>
          (Request.ban (!ui.wrapToggled) ui.restrictions, ps)).toList
      else [] := by
  rcases ui with ⟨report, deleteAll, ⟨checked, collect⟩, toggled, restrictions, alive⟩
  cases checked <;> cases collect <;>
    cases hk : kind (.ban (!toggled) restrictions) <;>
    simp [handleBanConfirmation, scheduled, hk]

theorem scheduled_pressDelete (kind : Request → Bool) (box : ModerateBox) (ui : UiState) :
    scheduled kind (pressDelete box ui) = scheduled kind (fireConfirms box ui) := by
  simp only [pressDelete, closeGuarded, scheduled_append]
  cases box.confirmed <;> cases ui.boxAlive <;> simp [scheduled]

theorem createModerateMessagesBox_ok (items : List HistoryItem) (confirmed : Bool)
    (box : ModerateBox) (h : CreateModerateMessagesBox items confirmed = .ok box) :
    box.items = items ∧ box.confirmed = confirmed ∧ box.reportIds = itemsToIds items ∧
      box.deleteIds = itemsToIds items ∧
      ∃ options, CalculateModerateOptions items = some options ∧
        box.participants = options.participants ∧ box.hasDeleteAll = options.allCanDelete ∧
        box.hasBan = options.allCanBan := by
  unfold CreateModerateMessagesBox at h
  split at h
  · cases h
  · rename_i options hopt
    split at h
    · cases h
    · split at h
      · cases h
      · cases h
        exact ⟨rfl, rfl, rfl, rfl, options, hopt, rfl, rfl, rfl⟩

theorem SequentialRequest.tick_request (job : SequentialRequest) (session : SessionView) :
    (job.tick session).1.request = job.request ∧
      ∀ call ∈ (job.tick session).2, ∃ p c, call = job.request.call p c := by
  unfold SequentialRequest.tick
  split
  · simp
  · split
    · rename_i id _
      refine ⟨rfl, ?_⟩
      intro call hcall
      simp only [Option.mem_def] at hcall
      split at hcall
      · rename_i channel _ _
        exact ⟨id, channel, (Option.some.inj hcall).symm⟩
      · cases hcall
    · simp

/-- Every call issued by a timer is a call of its request. -/
theorem SequentialRequest.run_calls (job : SequentialRequest) (sessions : List SessionView) :
    ∀ call ∈ (job.run sessions).2, ∃ p c, call = job.request.call p c := by
  induction sessions generalizing job with
  | nil => simp [SequentialRequest.run]
  | cons session later ih =>
    intro call hcall
    simp only [SequentialRequest.run, List.mem_append] at hcall
    rcases hcall with hcall | hcall
    · exact (job.tick_request session).2 call (by simpa using hcall)
    · have := ih (job.tick session).1 call hcall
      rwa [(job.tick_request session).1] at this

theorem fireConfirms_sequentially (box : ModerateBox) (ui : UiState) :
    ∀ e ∈ fireConfirms box ui, ∃ request ps, e = .sequentially request ps := by
  intro e he
  simp only [fireConfirms, List.mem_append] at he
  rcases he with (he | he) | he
  · unfold handleConfirmation at he
    split at he
    · simp only [List.mem_singleton] at he
      exact ⟨_, _, he⟩
    · cases he
  · split at he
    · unfold handleConfirmation at he
      split at he
      · simp only [List.mem_singleton] at he
        exact ⟨_, _, he⟩
      · cases he
    · cases he
  · split at he
    · unfold handleBanConfirmation at he
      split at he
      · simp only [List.mem_singleton] at he
        exact ⟨_, _, he⟩
      · cases he
    · cases he

theorem mem_scheduled (kind : Request → Bool) (effects : List Effect) (request : Request)
    (ps : List PeerId) :
    (request, ps) ∈ scheduled kind effects ↔
      Effect.sequentially request ps ∈ effects ∧ kind request = true := by
  induction effects with
  | nil => simp [scheduled]
  | cons e rest ih =>
    have hcons : scheduled kind (e :: rest) = scheduled kind [e] ++ scheduled kind rest :=
      scheduled_append kind [e] rest
    rw [hcons, List.mem_append, ih, List.mem_cons]
    cases e with
    | sequentially r qs =>
      cases hk : kind r
      · simp only [scheduled, List.filterMap_cons, hk, Bool.false_eq_true, if_false,
          List.filterMap_nil, List.not_mem_nil, false_or, Effect.sequentially.injEq]
        constructor
        · rintro ⟨h1, h2⟩
          exact ⟨Or.inr h1, h2⟩
        · rintro ⟨⟨rfl, rfl⟩ | h1, h2⟩
          · rw [hk] at h2; cases h2
          · exact ⟨h1, h2⟩
      · simp only [scheduled, List.filterMap_cons, hk, if_true, List.filterMap_nil,
          List.mem_singleton, Prod.mk.injEq, Effect.sequentially.injEq]
        constructor
        · rintro (⟨rfl, rfl⟩ | ⟨h1, h2⟩)
          · exact ⟨Or.inl ⟨rfl, rfl⟩, hk⟩
          · exact ⟨Or.inr h1, h2⟩
        · rintro ⟨⟨rfl, rfl⟩ | h1, h2⟩
          · exact Or.inl ⟨rfl, rfl⟩
          · exact Or.inr ⟨h1, h2⟩
    | _ => simp [scheduled]

/-! ## Confirmation of the moderate-messages box -/

/-- C3: when Delete is pressed, the report section (and the delete-all section
when it was built) calls `sequentiallyRequest` exactly when its own checkbox
is checked and its `collectRequests` is set, with the participants that
`collectRequests()` returns; nothing else in the state of the box changes
that.  Every report request carries the ids of all items of the box, and a
timer whose lookups succeed issues one request per participant, in order. -/
theorem confirmation_requests_iff_checked (items : List HistoryItem) (confirmed : Bool)
    (box : ModerateBox) (ui : UiState)
    (hbox : CreateModerateMessagesBox items confirmed = .ok box) :
    scheduled Request.isReport (pressDelete box ui) =
        (if ui.report.checked = true then
          (ui.report.collectRequests.map fun ps =>
            (Request.report (itemsToIds items), ps)).toList
        else []) ∧
      scheduled Request.isDeleteAll (pressDelete box ui) =
        (if box.hasDeleteAll = true ∧ ui.deleteAll.checked = true then
          (ui.deleteAll.collectRequests.map fun ps => (Request.deleteAll, ps)).toList
        else []) ∧
      (∀ other : UiState, other.report = ui.report →
        scheduled Request.isReport (pressDelete box other) =
          scheduled Request.isReport (pressDelete box ui)) ∧
      (∀ other : UiState, other.deleteAll = ui.deleteAll →
        scheduled Request.isDeleteAll (pressDelete box other) =
          scheduled Request.isDeleteAll (pressDelete box ui)) ∧
      (∀ p c, (Request.report (itemsToIds items)).call p c =
        ApiCall.reportSpam c.id p (items.map (·.msg))) ∧
      (∀ (request : Request) (ps : List PeerId) (c : ChannelData)
          (sessions : List SessionView),
        sessions.length = ps.length + 1 → (∀ s ∈ sessions, s.resolves c ps) →
          ((sequentiallyRequest request ps).run sessions).2 =
            ps.map fun p => request.call p c) := by
  obtain ⟨-, -, hids, -, -⟩ := createModerateMessagesBox_ok items confirmed box hbox
  have hreport : ∀ u : UiState, scheduled Request.isReport (pressDelete box u) =
      (if u.report.checked = true then
        (u.report.collectRequests.map fun ps =>
          (Request.report (itemsToIds items), ps)).toList
      else []) := by
    intro u
    rw [scheduled_pressDelete]
    simp only [fireConfirms, scheduled_append, scheduled_handleConfirmation, hids]
    have h2 : scheduled Request.isReport
        (if box.hasDeleteAll = true then handleConfirmation u.deleteAll Request.deleteAll
          else []) = [] := by
      split
      · rw [scheduled_handleConfirmation]; simp [Request.isReport]
      · rfl
    have h3 : scheduled Request.isReport
        (if box.hasBan = true then handleBanConfirmation u else []) = [] := by
      split
      · rw [scheduled_handleBanConfirmation]; simp [Request.isReport]
      · rfl
    rw [h2, h3]
    simp [Request.isReport]
  have hdelete : ∀ u : UiState, scheduled Request.isDeleteAll (pressDelete box u) =
      (if box.hasDeleteAll = true ∧ u.deleteAll.checked = true then
        (u.deleteAll.collectRequests.map fun ps => (Request.deleteAll, ps)).toList
      else []) := by
    intro u
    rw [scheduled_pressDelete]
    simp only [fireConfirms, scheduled_append]
    have h1 : scheduled Request.isDeleteAll
        (handleConfirmation u.report (Request.report box.reportIds)) = [] := by
      rw [scheduled_handleConfirmation]; simp [Request.isDeleteAll]
    have h3 : scheduled Request.isDeleteAll
        (if box.hasBan = true then handleBanConfirmation u else []) = [] := by
      split
      · rw [scheduled_handleBanConfirmation]; simp [Request.isDeleteAll]
      · rfl
    rw [h1, h3]
    cases box.hasDeleteAll
    · simp [scheduled]
    · simp only [if_true, scheduled_handleConfirmation]
      simp [Request.isDeleteAll]
  refine ⟨hreport ui, hdelete ui, ?_, ?_, ?_, ?_⟩
  · intro other h
    rw [hreport other, hreport ui, h]
  · intro other h
    rw [hdelete other, hdelete ui, h]
  · intro p c
    simp [Request.call, itemsToIds, HistoryItem.fullId]
  · intro request ps c sessions hlen hres
    have := SequentialRequest.run_of_resolves request ps c sessions 0 (Nat.zero_le _)
      (by simpa using hlen) hres
    simp only [sequentiallyRequest]
    rw [this]
    simp

/-- C3 at `sampleBox` in the state `sampleUi`: exactly one report request is
scheduled, for the participant 7, and none for the delete-all section. -/
theorem confirmation_requests_iff_checked_witness :
    CreateModerateMessagesBox sampleItems false = .ok sampleBox ∧
      scheduled Request.isReport (pressDelete sampleBox sampleUi) =
        [(Request.report [⟨1, 10⟩, ⟨1, 11⟩], [7])] ∧
      scheduled Request.isDeleteAll (pressDelete sampleBox sampleUi) = [] := by
  have h := confirmation_requests_iff_checked sampleItems false sampleBox sampleUi rfl
  exact ⟨rfl, h.1.trans (by decide), h.2.1.trans (by decide)⟩

theorem scheduled_isBan_pressDelete (box : ModerateBox) (ui : UiState) :
    scheduled Request.isBan (pressDelete box ui) =
      (if box.hasBan = true ∧ ui.ban.checked = true then
        (ui.ban.collectRequests.map fun ps =>
          (Request.ban (!ui.wrapToggled) ui.restrictions, ps)).toList
      else []) := by
  rw [scheduled_pressDelete]
  simp only [fireConfirms, scheduled_append]
  have h1 : scheduled Request.isBan
      (handleConfirmation ui.report (Request.report box.reportIds)) = [] := by
    rw [scheduled_handleConfirmation]; simp [Request.isBan]
  have h2 : scheduled Request.isBan
      (if box.hasDeleteAll = true then handleConfirmation ui.deleteAll Request.deleteAll
        else []) = [] := by
    split
    · rw [scheduled_handleConfirmation]; simp [Request.isBan]
    · rfl
  rw [h1, h2]
  cases box.hasBan
  · simp [scheduled]
  · simp only [if_true, scheduled_handleBanConfirmation]
    simp [Request.isBan]

/-- C4: on confirmation the ban section calls `sequentiallyRequest` exactly
when it was built, its checkbox is checked and `collectRequests` is set.  Its
request kicks a participant, with the restrictions the channel has when the
request runs, if the restrictions panel was collapsed at confirmation, and
otherwise restricts the participant with the rights that `getRestrictions()`
returned at confirmation; a timer whose lookups succeed issues exactly one
such call per collected participant.  With the ban checkbox unchecked no
timer of the box ever issues a kick or a restrict call. -/
theorem ban_confirmation_kicks_or_restricts (box : ModerateBox) (ui : UiState) :
    scheduled Request.isBan (pressDelete box ui) =
        (if box.hasBan = true ∧ ui.ban.checked = true then
          (ui.ban.collectRequests.map fun ps =>
            (Request.ban (!ui.wrapToggled) ui.restrictions, ps)).toList
        else []) ∧
      (∀ p c, (Request.ban (!ui.wrapToggled) ui.restrictions).call p c =
        if ui.wrapToggled = true then ApiCall.restrict c.id p ui.restrictions
        else ApiCall.kick c.id p c.restrictions) ∧
      (∀ (ps : List PeerId) (c : ChannelData) (sessions : List SessionView),
        sessions.length = ps.length + 1 → (∀ s ∈ sessions, s.resolves c ps) →
          ((sequentiallyRequest (.ban (!ui.wrapToggled) ui.restrictions) ps).run sessions).2 =
            ps.map fun p =>
              if ui.wrapToggled = true then ApiCall.restrict c.id p ui.restrictions
              else ApiCall.kick c.id p c.restrictions) ∧
      (ui.ban.checked = false →
        ∀ request ps, Effect.sequentially request ps ∈ pressDelete box ui →
          ∀ sessions, ∀ call ∈ ((sequentiallyRequest request ps).run sessions).2,
            call.isKickOrRestrict = false) := by
  have hcall : ∀ p c, (Request.ban (!ui.wrapToggled) ui.restrictions).call p c =
      if ui.wrapToggled = true then ApiCall.restrict c.id p ui.restrictions
      else ApiCall.kick c.id p c.restrictions := by
    intro p c
    cases ui.wrapToggled <;> simp [Request.call]
  refine ⟨scheduled_isBan_pressDelete box ui, hcall, ?_, ?_⟩
  · intro ps c sessions hlen hres
    have := SequentialRequest.run_of_resolves (.ban (!ui.wrapToggled) ui.restrictions)
      ps c sessions 0 (Nat.zero_le _) (by simpa using hlen) hres
    simp only [sequentiallyRequest]
    rw [this]
    simp only [List.drop_zero]
    exact List.map_congr_left fun p _ => hcall p c
  · intro hunchecked request ps hmem sessions call hcall'
    obtain ⟨p, c, rfl⟩ := SequentialRequest.run_calls _ sessions call hcall'
    have hnot : request.isBan = false := by
      cases hban : request.isBan with
      | false => rfl
      | true =>
        have hin := (mem_scheduled Request.isBan _ request ps).2 ⟨hmem, hban⟩
        rw [scheduled_isBan_pressDelete, hunchecked] at hin
        simp at hin
    cases request with
    | report ids => rfl
    | deleteAll => rfl
    | ban kick restrictions => simp [Request.isBan] at hnot

/-- C5: with the box alive, pressing Delete runs the subscribers of the
confirmation event, which only start timers, then the `confirmed` callback
when one was given, then deletes exactly the messages of the box with
`revoke = true`, sends the history-change notifications and closes the box;
this is the only deletion, whatever the checkboxes.  Pressing Cancel only
closes the box. -/
theorem pressDelete_deletes_items (items : List HistoryItem) (confirmed : Bool)
    (box : ModerateBox) (ui : UiState)
    (hbox : CreateModerateMessagesBox items confirmed = .ok box)
    (halive : ui.boxAlive = true) :
    deletions (pressDelete box ui) = [(itemsToIds items, true)] ∧
      pressDelete box ui =
        fireConfirms box ui
          ++ (if confirmed = true then [Effect.confirmedCallback] else [])
          ++ [.deleteMessages (itemsToIds items) true, .sendHistoryChangeNotifications,
            .closeBox] ∧
      (∀ e ∈ fireConfirms box ui, ∃ request ps, e = Effect.sequentially request ps) ∧
      pressCancel box ui = [.closeBox] := by
  obtain ⟨-, hconf, -, hids, -⟩ := createModerateMessagesBox_ok items confirmed box hbox
  have hshape : pressDelete box ui =
      fireConfirms box ui
        ++ (if confirmed = true then [Effect.confirmedCallback] else [])
        ++ [.deleteMessages (itemsToIds items) true, .sendHistoryChangeNotifications,
          .closeBox] := by
    simp [pressDelete, closeGuarded, halive, hconf, hids]
  refine ⟨?_, hshape, fireConfirms_sequentially box ui, by simp [pressCancel, closeGuarded, halive]⟩
  rw [hshape]
  have hfire : deletions (fireConfirms box ui) = [] := by
    unfold deletions
    apply List.filterMap_eq_nil_iff.2
    intro e he
    obtain ⟨request, ps, rfl⟩ := fireConfirms_sequentially box ui e he
    rfl
  have happ : ∀ a b : List Effect, deletions (a ++ b) = deletions a ++ deletions b := by
    intro a b
    simp [deletions, List.filterMap_append]
  rw [happ, happ, hfire]
  cases confirmed <;> simp [deletions]

/-- C5 at `sampleBox` in the state `sampleUi`. -/
theorem pressDelete_deletes_items_witness :
    CreateModerateMessagesBox sampleItems false = .ok sampleBox ∧
      sampleUi.boxAlive = true ∧
      deletions (pressDelete sampleBox sampleUi) = [(itemsToIds sampleItems, true)] ∧
      pressCancel sampleBox sampleUi = [.closeBox] := by
  have h := pressDelete_deletes_items sampleItems false sampleBox sampleUi rfl rfl
  exact ⟨rfl, rfl, h.1, h.2.2.2⟩

/-- C11: when `CanCreateModerateMessagesBox` holds for a non-empty list, the
flags of `CalculateModerateOptions` are exact: `allCanBan` holds exactly when
every item suggests ban-report and `allCanDelete` exactly when every item
suggests delete-all-report; so a box that is created has its delete-all
section exactly when every item suggests delete-all, and its ban section
exactly when every item suggests ban. -/
theorem calculateModerateOptions_flags (first : HistoryItem) (rest : List HistoryItem)
    (h : CanCreateModerateMessagesBox (first :: rest) = some true) :
    ∃ options, CalculateModerateOptions (first :: rest) = some options ∧
      (options.allCanBan = true ↔
        ∀ item ∈ first :: rest, item.suggestBanReport = true) ∧
      (options.allCanDelete = true ↔
        ∀ item ∈ first :: rest, item.suggestDeleteAllReport = true) ∧
      ∀ confirmed box, CreateModerateMessagesBox (first :: rest) confirmed = .ok box →
        (box.hasDeleteAll = true ↔
          ∀ item ∈ first :: rest, item.suggestDeleteAllReport = true) ∧
        (box.hasBan = true ↔ ∀ item ∈ first :: rest, item.suggestBanReport = true) := by
  have hs := loopSucceeds_of_canCreate first rest h
  have hopt : CalculateModerateOptions (first :: rest) =
      some (foldOptions (first :: rest) { allCanBan := true, allCanDelete := true }) := by
    simp only [CalculateModerateOptions]
    rw [calculateLoop_of_succeeds _ _ _ hs]
  have hban : (foldOptions (first :: rest)
      { allCanBan := true, allCanDelete := true }).allCanBan = true ↔
      ∀ item ∈ first :: rest, item.suggestBanReport = true := by
    rw [foldOptions_allCanBan, Bool.true_and, List.all_eq_true]
  have hdel : (foldOptions (first :: rest)
      { allCanBan := true, allCanDelete := true }).allCanDelete = true ↔
      ∀ item ∈ first :: rest, item.suggestDeleteAllReport = true := by
    rw [foldOptions_allCanDelete, Bool.true_and, List.all_eq_true]
  refine ⟨_, hopt, hban, hdel, ?_⟩
  intro confirmed box hbox
  obtain ⟨-, -, -, -, options, hopt', -, hd, hb⟩ :=
    createModerateMessagesBox_ok _ confirmed box hbox
  rw [hopt] at hopt'
  cases hopt'
  rw [hd, hb]
  exact ⟨hdel, hban⟩

/-- C11 at `sampleItems`, where both messages suggest both reports, so the
box has both sections. -/
theorem calculateModerateOptions_flags_witness :
    CanCreateModerateMessagesBox sampleItems = some true ∧
      CreateModerateMessagesBox sampleItems false = .ok sampleBox ∧
      (sampleBox.hasDeleteAll = true ↔
        ∀ item ∈ sampleItems, item.suggestDeleteAllReport = true) ∧
      (sampleBox.hasBan = true ↔ ∀ item ∈ sampleItems, item.suggestBanReport = true) := by
  obtain ⟨_, _, _, _, hbox⟩ := calculateModerateOptions_flags
    ⟨1, true, true, some 5, 10⟩ [⟨1, true, true, some 7, 11⟩] (by decide)
  exact ⟨by decide, rfl, hbox false sampleBox rfl⟩

/-! ## The timer of `sequentiallyRequest` as a counter -/

theorem deleteChatConfirm_eq (peer : PeerData) (ui : DeleteChatUi) :
    deleteChatConfirm peer ui =
      [ChatEffect.closeChatFromWindows peer.id]
        ++ (if existsAndChecked (maybeBotCheckbox peer ui) = true then [.block peer.id] else [])
        ++ [.deleteConversation peer.id (existsAndChecked (maybeCheckbox peer ui))]
        ++ (if ui.boxAlive = true then [.closeBox] else []) := rfl

/-- C18: for a peer that is not a user the confirm button of `DeleteChatBox`
reads 'Delete' exactly when confirming calls `deleteConversation` with
`revoke = true`, which is when the revoke checkbox exists and is checked,
and 'Leave' otherwise; for a user it always reads 'Delete'. -/
theorem deleteChatBox_buttonText (peer : PeerData) (ui : DeleteChatUi) :
    conversationDeletions (deleteChatConfirm peer ui) =
        [(peer.id, existsAndChecked (maybeCheckbox peer ui))] ∧
      (peer.isUser = false →
        (buttonText peer ui = .lng_box_delete ↔
          existsAndChecked (maybeCheckbox peer ui) = true) ∧
        (buttonText peer ui = .lng_box_delete ↔ maybeCheckbox peer ui = some true) ∧
        (buttonText peer ui = .lng_box_leave ↔
          maybeCheckbox peer ui = none ∨ maybeCheckbox peer ui = some false) ∧
        (buttonText peer ui = .lng_box_delete ↔
          ChatEffect.deleteConversation peer.id true ∈ deleteChatConfirm peer ui)) ∧
      (peer.isUser = true → buttonText peer ui = .lng_box_delete) := by
  refine ⟨?_, ?_, ?_⟩
  · rw [deleteChatConfirm_eq]
    simp only [conversationDeletions]
    cases existsAndChecked (maybeBotCheckbox peer ui) <;> cases ui.boxAlive <;> simp
  · intro huser
    have hmem : ChatEffect.deleteConversation peer.id true ∈ deleteChatConfirm peer ui ↔
        existsAndChecked (maybeCheckbox peer ui) = true := by
      rw [deleteChatConfirm_eq]
      cases existsAndChecked (maybeBotCheckbox peer ui) <;> cases ui.boxAlive <;> simp
    rw [hmem]
    unfold buttonText
    rw [huser]
    cases maybeCheckbox peer ui with
    | none => simp [existsAndChecked]
    | some checked => cases checked <;> simp [existsAndChecked]
  · intro huser
    simp [buttonText, huser]

/-- C19: confirming `DeleteChatBox` blocks the peer exactly when the peer is a
user that is a bot and the block-bot checkbox is checked; no other peer is
ever blocked, and the block call comes before the `deleteConversation` call. -/
theorem deleteChatBox_block_iff (peer : PeerData) (ui : DeleteChatUi) :
    (∀ p, ChatEffect.block p ∈ deleteChatConfirm peer ui ↔
        p = peer.id ∧ peer.isUser = true ∧ peer.isBot = true ∧ ui.botChecked = true) ∧
      ((peer.isUser = false ∨ peer.isBot = false) →
        ∀ p, ChatEffect.block p ∉ deleteChatConfirm peer ui) ∧
      (ChatEffect.block peer.id ∈ deleteChatConfirm peer ui →
        deleteChatConfirm peer ui =
          [.closeChatFromWindows peer.id, .block peer.id,
            .deleteConversation peer.id (existsAndChecked (maybeCheckbox peer ui))]
            ++ (if ui.boxAlive = true then [.closeBox] else []) ∧
        (deleteChatConfirm peer ui).indexOf (.block peer.id) <
          (deleteChatConfirm peer ui).indexOf
            (.deleteConversation peer.id (existsAndChecked (maybeCheckbox peer ui)))) := by
  have hstop : existsAndChecked (maybeBotCheckbox peer ui) = true ↔
      peer.isUser = true ∧ peer.isBot = true ∧ ui.botChecked = true := by
    unfold maybeBotCheckbox
    cases peer.isUser <;> cases peer.isBot <;> cases ui.botChecked <;> simp [existsAndChecked]
  have hblock : ∀ p, ChatEffect.block p ∈ deleteChatConfirm peer ui ↔
      p = peer.id ∧ peer.isUser = true ∧ peer.isBot = true ∧ ui.botChecked = true := by
    intro p
    rw [← hstop, deleteChatConfirm_eq]
    cases existsAndChecked (maybeBotCheckbox peer ui) <;> cases ui.boxAlive <;> simp
  refine ⟨hblock, ?_, ?_⟩
  · intro hnot p hmem
    obtain ⟨-, hu, hb, -⟩ := (hblock p).1 hmem
    rcases hnot with h | h
    · rw [hu] at h; cases h
    · rw [hb] at h; cases h
  · intro hmem
    have hs : existsAndChecked (maybeBotCheckbox peer ui) = true :=
      hstop.2 ((hblock peer.id).1 hmem).2
    rw [deleteChatConfirm_eq, hs]
    refine ⟨by simp, ?_⟩
    simp [List.indexOf_cons]

/-! ## The count in the title of the moderate-messages box -/

theorem float64Shift_of_lt (n : Nat) (h : n < 2 ^ 53) : float64Shift n = 0 := by
  have hr : List.range 12 = 0 :: (List.range 11).map Nat.succ := by decide
  unfold float64Shift
  rw [hr, List.find?_cons_of_pos _ (by simpa using h)]
  rfl

theorem sizeToFloat64_of_lt (n : Nat) (h : n < 2 ^ 53) : sizeToFloat64 n = n := by
  unfold sizeToFloat64
  simp [float64Shift_of_lt n h, Nat.mod_one]

theorem messagesCountValue_latest (found : List Int) (all : Int) :
    (MessagesCountValue (found ++ [all])).getLastD 0 = all := by
  have h : MessagesCountValue (found ++ [all]) = (0 :: found) ++ [all] := rfl
  rw [h, List.getLastD_concat]

/-- C20, as stated, fails: for the found total `-1` with the checkbox checked
and 2 selected items the count of the title is `2 ^ 64`; and for
`2 ^ 53 + 1` selected items, before any result, it is `2 ^ 53`. -/
theorem titleCount_negative_total :
    combinedTitleCount 2 [-1] true = 2 ^ 64 ∧
      combinedTitleCount (2 ^ 53 + 1) [] false = 2 ^ 53 := by
  decide

/-- C20, amended: for fewer than `2 ^ 53` selected items, a latest found
total `all` that is not negative and a state of the delete-all checkbox, the
count in the title is `all` if the checkbox is checked and `all` is not 0,
and the number `s` of selected items otherwise; so it is `s` before any
result of the search, the count stream starting with 0 and continuing with
the found totals, and whenever the checkbox is unchecked. -/
theorem titleCount_eq (s : Nat) (found : List Int) (all : Int) (checked : Bool)
    (hs : s < 2 ^ 53) (hall : 0 ≤ all) (hint : all < 2 ^ 31) :
    ((combinedTitleCount s (found ++ [all]) checked : Nat) : Int) =
        (if checked = true ∧ all ≠ 0 then all else (s : Int)) ∧
      MessagesCountValue found = 0 :: found ∧
      combinedTitleCount s [] checked = s ∧
      combinedTitleCount s (found ++ [all]) false = s ∧
      ((titleCount s all checked : Nat) : Int) =
        (if checked = true ∧ all ≠ 0 then all else (s : Int)) ∧
      titleCount s 0 checked = s := by
  have hlt : all < 2 ^ 64 := lt_trans hint (by norm_num)
  have hsize : ((intToSize all : Nat) : Int) = all := by
    unfold intToSize
    rw [Int.emod_eq_of_lt hall hlt]
    exact Int.toNat_of_nonneg hall
  have hsmall : intToSize all < 2 ^ 53 := by
    have h53 : all < 2 ^ 53 := lt_trans hint (by norm_num)
    have : ((intToSize all : Nat) : Int) < 2 ^ 53 := by rw [hsize]; exact h53
    exact_mod_cast this
  have htitle : ∀ c : Bool, ((titleCount s all c : Nat) : Int) =
      (if c = true ∧ all ≠ 0 then all else (s : Int)) := by
    intro c
    unfold titleCount
    cases c
    · simp [sizeToFloat64_of_lt s hs]
    · by_cases h0 : all = 0
      · simp [h0, sizeToFloat64_of_lt s hs]
      · simp [h0, sizeToFloat64_of_lt _ hsmall, hsize]
  have hzero : ∀ c : Bool, titleCount s 0 c = s := by
    intro c
    simp [titleCount, sizeToFloat64_of_lt s hs]
  refine ⟨?_, rfl, ?_, ?_, htitle checked, hzero checked⟩
  · unfold combinedTitleCount
    rw [messagesCountValue_latest]
    exact htitle checked
  · simp only [combinedTitleCount, MessagesCountValue, List.getLastD_cons, List.getLastD_nil]
    exact hzero checked
  · unfold combinedTitleCount
    rw [messagesCountValue_latest]
    simp [titleCount, sizeToFloat64_of_lt s hs]

/-- C20 for 2 selected items and the found totals 3 and then 7 with the
checkbox checked: the title counts 7; before any result it counts 2. -/
theorem titleCount_eq_witness :
    (2 : Nat) < 2 ^ 53 ∧ (0 : Int) ≤ 7 ∧ (7 : Int) < 2 ^ 31 ∧
      ((combinedTitleCount 2 ([3] ++ [7]) true : Nat) : Int) = 7 ∧
      combinedTitleCount 2 [] true = 2 := by
  have h := titleCount_eq 2 [3] 7 true (by decide) (by decide) (by decide)
  exact ⟨by decide, by decide, by decide, h.1.trans (by decide), h.2.2.1⟩

end Moderate

namespace Statistics

/-! ## Top members -/

theorem toInt32_of_range (x : Int) (h1 : -(2 ^ 31) ≤ x) (h2 : x < 2 ^ 31) : toInt32 x = x := by
  unfold toInt32
  norm_num at h1 h2 ⊢
  omega

theorem formatPart_isSome (withSeparator : Bool) (resultText : QString) (value : Int)
    (phrase : Phrase) (h : 0 < value → phrase.isSome = true) :
    (formatPart withSeparator resultText value phrase).isSome = true := by
  unfold formatPart
  split
  · rename_i hv
    obtain ⟨f, rfl⟩ := Option.isSome_iff_exists.1 (h hv)
    simp [Phrase.text]
  · rfl

theorem FormatText_isSome (value1 : Int) (phrase1 : Phrase) (value2 : Int) (phrase2 : Phrase)
    (value3 : Int) (phrase3 : Phrase) (h1 : 0 < value1 → phrase1.isSome = true)
    (h2 : 0 < value2 → phrase2.isSome = true) (h3 : 0 < value3 → phrase3.isSome = true) :
    (FormatText value1 phrase1 value2 phrase2 value3 phrase3).isSome = true := by
  unfold FormatText
  obtain ⟨t1, ht1⟩ := Option.isSome_iff_exists.1 (formatPart_isSome false "" value1 phrase1 h1)
  obtain ⟨t2, ht2⟩ := Option.isSome_iff_exists.1 (formatPart_isSome true t1 value2 phrase2 h2)
  rw [ht1, Option.some_bind, ht2, Option.some_bind]
  exact formatPart_isSome true t2 value3 phrase3 h3

theorem memberRow_isSome (tr : MemberPhrases) (entry : MemberEntry) :
    (memberRow tr entry).isSome = true := by
  cases entry <;> simp only [memberRow, Option.isSome_map'] <;>
    apply FormatText_isSome <;> simp

theorem displayedList_length (data : SupergroupStatistics) :
    (displayedList data).length = membersMax data := by
  unfold displayedList membersMax
  rcases data with ⟨senders, admins, inviters⟩
  cases senders <;> cases admins <;> cases inviters <;> simp

/-- The loop over indices inside the list appends the rows of the entries
`i, .., i + steps - 1`. -/
theorem addRowsLoop_spec (tr : MemberPhrases) (entries : List MemberEntry) (steps i : Nat)
    (rows : List MemberRow) (h : i + steps ≤ entries.length) :
    ∃ result, addRowsLoop tr entries steps (i : Int) rows = some result ∧
      result.map some = rows.map some ++ ((entries.drop i).take steps).map (memberRow tr) := by
  induction steps generalizing i rows with
  | zero => exact ⟨rows, rfl, by simp⟩
  | succ steps ih =>
    have hi : i < entries.length := by omega
    obtain ⟨row, hrow⟩ := Option.isSome_iff_exists.1 (memberRow_isSome tr entries[i])
    obtain ⟨result, hres, hmap⟩ := ih (i + 1) (rows ++ [row]) (by omega)
    refine ⟨result, ?_, ?_⟩
    · rw [addRowsLoop]
      have hneg : ¬ ((i : Int) < 0) := by omega
      simp only [hneg, if_false, Int.toNat_ofNat, List.getElem?_eq_getElem hi, hrow,
        Option.some_bind]
      exact_mod_cast hres
    · rw [hmap, List.drop_eq_getElem_cons hi, List.take_succ_cons]
      simp [hrow]

theorem addRows_spec (tr : MemberPhrases) (c : MembersController) (a b : Nat)
    (hab : a ≤ b) (hb : b ≤ membersMax c.data) :
    ∃ result, c.addRows tr (a : Int) (b : Int) = some result ∧
      result.map some =
        c.rows.map some ++ (((displayedList c.data).drop a).take (b - a)).map (memberRow tr) := by
  have hsteps : ((b : Int) - (a : Int)).toNat = b - a := by omega
  have hlen := displayedList_length c.data
  unfold MembersController.addRows
  rw [hsteps]
  unfold displayedList membersMax at *
  rcases hs : c.data.topSenders with _ | ⟨s, ss⟩
  · rcases ha : c.data.topAdministrators with _ | ⟨d, ds⟩
    · rcases hi : c.data.topInviters with _ | ⟨v, vs⟩
      · simp only [hs, ha, hi] at hb
        simp at hb
        have : b - a = 0 := by omega
        rw [this]
        exact ⟨c.rows, by simp, by simp⟩
      · simp only [hs, ha, hi] at hb hlen ⊢
        simp only [List.isEmpty_nil, List.isEmpty_cons, Bool.not_true, Bool.not_false,
          Bool.false_eq_true, if_false, if_true, ne_eq, not_true_eq_false] at hb hlen ⊢
        exact addRowsLoop_spec tr _ (b - a) a c.rows (by rw [hlen]; omega)
    · simp only [hs, ha] at hb hlen ⊢
      simp only [List.isEmpty_nil, List.isEmpty_cons, Bool.not_true, Bool.not_false,
        Bool.false_eq_true, if_false, if_true, ne_eq, not_true_eq_false, reduceCtorEq,
        not_false_eq_true] at hb hlen ⊢
      exact addRowsLoop_spec tr _ (b - a) a c.rows (by rw [hlen]; omega)
  · simp only [hs] at hb hlen ⊢
    simp only [List.isEmpty_cons, Bool.not_false, if_true, ne_eq, reduceCtorEq,
      not_false_eq_true] at hb hlen ⊢
    exact addRowsLoop_spec tr _ (b - a) a c.rows (by rw [hlen]; omega)

theorem showMore_inv (tr : MemberPhrases) (data : SupergroupStatistics) (runs : Nat)
    (state : MembersState) (hbound : (membersMax data : Int) + 40 < 2 ^ 31)
    (h : MembersInv tr data runs state) :
    ∃ next, state.showMore tr (membersMax data) = some next ∧
      MembersInv tr data (runs + 1) next := by
  obtain ⟨hlimit, hclimit, hdata, hrows⟩ := h
  have hb : (membersMax data : Int) + 40 < 2147483648 := by norm_num at hbound; exact hbound
  have h1 : toInt32 (membersMax data : Int) = membersMax data :=
    toInt32_of_range _ (by norm_num; omega) (by norm_num; omega)
  have h2 : toInt32 (state.limit + kPerPage) = state.limit + 40 := by
    unfold kPerPage
    apply toInt32_of_range
    · rw [hlimit]; norm_num; omega
    · rw [hlimit]; norm_num; omega
  have hnew : min (toInt32 (membersMax data : Int)) (toInt32 (state.limit + kPerPage)) =
      ((min (membersMax data) (40 * (runs + 1)) : Nat) : Int) := by
    rw [h1, h2, hlimit]
    omega
  obtain ⟨result, hres, hmap⟩ := addRows_spec tr state.controller
    (min (membersMax data) (40 * runs)) (min (membersMax data) (40 * (runs + 1)))
    (by omega) (by rw [hdata]; omega)
  refine ⟨⟨{ state.controller with
              rows := result,
              limit := ((min (membersMax data) (40 * (runs + 1)) : Nat) : Int) },
            ((min (membersMax data) (40 * (runs + 1)) : Nat) : Int),
            if toSize ((min (membersMax data) (40 * (runs + 1)) : Nat) : Int)
                == membersMax data then false
            else state.showMoreShown⟩, ?_, ?_⟩
  · rw [hlimit] at hnew
    simp only [MembersState.showMore, MembersController.setLimit, hclimit, hlimit, hnew, hres,
      Option.map_some']
  · refine ⟨rfl, rfl, hdata, ?_⟩
    show result.map some = _
    have key : ∀ (l : List MemberEntry) (a b : Nat), a ≤ b →
        l.take b = l.take a ++ (l.drop a).take (b - a) := by
      intro l a b hab
      obtain ⟨d, rfl⟩ := Nat.exists_eq_add_of_le hab
      rw [Nat.add_sub_cancel_left, List.take_add]
    rw [hmap, hrows, hdata, ← List.map_append,
      ← key (displayedList data) _ _ (by omega)]

theorem showMoreTimes_inv (tr : MemberPhrases) (data : SupergroupStatistics) (clicks runs : Nat)
    (state : MembersState) (hbound : (membersMax data : Int) + 40 < 2 ^ 31)
    (h : MembersInv tr data runs state) :
    ∃ later, showMoreTimes tr (membersMax data) clicks state = some later ∧
      MembersInv tr data (runs + clicks) later := by
  induction clicks generalizing runs state with
  | zero => exact ⟨state, rfl, h⟩
  | succ clicks ih =>
    obtain ⟨next, hnext, hinv⟩ := showMore_inv tr data runs state hbound h
    obtain ⟨later, hlater, hinv'⟩ := ih (runs + 1) next hinv
    refine ⟨later, ?_, ?_⟩
    · simp only [showMoreTimes, hnext, Option.some_bind, hlater]
    · have : runs + (clicks + 1) = runs + 1 + clicks := by omega
      rw [this]
      exact hinv'

theorem memberRow_rowOfEntry (tr : MemberPhrases) (entry : MemberEntry) (row : MemberRow)
    (h : memberRow tr entry = some row) : RowOfEntry tr entry row := by
  cases entry with
  | sender member =>
    simp only [memberRow, Option.map_eq_some'] at h
    obtain ⟨text, htext, rfl⟩ := h
    exact ⟨rfl, htext.symm⟩
  | administrator admin =>
    simp only [memberRow, Option.map_eq_some'] at h
    obtain ⟨text, htext, rfl⟩ := h
    exact ⟨rfl, htext.symm⟩
  | inviter inviter =>
    simp only [memberRow, Option.map_eq_some'] at h
    obtain ⟨text, htext, rfl⟩ := h
    exact ⟨rfl, htext.symm⟩

theorem rowOfEntry_userId (tr : MemberPhrases) (entry : MemberEntry) (row : MemberRow)
    (h : RowOfEntry tr entry row) : row.userId = entry.userId := by
  cases entry <;> exact h.1

theorem rows_forall₂_of_map (tr : MemberPhrases) (entries : List MemberEntry)
    (rows : List MemberRow) (h : rows.map some = entries.map (memberRow tr)) :
    List.Forall₂ (RowOfEntry tr) entries rows := by
  induction entries generalizing rows with
  | nil =>
    cases rows with
    | nil => exact List.Forall₂.nil
    | cons row rest => simp at h
  | cons entry entries ih =>
    cases rows with
    | nil => simp at h
    | cons row rest =>
      simp only [List.map_cons, List.cons.injEq] at h
      exact List.Forall₂.cons (memberRow_rowOfEntry tr entry row h.1.symm) (ih rest h.2)

theorem forall₂_userId (tr : MemberPhrases) (entries : List MemberEntry)
    (rows : List MemberRow) (h : List.Forall₂ (RowOfEntry tr) entries rows) :
    rows.map (·.userId) = entries.map MemberEntry.userId := by
  induction h with
  | nil => rfl
  | cons hrow _ ih =>
    simp only [List.map_cons, ih, rowOfEntry_userId tr _ _ hrow]

/-- C7: the members list is shown in pages of 40.  With `max` the length of
the displayed statistics list, after `k ≥ 1` runs of the show-more action
(the first one made by `AddMembersList` itself) the list has
`min max (40 * k)` rows, which are, in order, the rows of the first
`min max (40 * k)` entries of that list: the row of an entry is that of the
user of the entry, with the text of `FormatText` for the counts of the
entry.  Once all `max` entries are shown, further runs add no rows. -/
theorem members_list_pagination (tr : MemberPhrases) (data : SupergroupStatistics) (k : Nat)
    (hk : 1 ≤ k) (hmax : 0 < membersMax data)
    (hbound : (membersMax data : Int) + 40 < 2 ^ 31) :
    (displayedList data).length = membersMax data ∧
      ∃ first state, AddMembersList tr data true = .ok first ∧
        showMoreTimes tr (membersMax data) (k - 1) first = some state ∧
        state.controller.rows.map some =
          ((displayedList data).take (min (membersMax data) (40 * k))).map (memberRow tr) ∧
        List.Forall₂ (RowOfEntry tr)
          ((displayedList data).take (min (membersMax data) (40 * k)))
          state.controller.rows ∧
        state.controller.rows.map (·.userId) =
          ((displayedList data).take (min (membersMax data) (40 * k))).map
            MemberEntry.userId ∧
        state.controller.rows.length = min (membersMax data) (40 * k) ∧
        (membersMax data ≤ 40 * k → ∀ clicks, ∃ later,
          showMoreTimes tr (membersMax data) clicks state = some later ∧
            later.controller.rows = state.controller.rows) := by
  refine ⟨displayedList_length data, ?_⟩
  have hinit : MembersInv tr data 0 { controller := { data := data } } := by
    refine ⟨by simp, rfl, rfl, by simp⟩
  obtain ⟨first, hfirst, hinv1⟩ := showMore_inv tr data 0 _ hbound hinit
  obtain ⟨state, hstate, hinvk⟩ := showMoreTimes_inv tr data (k - 1) 1 first hbound hinv1
  rw [Nat.add_sub_cancel' hk] at hinvk
  have hall := rows_forall₂_of_map tr _ _ hinvk.2.2.2
  refine ⟨first, state, ?_, hstate, hinvk.2.2.2, hall, forall₂_userId tr _ _ hall, ?_, ?_⟩
  · have hne : (membersMax data == 0) = false := by
      simp only [beq_eq_false_iff_ne, ne_eq]
      omega
    simp only [AddMembersList, Bool.not_true, Bool.false_eq_true, if_false, hne, hfirst]
  · rw [← hall.length_eq, List.length_take, displayedList_length]
    omega
  · intro hall clicks
    obtain ⟨later, hlater, hinv⟩ := showMoreTimes_inv tr data clicks k state hbound hinvk
    refine ⟨later, hlater, ?_⟩
    have h1 := hinv.2.2.2
    have h2 := hinvk.2.2.2
    have hm1 : min (membersMax data) (40 * (k + clicks)) = membersMax data := by omega
    have hm2 : min (membersMax data) (40 * k) = membersMax data := by omega
    rw [hm1] at h1
    rw [hm2] at h2
    exact List.map_injective_iff.2 (Option.some_injective _) (h1.trans h2.symm)

/-! ## Requests of the boosts list and of the credits list -/

theorem boostsController_applySlice_flags (c : BoostsController) (slice : BoostsListSlice) :
    (c.applySlice slice).requesting = c.requesting ∧
      (c.applySlice slice).allLoaded = slice.allLoaded := ⟨rfl, rfl⟩

theorem boostsList_inv_init (firstSlice : BoostsListSlice) : (AddBoostsList firstSlice).Inv := by
  refine ⟨Nat.le_refl _, ?_, fun _ => rfl⟩
  simp [AddBoostsList, BoostsList.outstanding, BoostsController.prepare,
    (boostsController_applySlice_flags _ _).1]

theorem boostsList_inv_step (s next : BoostsList) (event : BoostsEvent) (h : s.Inv)
    (hstep : s.step event = some next) : next.Inv := by
  obtain ⟨hle, hout, hall⟩ := h
  unfold BoostsList.outstanding at hout
  cases event with
  | showMore =>
    simp only [BoostsList.step] at hstep
    split at hstep
    · rename_i hskip
      cases hstep
      simp only [BoostsController.skipRequest, Bool.not_eq_true', Bool.or_eq_false_iff] at hskip
      rw [hskip.1] at hout
      simp only [Bool.false_eq_true, if_false] at hout
      refine ⟨?_, ?_, ?_⟩
      · simp only [List.length_append, List.length_singleton]; omega
      · simp only [BoostsList.outstanding, BoostsController.requestNext, List.length_append,
          List.length_singleton, if_true]
        omega
      · intro hl
        simp only [BoostsController.requestNext] at hl
        rw [hskip.2] at hl
        cases hl
    · cases hstep
      exact ⟨hle, hout, hall⟩
  | response slice =>
    simp only [BoostsList.step] at hstep
    split at hstep
    · rename_i hlt
      cases hstep
      have hreq : s.controller.requesting = true := by
        cases hr : s.controller.requesting with
        | true => rfl
        | false =>
          rw [hr] at hout
          simp only [Bool.false_eq_true, if_false] at hout
          omega
      rw [hreq] at hout
      simp only [if_true] at hout
      refine ⟨by simp only; omega, ?_, fun _ => rfl⟩
      simp only [BoostsList.outstanding, BoostsController.requestDone,
        (boostsController_applySlice_flags _ _).1, Bool.false_eq_true, if_false]
      omega
    · cases hstep

theorem boostsList_inv_run (s last : BoostsList) (events : List BoostsEvent) (h : s.Inv)
    (hrun : s.run events = some last) : last.Inv := by
  induction events generalizing s with
  | nil =>
    simp only [BoostsList.run] at hrun
    cases hrun
    exact h
  | cons event later ih =>
    simp only [BoostsList.run] at hrun
    cases hstep : s.step event with
    | none => rw [hstep] at hrun; cases hrun
    | some next =>
      rw [hstep] at hrun
      exact ih next (boostsList_inv_step s next event h hstep) hrun

/-- With everything loaded and no request unanswered, no event changes the
boosts list. -/
theorem boostsList_run_of_allLoaded (s last : BoostsList) (events : List BoostsEvent)
    (h : s.Inv) (hall : s.controller.allLoaded = true) (hrun : s.run events = some last) :
    last = s := by
  induction events with
  | nil =>
    simp only [BoostsList.run] at hrun
    cases hrun
    rfl
  | cons event later ih =>
    obtain ⟨hle, hout, himp⟩ := h
    have hreq := himp hall
    rw [hreq] at hout
    simp only [Bool.false_eq_true, if_false, BoostsList.outstanding] at hout
    cases event with
    | showMore =>
      have hstep : s.step .showMore = some s := by
        simp [BoostsList.step, BoostsController.skipRequest, hall]
      simp only [BoostsList.run, hstep, Option.some_bind] at hrun
      exact ih hrun
    | response slice =>
      have hstep : s.step (.response slice) = none := by
        have : ¬ s.answered < s.sent.length := by omega
        simp [BoostsList.step, this]
      simp [BoostsList.run, hstep] at hrun

theorem creditsController_applySlice_flags (c : CreditsController) (slice : CreditsStatusSlice) :
    (c.applySlice slice).requesting = c.requesting ∧
      (c.applySlice slice).allLoaded = slice.allLoaded := ⟨rfl, rfl⟩

theorem creditsList_inv_init (firstSlice : CreditsStatusSlice) (subscription : Bool) :
    (AddCreditsHistoryList firstSlice subscription).Inv := by
  refine ⟨Nat.le_refl _, ?_, fun _ => rfl⟩
  simp [AddCreditsHistoryList, CreditsList.outstanding, CreditsController.prepare,
    (creditsController_applySlice_flags _ _).1]

theorem creditsList_inv_step (s next : CreditsList) (event : CreditsEvent) (h : s.Inv)
    (hstep : s.step event = some next) : next.Inv := by
  obtain ⟨hle, hout, hall⟩ := h
  unfold CreditsList.outstanding at hout
  cases event with
  | showMore =>
    simp only [CreditsList.step] at hstep
    split at hstep
    · rename_i hskip
      cases hstep
      simp only [CreditsController.skipRequest, Bool.not_eq_true', Bool.or_eq_false_iff] at hskip
      rw [hskip.1] at hout
      simp only [Bool.false_eq_true, if_false] at hout
      refine ⟨?_, ?_, ?_⟩
      · simp only [List.length_append, List.length_singleton]; omega
      · have hr : s.controller.requestNext.1.requesting = true := by
          unfold CreditsController.requestNext; split <;> rfl
        simp only [CreditsList.outstanding, hr, List.length_append,
          List.length_singleton, if_true]
        omega
      · intro hl
        have ha : s.controller.requestNext.1.allLoaded = s.controller.allLoaded := by
          unfold CreditsController.requestNext; split <;> rfl
        simp only [ha] at hl
        rw [hskip.2] at hl
        cases hl
    · cases hstep
      exact ⟨hle, hout, hall⟩
  | response slice =>
    simp only [CreditsList.step] at hstep
    split at hstep
    · rename_i hlt
      cases hstep
      have hreq : s.controller.requesting = true := by
        cases hr : s.controller.requesting with
        | true => rfl
        | false =>
          rw [hr] at hout
          simp only [Bool.false_eq_true, if_false] at hout
          omega
      rw [hreq] at hout
      simp only [if_true] at hout
      refine ⟨by simp only; omega, ?_, fun _ => rfl⟩
      simp only [CreditsList.outstanding, CreditsController.requestDone,
        (creditsController_applySlice_flags _ _).1, Bool.false_eq_true, if_false]
      omega
    · cases hstep

theorem creditsList_inv_run (s last : CreditsList) (events : List CreditsEvent) (h : s.Inv)
    (hrun : s.run events = some last) : last.Inv := by
  induction events generalizing s with
  | nil =>
    simp only [CreditsList.run] at hrun
    cases hrun
    exact h
  | cons event later ih =>
    simp only [CreditsList.run] at hrun
    cases hstep : s.step event with
    | none => rw [hstep] at hrun; cases hrun
    | some next =>
      rw [hstep] at hrun
      exact ih next (creditsList_inv_step s next event h hstep) hrun

/-- With everything loaded and no request unanswered, no event changes the
credits list. -/
theorem creditsList_run_of_allLoaded (s last : CreditsList) (events : List CreditsEvent)
    (h : s.Inv) (hall : s.controller.allLoaded = true) (hrun : s.run events = some last) :
    last = s := by
  induction events with
  | nil =>
    simp only [CreditsList.run] at hrun
    cases hrun
    rfl
  | cons event later ih =>
    obtain ⟨hle, hout, himp⟩ := h
    have hreq := himp hall
    rw [hreq] at hout
    simp only [Bool.false_eq_true, if_false, CreditsList.outstanding] at hout
    cases event with
    | showMore =>
      have hstep : s.step .showMore = some s := by
        simp [CreditsList.step, CreditsController.skipRequest, hall]
      simp only [CreditsList.run, hstep, Option.some_bind] at hrun
      exact ih hrun
    | response slice =>
      have hstep : s.step (.response slice) = none := by
        have : ¬ s.answered < s.sent.length := by omega
        simp [CreditsList.step, this]
      simp [CreditsList.run, hstep] at hrun


/-- C8: in the boosts list and in the credits list, after any sequence of
show-more clicks and arriving answers, the number of unanswered requests is 1
if `_requesting` is set and 0 otherwise, so never more than one; a click in a
state with `_allLoaded` set sends no request and an answer never sends one;
and once `_allLoaded` is set nothing that follows sends a request or changes
the list. -/
theorem one_page_request_in_flight (boostsSlice : BoostsListSlice)
    (boostsEvents : List BoostsEvent) (boosts : BoostsList)
    (creditsSlice : CreditsStatusSlice) (subscription : Bool)
    (creditsEvents : List CreditsEvent) (credits : CreditsList)
    (hboosts : (AddBoostsList boostsSlice).run boostsEvents = some boosts)
    (hcredits :
      (AddCreditsHistoryList creditsSlice subscription).run creditsEvents = some credits) :
    (boosts.outstanding = (if boosts.controller.requesting = true then 1 else 0) ∧
      boosts.outstanding ≤ 1 ∧
      (boosts.controller.allLoaded = true →
        ∀ next, boosts.step .showMore = some next → next.sent = boosts.sent) ∧
      (∀ slice next, boosts.step (.response slice) = some next → next.sent = boosts.sent) ∧
      (boosts.controller.allLoaded = true →
        ∀ later last, boosts.run later = some last → last = boosts)) ∧
    (credits.outstanding = (if credits.controller.requesting = true then 1 else 0) ∧
      credits.outstanding ≤ 1 ∧
      (credits.controller.allLoaded = true →
        ∀ next, credits.step .showMore = some next → next.sent = credits.sent) ∧
      (∀ slice next, credits.step (.response slice) = some next → next.sent = credits.sent) ∧
      (credits.controller.allLoaded = true →
        ∀ later last, credits.run later = some last → last = credits)) := by
  have hb := boostsList_inv_run _ _ _ (boostsList_inv_init boostsSlice) hboosts
  have hc := creditsList_inv_run _ _ _ (creditsList_inv_init creditsSlice subscription)
    hcredits
  refine ⟨⟨hb.2.1, ?_, ?_, ?_, ?_⟩, ⟨hc.2.1, ?_, ?_, ?_, ?_⟩⟩
  · rw [hb.2.1]; split <;> omega
  · intro hall next hstep
    simp only [BoostsList.step, BoostsController.skipRequest, hall, Bool.or_true, Bool.not_true,
      Bool.false_eq_true, if_false, Option.some.injEq] at hstep
    rw [← hstep]
  · intro slice next hstep
    simp only [BoostsList.step] at hstep
    split at hstep
    · cases hstep; rfl
    · cases hstep
  · intro hall later last hrun
    exact boostsList_run_of_allLoaded boosts last later hb hall hrun
  · rw [hc.2.1]; split <;> omega
  · intro hall next hstep
    simp only [CreditsList.step, CreditsController.skipRequest, hall, Bool.or_true,
      Bool.not_true, Bool.false_eq_true, if_false, Option.some.injEq] at hstep
    rw [← hstep]
  · intro slice next hstep
    simp only [CreditsList.step] at hstep
    split at hstep
    · cases hstep; rfl
    · cases hstep
  · intro hall later last hrun
    exact creditsList_run_of_allLoaded credits last later hc hall hrun

/-- C8 at `sampleBoostsList`, where everything is loaded, and at
`sampleCreditsList`, where one request is unanswered. -/
theorem one_page_request_in_flight_witness :
    (AddBoostsList sampleBoostsSlice).run [.showMore, .response { allLoaded := true }] =
        some sampleBoostsList ∧
      (AddCreditsHistoryList sampleCreditsSlice false).run [.showMore] =
        some sampleCreditsList ∧
      sampleBoostsList.outstanding = 0 ∧ sampleCreditsList.outstanding = 1 ∧
      (∀ later last, sampleBoostsList.run later = some last → last = sampleBoostsList) := by
  have h := one_page_request_in_flight sampleBoostsSlice
    [.showMore, .response { allLoaded := true }] sampleBoostsList sampleCreditsSlice false
    [.showMore] sampleCreditsList (by decide) (by decide)
  exact ⟨by decide, by decide, h.1.1.trans (by decide), h.2.1.trans (by decide),
    h.1.2.2.2.2 (by decide)⟩

/-! ## The request made by `CreditsController::requestNext` -/

theorem creditsList_firstSlice_step (s next : CreditsList) (event : CreditsEvent)
    (h : s.controller.firstSlice = {}) (hstep : s.step event = some next) :
    next.controller.firstSlice = {} := by
  cases event with
  | showMore =>
    simp only [CreditsList.step] at hstep
    split at hstep
    · cases hstep
      have : s.controller.requestNext.1.firstSlice = s.controller.firstSlice := by
        unfold CreditsController.requestNext; split <;> rfl
      simp only [this, h]
    · cases hstep
      exact h
  | response slice =>
    simp only [CreditsList.step] at hstep
    split at hstep
    · cases hstep
      exact h
    · cases hstep

theorem creditsList_firstSlice_run (s last : CreditsList) (events : List CreditsEvent)
    (h : s.controller.firstSlice = {}) (hrun : s.run events = some last) :
    last.controller.firstSlice = {} := by
  induction events generalizing s with
  | nil =>
    simp only [CreditsList.run] at hrun
    cases hrun
    exact h
  | cons event later ih =>
    simp only [CreditsList.run] at hrun
    cases hstep : s.step event with
    | none => rw [hstep] at hrun; cases hrun
    | some next =>
      rw [hstep] at hrun
      exact ih next (creditsList_firstSlice_step s next event h hstep) hrun

/-- C9, evaluated: for a controller created with `subscription = true` from
`sampleSubscriptionsSlice`, `prepare()` stores the subscriptions token
`"next"`, and the click on show-more that follows calls the plain
`_api.request` with it, not `requestSubscriptions`.  In general, `prepare()`
leaves `_firstSlice` empty, so after it no `requestNext` ever calls
`requestSubscriptions`, whatever token was stored. -/
theorem creditsController_requestNext_after_prepare :
    (AddCreditsHistoryList sampleSubscriptionsSlice true).controller.apiToken = "next" ∧
      ((AddCreditsHistoryList sampleSubscriptionsSlice true).step .showMore).map (·.sent) =
        some [CreditsRequest.request "next"] ∧
      (∀ (firstSlice : CreditsStatusSlice) (subscription : Bool)
          (events : List CreditsEvent) (s : CreditsList),
        (AddCreditsHistoryList firstSlice subscription).run events = some s →
          s.controller.requestNext.2 = CreditsRequest.request s.controller.apiToken) := by
  refine ⟨by decide, by decide, ?_⟩
  intro firstSlice subscription events s hrun
  have h := creditsList_firstSlice_run _ s events
    (show (AddCreditsHistoryList firstSlice subscription).controller.firstSlice = {} from rfl)
    hrun
  simp [CreditsController.requestNext, h]

/-! ## The right side of a credits row -/

/-- C10, evaluated: for the row of a subscription that is both cancelled and
expired, which has no right label, `rightActionSize` measures the 'off' text
and `rightActionPaint` draws the 'none' text.  In general, for a row without
a right label whose subscription is cancelled or expired, the two texts are
the same exactly when the subscription is not both cancelled and expired. -/
theorem creditsRow_rightAction_texts :
    (createCreditsRow {}
        { id := "s", barePeerId := 7, cancelled := true, expired := true,
          nonNull := true }).rightLabel = none ∧
      (createCreditsRow {}
        { id := "s", barePeerId := 7, cancelled := true, expired := true,
          nonNull := true }).rightActionSize.text =
        some .lng_credits_subscription_status_off_right ∧
      (createCreditsRow {}
        { id := "s", barePeerId := 7, cancelled := true, expired := true,
          nonNull := true }).rightActionPaint.text =
        some .lng_credits_subscription_status_none_right ∧
      (∀ row : CreditsRow, row.rightLabel = none →
        (row.subscription.cancelled || row.subscription.expired) = true →
          (row.rightActionSize.text = row.rightActionPaint.text ↔
            ¬ (row.subscription.cancelled = true ∧ row.subscription.expired = true))) := by
  refine ⟨by decide, by decide, by decide, ?_⟩
  intro row hlabel hflags
  rcases row with ⟨peer, entry, subscription, label⟩
  simp only at hlabel hflags
  subst hlabel
  revert hflags
  generalize hc : subscription.cancelled = cancelled
  generalize he : subscription.expired = expired
  cases cancelled <;> cases expired <;>
    simp [CreditsRow.rightActionSize, CreditsRow.rightActionPaint, MeasuredAction.text,
      PaintedAction.text, hc, he]

/-! ## The page limit of the members list -/

theorem toSize_natCast (n : Nat) (h : n < 2 ^ 64) : toSize (n : Int) = n := by
  unfold toSize
  have h2 : ((n : Int) % 2 ^ 64) = n := Int.emod_eq_of_lt (by omega) (by exact_mod_cast h)
  rw [h2]
  simp

theorem showMore_showMoreShown (tr : MemberPhrases) (max : Nat) (state next : MembersState)
    (h : state.showMore tr max = some next) :
    next.showMoreShown = (if toSize next.limit == max then false else state.showMoreShown) := by
  simp only [MembersState.showMore, Option.map_eq_some'] at h
  obtain ⟨controller, -, rfl⟩ := h
  rfl

/-- One run of `showMore` keeps the button hidden exactly at `limit = max`. -/
theorem showMore_hidden_iff (tr : MemberPhrases) (data : SupergroupStatistics) (runs : Nat)
    (state next : MembersState) (hbound : (membersMax data : Int) + 40 < 2 ^ 31)
    (h : MembersInv tr data runs state)
    (hshown : state.showMoreShown = false ↔ state.limit = (membersMax data : Int))
    (hnext : state.showMore tr (membersMax data) = some next) :
    MembersInv tr data (runs + 1) next ∧
      (next.showMoreShown = false ↔ next.limit = (membersMax data : Int)) := by
  obtain ⟨next', hnext', hinv⟩ := showMore_inv tr data runs state hbound h
  rw [hnext] at hnext'
  cases hnext'
  refine ⟨hinv, ?_⟩
  have hlim := hinv.1
  have hold := h.1
  have hb : (membersMax data : Int) + 40 < 2147483648 := by norm_num at hbound; exact hbound
  rw [showMore_showMoreShown tr _ state next hnext, hlim,
    toSize_natCast _ (by norm_num; omega)]
  by_cases hreach : min (membersMax data) (40 * (runs + 1)) = membersMax data
  · simp [hreach]
  · have hne : (min (membersMax data) (40 * (runs + 1)) == membersMax data) = false := by
      simpa using hreach
    have hold' : state.limit ≠ (membersMax data : Int) := by
      rw [hold]
      omega
    have hs : state.showMoreShown = true := by
      cases hv : state.showMoreShown with
      | true => rfl
      | false => exact absurd (hshown.1 hv) hold'
    simp only [hne, Bool.false_eq_true, if_false, hs]
    constructor
    · intro hc; cases hc
    · intro hc
      exact absurd (by exact_mod_cast hc) hreach

theorem showMoreTimes_hidden_iff (tr : MemberPhrases) (data : SupergroupStatistics)
    (clicks runs : Nat) (state later : MembersState)
    (hbound : (membersMax data : Int) + 40 < 2 ^ 31) (h : MembersInv tr data runs state)
    (hshown : state.showMoreShown = false ↔ state.limit = (membersMax data : Int))
    (hlater : showMoreTimes tr (membersMax data) clicks state = some later) :
    MembersInv tr data (runs + clicks) later ∧
      (later.showMoreShown = false ↔ later.limit = (membersMax data : Int)) := by
  induction clicks generalizing runs state with
  | zero =>
    simp only [showMoreTimes, Option.some.injEq] at hlater
    subst hlater
    exact ⟨h, hshown⟩
  | succ clicks ih =>
    simp only [showMoreTimes] at hlater
    cases hnext : state.showMore tr (membersMax data) with
    | none => rw [hnext] at hlater; cases hlater
    | some next =>
      rw [hnext, Option.some_bind] at hlater
      obtain ⟨hinv, hs⟩ := showMore_hidden_iff tr data runs state next hbound h hshown hnext
      have := ih (runs + 1) next hinv hs hlater
      have he : runs + (clicks + 1) = runs + 1 + clicks := by omega
      rw [he]
      exact this

/-- C12: in the members list, after any number `k` of runs of `showMore` from
the initial state the run itself succeeds, so no index used by `addRows` is
outside of the list; the limit satisfies `0 ≤ limit ≤ max`, the controller's
`_limit` equals it, and the show-more button is hidden exactly when
`limit = max`.  The next run reads the entries `from = _limit ≤ i < to` with
`0 ≤ from` and `to` at most the length of the displayed list, which is the
list whose length is `max`, and it does not decrease the limit. -/
theorem members_limit_invariant (tr : MemberPhrases) (data : SupergroupStatistics) (k : Nat)
    (hmax : 0 < membersMax data) (hbound : (membersMax data : Int) + 40 < 2 ^ 31) :
    (displayedList data).length = membersMax data ∧
      ∃ state next,
        showMoreTimes tr (membersMax data) k { controller := { data := data } } = some state ∧
        0 ≤ state.limit ∧ state.limit ≤ (membersMax data : Int) ∧
        state.controller.limit = state.limit ∧
        (state.showMoreShown = false ↔ state.limit = (membersMax data : Int)) ∧
        state.showMore tr (membersMax data) = some next ∧
        state.limit ≤ next.limit ∧
        next.limit ≤ ((displayedList data).length : Int) ∧
        next.controller.limit = next.limit ∧
        (k = 0 → AddMembersList tr data true = .ok next) := by
  refine ⟨displayedList_length data, ?_⟩
  have hinit : MembersInv tr data 0 { controller := { data := data } } := by
    refine ⟨by simp, rfl, rfl, by simp⟩
  have hshown0 : ({ controller := { data := data } } : MembersState).showMoreShown = false ↔
      ({ controller := { data := data } } : MembersState).limit = (membersMax data : Int) := by
    constructor
    · intro hc; cases hc
    · intro hc
      have : (0 : Int) = (membersMax data : Int) := hc
      omega
  obtain ⟨state, hstate, -⟩ := showMoreTimes_inv tr data k 0 _ hbound hinit
  obtain ⟨hinv, hshown⟩ :=
    showMoreTimes_hidden_iff tr data k 0 _ state hbound hinit hshown0 hstate
  obtain ⟨next, hnext, hinvn⟩ := showMore_inv tr data (0 + k) state hbound hinv
  refine ⟨state, next, hstate, ?_, ?_, hinv.2.1, hshown, hnext, ?_, ?_, ?_, ?_⟩
  · rw [hinv.1]; omega
  · rw [hinv.1]; omega
  · rw [hinv.1, hinvn.1]; omega
  · rw [hinvn.1, displayedList_length]; omega
  · rw [hinvn.2.1]
  · intro hk
    subst hk
    simp only [showMoreTimes, Option.some.injEq] at hstate
    subst hstate
    have hne : (membersMax data == 0) = false := by
      simp only [beq_eq_false_iff_ne, ne_eq]
      omega
    simp only [AddMembersList, Bool.not_true, Bool.false_eq_true, if_false, hne, hnext]

/-- C12 at `sampleStatistics`, before the first run: the run made by
`AddMembersList` shows both administrators and hides the button. -/
theorem members_limit_invariant_witness :
    0 < membersMax sampleStatistics ∧ (membersMax sampleStatistics : Int) + 40 < 2 ^ 31 ∧
      ∃ state next,
        showMoreTimes samplePhrases (membersMax sampleStatistics) 0
          { controller := { data := sampleStatistics } } = some state ∧
        state.showMore samplePhrases (membersMax sampleStatistics) = some next ∧
        next.limit ≤ ((displayedList sampleStatistics).length : Int) ∧
        AddMembersList samplePhrases sampleStatistics true = .ok next := by
  obtain ⟨-, state, next, h1, -, -, -, -, h2, -, h3, -, h4⟩ :=
    members_limit_invariant samplePhrases sampleStatistics 0 (by decide) (by decide)
  exact ⟨by decide, by decide, state, next, h1, h2, h3, h4 rfl⟩

/-! ## Rows and total of the boosts list -/

theorem weightSum_cons (boost : Boost) (boosts : List Boost) :
    weightSum (boost :: boosts) = boostWeight boost + weightSum boosts := by
  simp [weightSum]

theorem weightSize_cons (boost : Boost) (boosts : List Boost) :
    weightSize (boost :: boosts) = (boostWeight boost).natAbs + weightSize boosts := by
  simp [weightSize]

theorem weightSum_append (a b : List Boost) :
    weightSum (a ++ b) = weightSum a + weightSum b := by
  simp [weightSum]

theorem weightSize_append (a b : List Boost) :
    weightSize (a ++ b) = weightSize a + weightSize b := by
  simp [weightSize]

theorem weightSum_natAbs_le (boosts : List Boost) :
    (weightSum boosts).natAbs ≤ weightSize boosts := by
  induction boosts with
  | nil => simp [weightSum, weightSize]
  | cons boost rest ih =>
    rw [weightSum_cons, weightSize_cons]
    omega

/-- The loop of `BoostsController::applySlice` while the sums stay in the
range of `int`. -/
theorem applySlice_loop (boosts : List Boost) (sum : Int) (rows : List BoostRow)
    (h : sum.natAbs + weightSize boosts < 2 ^ 31) :
    boosts.foldl
        (fun (acc : Int × List BoostRow) item =>
          (toInt32 (acc.1 + (if item.multiplier != 0 then item.multiplier else 1)),
            acc.2 ++ [boostRow item]))
        (sum, rows) =
      (sum + weightSum boosts, rows ++ boosts.map boostRow) := by
  induction boosts generalizing sum rows with
  | nil => simp [weightSum]
  | cons boost rest ih =>
    rw [weightSize_cons] at h
    have hw : (if boost.multiplier != 0 then boost.multiplier else 1) = boostWeight boost := by
      unfold boostWeight
      by_cases hm : boost.multiplier = 0 <;> simp [hm]
    have hb : sum.natAbs + (boostWeight boost).natAbs + weightSize rest < 2147483648 := by
      norm_num at h
      omega
    have hrange : toInt32 (sum + boostWeight boost) = sum + boostWeight boost :=
      toInt32_of_range _ (by norm_num; omega) (by norm_num; omega)
    rw [List.foldl_cons, hw, hrange, ih _ _ (by norm_num; omega), weightSum_cons]
    simp [add_assoc]

theorem applySlice_spec (c : BoostsController) (slice : BoostsListSlice)
    (h : c.totalBoosts.natAbs + weightSize slice.list < 2 ^ 31) :
    (c.applySlice slice).rows = c.rows ++ slice.list.map boostRow ∧
      (c.applySlice slice).totalBoosts = c.totalBoosts + weightSum slice.list := by
  have hb : c.totalBoosts.natAbs + weightSize slice.list < 2147483648 := by
    norm_num at h
    exact h
  have hloop := applySlice_loop slice.list 0 c.rows (by norm_num; omega)
  have hle := weightSum_natAbs_le slice.list
  simp only [BoostsController.applySlice, hloop, zero_add]
  exact ⟨trivial, toInt32_of_range _ (by norm_num; omega) (by norm_num; omega)⟩

theorem applySlices_spec (slices : List BoostsListSlice) (c : BoostsController)
    (h : c.totalBoosts.natAbs + weightSize (slices.flatMap (·.list)) < 2 ^ 31) :
    (c.applySlices slices).rows = c.rows ++ (slices.flatMap (·.list)).map boostRow ∧
      (c.applySlices slices).totalBoosts =
        c.totalBoosts + weightSum (slices.flatMap (·.list)) := by
  induction slices generalizing c with
  | nil => simp [BoostsController.applySlices, weightSum]
  | cons slice rest ih =>
    rw [List.flatMap_cons, weightSize_append] at h
    have hb : c.totalBoosts.natAbs + (weightSize slice.list +
        weightSize (rest.flatMap (·.list))) < 2147483648 := by
      norm_num at h
      exact h
    obtain ⟨hrows, htotal⟩ := applySlice_spec c slice (by norm_num; omega)
    have hle := weightSum_natAbs_le slice.list
    obtain ⟨hrows', htotal'⟩ := ih (c.applySlice slice) (by rw [htotal]; norm_num; omega)
    have hstep : c.applySlices (slice :: rest) = (c.applySlice slice).applySlices rest := rfl
    rw [hstep, hrows', htotal', hrows, htotal, List.flatMap_cons, weightSum_append]
    simp [add_assoc]

/-- C13: after `prepare()` and any further slices, the rows are one per boost
of the first slice and of every applied slice, in order, and the total-boosts
value, which starts at 0, is the sum of the weights of all those boosts, as
long as the absolute values of the weights sum to less than `2 ^ 31`; under
that bound applying one more slice adds the sum of its weights. -/
theorem boosts_rows_and_total (firstSlice : BoostsListSlice) (slices : List BoostsListSlice)
    (hbound : weightSize ((firstSlice :: slices).flatMap (·.list)) < 2 ^ 31) :
    ({ firstSlice := firstSlice } : BoostsController).totalBoosts = 0 ∧
      ((BoostsController.prepare { firstSlice := firstSlice }).applySlices slices).rows =
        ((firstSlice :: slices).flatMap (·.list)).map boostRow ∧
      ((BoostsController.prepare { firstSlice := firstSlice }).applySlices slices).totalBoosts =
        weightSum ((firstSlice :: slices).flatMap (·.list)) ∧
      (∀ slice : BoostsListSlice,
        weightSize ((firstSlice :: slices).flatMap (·.list)) + weightSize slice.list < 2 ^ 31 →
          (((BoostsController.prepare { firstSlice := firstSlice }).applySlices
              slices).applySlice slice).totalBoosts =
            ((BoostsController.prepare { firstSlice := firstSlice }).applySlices
              slices).totalBoosts + weightSum slice.list) := by
  have hprep : BoostsController.prepare { firstSlice := firstSlice } =
      (BoostsController.applySlices { firstSlice := {} } [firstSlice]) := rfl
  have hall : (BoostsController.prepare { firstSlice := firstSlice }).applySlices slices =
      BoostsController.applySlices { firstSlice := {} } (firstSlice :: slices) := by
    rw [hprep]
    rfl
  obtain ⟨hrows, htotal⟩ := applySlices_spec (firstSlice :: slices) { firstSlice := {} }
    (by simpa using hbound)
  refine ⟨rfl, ?_, ?_, ?_⟩
  · rw [hall, hrows]; simp
  · rw [hall, htotal]; simp
  · intro slice hslice
    have hle := weightSum_natAbs_le ((firstSlice :: slices).flatMap (·.list))
    rw [hall]
    refine (applySlice_spec _ slice ?_).2
    rw [htotal]
    generalize (firstSlice :: slices).flatMap (·.list) = boosts at hslice hle ⊢
    have hb : weightSize boosts + weightSize slice.list < 2147483648 := by
      norm_num at hslice
      exact hslice
    have h0 : ({ firstSlice := {} } : BoostsController).totalBoosts = 0 := rfl
    rw [h0, zero_add]
    norm_num
    omega

/-- C13 at `sampleBoostsSlice` followed by a slice of two boosts, one of them
with multiplier 0: three rows and a total of `2 + 1 + 3`. -/
theorem boosts_rows_and_total_witness :
    weightSize ((sampleBoostsSlice :: [{ list := [⟨0, true, 0⟩, ⟨4, false, 3⟩] }]).flatMap
        (·.list)) < 2 ^ 31 ∧
      ((BoostsController.prepare { firstSlice := sampleBoostsSlice }).applySlices
        [{ list := [⟨0, true, 0⟩, ⟨4, false, 3⟩] }]).totalBoosts = 6 := by
  have h := boosts_rows_and_total sampleBoostsSlice
    [{ list := [⟨0, true, 0⟩, ⟨4, false, 3⟩] }] (by decide)
  exact ⟨by decide, h.2.2.1.trans (by decide)⟩

/-! ## The show-more button of the boosts list -/

/-- C14: with `max = firstSlice.multipliedTotal`, an `int`, and `total` the
current total-boosts value, the show-more button of `AddBoostsList` is shown
exactly when `0 < total < max`; whenever it is shown its label counts
`max - total` boosts, which is at least 1; and it is hidden as soon as
`total ≥ max`. -/
theorem boosts_showMore_shown_iff (firstSlice : BoostsListSlice) (s : BoostsList)
    (hmax : firstSlice.multipliedTotal < 2 ^ 31) :
    (s.showMoreShown firstSlice = true ↔
        0 < s.controller.totalBoosts ∧
          s.controller.totalBoosts < firstSlice.multipliedTotal) ∧
      (s.showMoreShown firstSlice = true →
        s.showMoreCount firstSlice = firstSlice.multipliedTotal - s.controller.totalBoosts ∧
          1 ≤ s.showMoreCount firstSlice) ∧
      (firstSlice.multipliedTotal ≤ s.controller.totalBoosts →
        s.showMoreShown firstSlice = false) := by
  have hiff : s.showMoreShown firstSlice = true ↔
      0 < s.controller.totalBoosts ∧
        s.controller.totalBoosts < firstSlice.multipliedTotal := by
    simp [BoostsList.showMoreShown]
  refine ⟨hiff, ?_, ?_⟩
  · intro hshown
    obtain ⟨h0, h1⟩ := hiff.1 hshown
    have hm : firstSlice.multipliedTotal < 2147483648 := by norm_num at hmax; exact hmax
    have hcount : s.showMoreCount firstSlice =
        firstSlice.multipliedTotal - s.controller.totalBoosts :=
      toInt32_of_range _ (by norm_num; omega) (by norm_num; omega)
    rw [hcount]
    exact ⟨rfl, by omega⟩
  · intro hge
    apply Bool.eq_false_iff.2
    intro hshown
    have := (hiff.1 hshown).2
    omega

/-- C14 at the list made from `sampleBoostsSlice`: 2 of 5 boosts are loaded,
the button is shown and counts 3. -/
theorem boosts_showMore_shown_iff_witness :
    sampleBoostsSlice.multipliedTotal < 2 ^ 31 ∧
      (AddBoostsList sampleBoostsSlice).showMoreShown sampleBoostsSlice = true ∧
      (AddBoostsList sampleBoostsSlice).showMoreCount sampleBoostsSlice = 3 := by
  have h := boosts_showMore_shown_iff sampleBoostsSlice (AddBoostsList sampleBoostsSlice)
    (by decide)
  exact ⟨by decide, by decide, (h.2.1 (by decide)).1.trans (by decide)⟩

/-! ## `FormatText` -/

theorem formatPart_pos (w : Bool) (r : QString) (v : Int) (p : Phrase) (t : QString)
    (hv : 0 < v) (ht : p.text v = some t) :
    formatPart w r v p = some ((if w && !r.isEmpty then r ++ ", " else r) ++ t) := by
  simp [formatPart, hv, ht]

theorem formatPart_nonpos (w : Bool) (r : QString) (v : Int) (p : Phrase) (hv : ¬ 0 < v) :
    formatPart w r v p = some r := by
  simp [formatPart, hv]

theorem isEmpty_eq_false (t : QString) (h : t ≠ "") : t.isEmpty = false := by
  rw [Bool.eq_false_iff]
  intro h2
  exact h ((String.isEmpty_iff t).1 h2)

theorem append_ne_empty (s t : QString) (h : t ≠ "") : s ++ t ≠ "" := by
  intro h2
  have := congrArg String.data h2
  simp at this
  exact h (String.ext this.2)

theorem isPrefixOf_append_pair (a b : Char) (hab : a ≠ b) (t rest : List Char) (ht : t ≠ [])
    (hn : [a, b].isPrefixOf t = false) : [a, b].isPrefixOf (t ++ a :: b :: rest) = false := by
  match t, ht, hn with
  | [c], _, _ =>
    simp only [List.singleton_append, List.isPrefixOf, Bool.and_true, Bool.and_eq_false_imp,
      beq_iff_eq, beq_eq_false_iff_ne, ne_eq]
    intro _
    exact fun h => hab h.symm
  | c :: d :: t, _, hn =>
    simpa [List.isPrefixOf] using hn

theorem startsWithSeparator_append (t rest : QString) (ht : t ≠ "")
    (hn : startsWithSeparator t = false) : startsWithSeparator (t ++ ", " ++ rest) = false := by
  unfold startsWithSeparator at hn ⊢
  have hd : (t ++ ", " ++ rest).toList = t.toList ++ ',' :: ' ' :: rest.toList := by
    simp [String.toList, String.data_append]
  rw [hd]
  have : (", " : String).toList = [',', ' '] := rfl
  rw [this] at hn ⊢
  refine isPrefixOf_append_pair ',' ' ' (by decide) _ _ ?_ hn
  intro h
  exact ht (String.ext h)

theorem endsWithSeparator_append (init t : QString) (ht : t ≠ "")
    (hn : endsWithSeparator t = false) : endsWithSeparator (init ++ ", " ++ t) = false := by
  unfold endsWithSeparator at hn ⊢
  have hd : (init ++ ", " ++ t).toList = init.toList ++ ',' :: ' ' :: t.toList := by
    simp [String.toList, String.data_append]
  rw [hd]
  have : (", " : String).toList = [',', ' '] := rfl
  rw [this] at hn ⊢
  unfold List.isSuffixOf at hn ⊢
  have hr : (init.toList ++ ',' :: ' ' :: t.toList).reverse =
      t.toList.reverse ++ ' ' :: ',' :: init.toList.reverse := by simp
  rw [hr]
  refine isPrefixOf_append_pair ' ' ',' (by decide) _ _ ?_ hn
  intro h
  exact ht (String.ext (List.reverse_eq_nil_iff.1 h))

theorem formatPart_congr (w : Bool) (r : QString) (v : Int) (q p : Phrase)
    (h : 0 < v → q = p) : formatPart w r v q = formatPart w r v p := by
  by_cases hv : 0 < v
  · rw [h hv]
  · rw [formatPart_nonpos w r v q hv, formatPart_nonpos w r v p hv]

/-- C16, as stated, fails: the phrase whose text is `", "` gives a non-empty
text, and for the value 1 the result `", "` both starts and ends with the
separator. -/
theorem formatText_separator_at_ends :
    ((fun _ => ", ") (1 : Int) : QString) ≠ "" ∧
      FormatText 1 (some fun _ => ", ") 0 none 0 none = some ", " ∧
      startsWithSeparator ", " = true ∧ endsWithSeparator ", " = true := by
  decide

/-- C16, amended: when the phrase of every positive value can be called and
gives a non-empty text, `FormatText` returns the texts of exactly the
positive values, in argument order, joined by `", "`.  The result is empty
exactly when no value is positive; its length is that of the texts plus one
separator less than there are texts; it starts with the separator only if
the first of the texts does, and ends with it only if the last does.  A
phrase is not called for a value that is not positive: the result does not
depend on it, and every row of `addRows`, which passes empty phrases with
the value 0, gets its text. -/
theorem formatText_joins_positive (v1 v2 v3 : Int) (p1 p2 p3 : Phrase)
    (h1 : 0 < v1 → ∃ t, p1.text v1 = some t ∧ t ≠ "")
    (h2 : 0 < v2 → ∃ t, p2.text v2 = some t ∧ t ≠ "")
    (h3 : 0 < v3 → ∃ t, p3.text v3 = some t ∧ t ≠ "") :
    (FormatText v1 p1 v2 p2 v3 p3 =
        some (", ".intercalate (positiveTexts v1 p1 v2 p2 v3 p3)) ∧
      (positiveTexts v1 p1 v2 p2 v3 p3).length =
        (if 0 < v1 then 1 else 0) + (if 0 < v2 then 1 else 0) + (if 0 < v3 then 1 else 0) ∧
      (", ".intercalate (positiveTexts v1 p1 v2 p2 v3 p3) = "" ↔
        ¬ 0 < v1 ∧ ¬ 0 < v2 ∧ ¬ 0 < v3) ∧
      (positiveTexts v1 p1 v2 p2 v3 p3 ≠ [] →
        (", ".intercalate (positiveTexts v1 p1 v2 p2 v3 p3)).length =
          ((positiveTexts v1 p1 v2 p2 v3 p3).map String.length).sum +
            ", ".length * ((positiveTexts v1 p1 v2 p2 v3 p3).length - 1)) ∧
      (∀ t ∈ (positiveTexts v1 p1 v2 p2 v3 p3).head?, startsWithSeparator t = false →
        startsWithSeparator (", ".intercalate (positiveTexts v1 p1 v2 p2 v3 p3)) = false) ∧
      (∀ t ∈ (positiveTexts v1 p1 v2 p2 v3 p3).getLast?, endsWithSeparator t = false →
        endsWithSeparator (", ".intercalate (positiveTexts v1 p1 v2 p2 v3 p3)) = false)) ∧
      (∀ q1 q2 q3 : Phrase, (0 < v1 → q1 = p1) → (0 < v2 → q2 = p2) → (0 < v3 → q3 = p3) →
        FormatText v1 q1 v2 q2 v3 q3 = FormatText v1 p1 v2 p2 v3 p3) ∧
      (∀ (tr : MemberPhrases) (entry : MemberEntry), (memberRow tr entry).isSome = true) := by
  refine ⟨?_, ?_, fun tr entry => memberRow_isSome tr entry⟩
  swap
  · intro q1 q2 q3 hq1 hq2 hq3
    simp only [FormatText, formatPart_congr _ _ v1 q1 p1 hq1, formatPart_congr _ _ v2 q2 p2 hq2,
      formatPart_congr _ _ v3 q3 p3 hq3]
  have hsep : (", " : String).length = 2 := rfl
  have hemp : ("" : String).isEmpty = true := by decide
  by_cases c1 : 0 < v1 <;> by_cases c2 : 0 < v2 <;> by_cases c3 : 0 < v3
  · obtain ⟨t1, e1, n1⟩ := h1 c1
    obtain ⟨t2, e2, n2⟩ := h2 c2
    obtain ⟨t3, e3, n3⟩ := h3 c3
    have hts : positiveTexts v1 p1 v2 p2 v3 p3 = [t1, t2, t3] := by
      simp [positiveTexts, c1, c2, c3, e1, e2, e3]
    have hi : ", ".intercalate [t1, t2, t3] = t1 ++ ", " ++ t2 ++ ", " ++ t3 := by
      simp [String.intercalate, String.intercalate.go]
    rw [hts, hi]
    refine ⟨?_, by simp [c1, c2, c3], ?_, ?_, ?_, ?_⟩
    · simp [FormatText, formatPart_pos _ _ _ _ _ c1 e1, formatPart_pos _ _ _ _ _ c2 e2, formatPart_pos _ _ _ _ _ c3 e3, hemp, isEmpty_eq_false _ n1, isEmpty_eq_false _ (append_ne_empty (t1 ++ ", ") t2 n2)]
    · simp [c1, c2, c3, append_ne_empty _ _ n3, n3]
    · intro _
      simp [String.length_append, hsep]
      omega
    · intro t ht hn
      simp only [List.head?_cons, Option.mem_def, Option.some.injEq] at ht
      subst ht
      have := startsWithSeparator_append t1 (t2 ++ ", " ++ t3) n1 hn
      simpa [String.append_assoc] using this
    · intro t ht hn
      simp at ht
      subst ht
      exact endsWithSeparator_append (t1 ++ ", " ++ t2) t3 n3 hn
  · obtain ⟨t1, e1, n1⟩ := h1 c1
    obtain ⟨t2, e2, n2⟩ := h2 c2
    have hts : positiveTexts v1 p1 v2 p2 v3 p3 = [t1, t2] := by
      simp [positiveTexts, c1, c2, c3, e1, e2]
    have hi : ", ".intercalate [t1, t2] = t1 ++ ", " ++ t2 := by
      simp [String.intercalate, String.intercalate.go]
    rw [hts, hi]
    refine ⟨?_, by simp [c1, c2, c3], ?_, ?_, ?_, ?_⟩
    · simp [FormatText, formatPart_pos _ _ _ _ _ c1 e1, formatPart_pos _ _ _ _ _ c2 e2, formatPart_nonpos _ _ _ _ c3, hemp, isEmpty_eq_false _ n1, isEmpty_eq_false _ (append_ne_empty (t1 ++ ", ") t2 n2)]
    · simp [c1, c2, c3, append_ne_empty _ _ n2, n2]
    · intro _
      simp [String.length_append, hsep]
      omega
    · intro t ht hn
      simp only [List.head?_cons, Option.mem_def, Option.some.injEq] at ht
      subst ht
      have := startsWithSeparator_append t1 (t2) n1 hn
      simpa [String.append_assoc] using this
    · intro t ht hn
      simp at ht
      subst ht
      exact endsWithSeparator_append (t1) t2 n2 hn
  · obtain ⟨t1, e1, n1⟩ := h1 c1
    obtain ⟨t3, e3, n3⟩ := h3 c3
    have hts : positiveTexts v1 p1 v2 p2 v3 p3 = [t1, t3] := by
      simp [positiveTexts, c1, c2, c3, e1, e3]
    have hi : ", ".intercalate [t1, t3] = t1 ++ ", " ++ t3 := by
      simp [String.intercalate, String.intercalate.go]
    rw [hts, hi]
    refine ⟨?_, by simp [c1, c2, c3], ?_, ?_, ?_, ?_⟩
    · simp [FormatText, formatPart_pos _ _ _ _ _ c1 e1, formatPart_nonpos _ _ _ _ c2, formatPart_pos _ _ _ _ _ c3 e3, hemp, isEmpty_eq_false _ n1, isEmpty_eq_false _ (append_ne_empty (t1 ++ ", ") t3 n3)]
    · simp [c1, c2, c3, append_ne_empty _ _ n3, n3]
    · intro _
      simp [String.length_append, hsep]
      omega
    · intro t ht hn
      simp only [List.head?_cons, Option.mem_def, Option.some.injEq] at ht
      subst ht
      have := startsWithSeparator_append t1 (t3) n1 hn
      simpa [String.append_assoc] using this
    · intro t ht hn
      simp at ht
      subst ht
      exact endsWithSeparator_append (t1) t3 n3 hn
  · obtain ⟨t1, e1, n1⟩ := h1 c1
    have hts : positiveTexts v1 p1 v2 p2 v3 p3 = [t1] := by
      simp [positiveTexts, c1, c2, c3, e1]
    have hi : ", ".intercalate [t1] = t1 := by
      simp [String.intercalate, String.intercalate.go]
    rw [hts, hi]
    refine ⟨?_, by simp [c1, c2, c3], ?_, ?_, ?_, ?_⟩
    · simp [FormatText, formatPart_pos _ _ _ _ _ c1 e1, formatPart_nonpos _ _ _ _ c2, formatPart_nonpos _ _ _ _ c3, hemp, isEmpty_eq_false _ n1]
    · simp [c1, c2, c3, append_ne_empty _ _ n1, n1]
    · intro _
      simp
    · intro t ht hn
      simp at ht
      subst ht
      exact hn
    · intro t ht hn
      simp at ht
      subst ht
      exact hn
  · obtain ⟨t2, e2, n2⟩ := h2 c2
    obtain ⟨t3, e3, n3⟩ := h3 c3
    have hts : positiveTexts v1 p1 v2 p2 v3 p3 = [t2, t3] := by
      simp [positiveTexts, c1, c2, c3, e2, e3]
    have hi : ", ".intercalate [t2, t3] = t2 ++ ", " ++ t3 := by
      simp [String.intercalate, String.intercalate.go]
    rw [hts, hi]
    refine ⟨?_, by simp [c1, c2, c3], ?_, ?_, ?_, ?_⟩
    · simp [FormatText, formatPart_nonpos _ _ _ _ c1, formatPart_pos _ _ _ _ _ c2 e2, formatPart_pos _ _ _ _ _ c3 e3, hemp, isEmpty_eq_false _ n2, isEmpty_eq_false _ (append_ne_empty (t2 ++ ", ") t3 n3)]
    · simp [c1, c2, c3, append_ne_empty _ _ n3, n3]
    · intro _
      simp [String.length_append, hsep]
      omega
    · intro t ht hn
      simp only [List.head?_cons, Option.mem_def, Option.some.injEq] at ht
      subst ht
      have := startsWithSeparator_append t2 (t3) n2 hn
      simpa [String.append_assoc] using this
    · intro t ht hn
      simp at ht
      subst ht
      exact endsWithSeparator_append (t2) t3 n3 hn
  · obtain ⟨t2, e2, n2⟩ := h2 c2
    have hts : positiveTexts v1 p1 v2 p2 v3 p3 = [t2] := by
      simp [positiveTexts, c1, c2, c3, e2]
    have hi : ", ".intercalate [t2] = t2 := by
      simp [String.intercalate, String.intercalate.go]
    rw [hts, hi]
    refine ⟨?_, by simp [c1, c2, c3], ?_, ?_, ?_, ?_⟩
    · simp [FormatText, formatPart_nonpos _ _ _ _ c1, formatPart_pos _ _ _ _ _ c2 e2, formatPart_nonpos _ _ _ _ c3, hemp, isEmpty_eq_false _ n2]
    · simp [c1, c2, c3, append_ne_empty _ _ n2, n2]
    · intro _
      simp
    · intro t ht hn
      simp at ht
      subst ht
      exact hn
    · intro t ht hn
      simp at ht
      subst ht
      exact hn
  · obtain ⟨t3, e3, n3⟩ := h3 c3
    have hts : positiveTexts v1 p1 v2 p2 v3 p3 = [t3] := by
      simp [positiveTexts, c1, c2, c3, e3]
    have hi : ", ".intercalate [t3] = t3 := by
      simp [String.intercalate, String.intercalate.go]
    rw [hts, hi]
    refine ⟨?_, by simp [c1, c2, c3], ?_, ?_, ?_, ?_⟩
    · simp [FormatText, formatPart_nonpos _ _ _ _ c1, formatPart_nonpos _ _ _ _ c2, formatPart_pos _ _ _ _ _ c3 e3, hemp, isEmpty_eq_false _ n3]
    · simp [c1, c2, c3, append_ne_empty _ _ n3, n3]
    · intro _
      simp
    · intro t ht hn
      simp at ht
      subst ht
      exact hn
    · intro t ht hn
      simp at ht
      subst ht
      exact hn
  · have hts : positiveTexts v1 p1 v2 p2 v3 p3 = [] := by
      simp [positiveTexts, c1, c2, c3]
    have hi : ", ".intercalate [] = "" := by
      simp [String.intercalate, String.intercalate.go]
    rw [hts, hi]
    refine ⟨?_, by simp [c1, c2, c3], ?_, ?_, ?_, ?_⟩
    · simp [FormatText, formatPart_nonpos _ _ _ _ c1, formatPart_nonpos _ _ _ _ c2, formatPart_nonpos _ _ _ _ c3, hemp]
    · simp [c1, c2, c3]
    · intro h
      exact absurd rfl h
    · intro t ht
      simp at ht
    · intro t ht
      simp at ht

/-- C16 at the values 2, 0 and 3 with the texts `a` and `b`: the result is
`a, b`, and the empty second phrase is not called. -/
theorem formatText_joins_positive_witness :
    ((0 : Int) < 2 → ∃ t, Phrase.text (some fun _ => "a") 2 = some t ∧ t ≠ "") ∧
      ((0 : Int) < 0 → ∃ t, Phrase.text none 0 = some t ∧ t ≠ "") ∧
      ((0 : Int) < 3 → ∃ t, Phrase.text (some fun _ => "b") 3 = some t ∧ t ≠ "") ∧
      FormatText 2 (some fun _ => "a") 0 none 3 (some fun _ => "b") = some "a, b" :=
  ⟨fun _ => ⟨"a", rfl, by decide⟩, fun h => absurd h (by decide),
    fun _ => ⟨"b", rfl, by decide⟩,
    (formatText_joins_positive 2 0 3 (some fun _ => "a") none (some fun _ => "b")
      (fun _ => ⟨"a", rfl, by decide⟩) (fun h => absurd h (by decide))
      (fun _ => ⟨"b", rfl, by decide⟩)).1.1.trans (by decide)⟩

/-! ## Rows of the public forwards list -/

theorem appendRow_eq (rows : List ForwardRow) (peer : Nat) (contextId : RecentPostId) :
    appendRow rows peer contextId =
      if peer ∈ rows.map (·.peer) then rows
      else rows ++ [{ peer := peer, contextId := contextId }] := by
  unfold appendRow peerListFindRow
  by_cases h : peer ∈ rows.map (·.peer)
  · have hsome : (rows.find? fun row => row.peer == peer).isSome = true := by
      rw [List.find?_isSome]
      obtain ⟨row, hrow, hp⟩ := List.mem_map.1 h
      exact ⟨row, hrow, by simpa using hp⟩
    rw [if_pos hsome, if_pos h]
  · have hnone : ¬ (rows.find? fun row => row.peer == peer).isSome = true := by
      rw [List.find?_isSome]
      rintro ⟨row, hrow, hp⟩
      exact h (List.mem_map.2 ⟨row, hrow, by simpa using hp⟩)
    rw [if_neg hnone, if_neg h]

theorem appendRows_cons (rows : List ForwardRow) (forward : Nat × RecentPostId)
    (rest : List (Nat × RecentPostId)) :
    appendRows rows (forward :: rest) =
      appendRows (appendRow rows forward.1 forward.2) rest := rfl

theorem appendRows_append (rows : List ForwardRow) (a b : List (Nat × RecentPostId)) :
    appendRows rows (a ++ b) = appendRows (appendRows rows a) b := by
  simp [appendRows, List.foldl_append]

theorem foldl_applyForward (session : ForwardsSession) (items : List RecentPostId)
    (rows : List ForwardRow) :
    items.foldl (applyForward session) rows =
      appendRows rows
        (items.filterMap fun item => (resolveForward session item).map fun peer => (peer, item)) := by
  induction items generalizing rows with
  | nil => rfl
  | cons item rest ih =>
    rw [List.foldl_cons, ih]
    cases h : resolveForward session item with
    | none => simp [applyForward, h, List.filterMap_cons]
    | some peer => simp [applyForward, h, List.filterMap_cons, appendRows_cons]

theorem applySlices_rows (slices : List (ForwardsSession × PublicForwardsSlice))
    (c : PublicForwardsController) :
    (c.applySlices slices).rows = appendRows c.rows (resolvedForwards slices) := by
  induction slices generalizing c with
  | nil => rfl
  | cons slice rest ih =>
    have hstep : c.applySlices (slice :: rest) =
        (c.applySlice slice.1 slice.2).applySlices rest := rfl
    rw [hstep, ih]
    simp only [PublicForwardsController.applySlice, foldl_applyForward, resolvedForwards,
      List.flatMap_cons, appendRows_append]

theorem appendRows_mem_peer (forwards : List (Nat × RecentPostId)) (rows : List ForwardRow)
    (p : Nat) :
    p ∈ (appendRows rows forwards).map (·.peer) ↔
      p ∈ rows.map (·.peer) ∨ p ∈ forwards.map (·.1) := by
  induction forwards generalizing rows with
  | nil => simp [appendRows]
  | cons forward rest ih =>
    rw [appendRows_cons, ih, appendRow_eq]
    by_cases h : forward.1 ∈ rows.map (·.peer)
    · rw [if_pos h]
      simp only [List.map_cons, List.mem_cons]
      constructor
      · rintro (h1 | h1)
        · exact Or.inl h1
        · exact Or.inr (Or.inr h1)
      · rintro (h1 | h1 | h1)
        · exact Or.inl h1
        · exact Or.inl (h1 ▸ h)
        · exact Or.inr h1
    · rw [if_neg h]
      simp only [List.map_append, List.map_cons, List.map_nil, List.mem_append,
        List.mem_singleton, List.mem_cons]
      tauto

theorem appendRows_nodup (forwards : List (Nat × RecentPostId)) (rows : List ForwardRow)
    (h : (rows.map (·.peer)).Nodup) : ((appendRows rows forwards).map (·.peer)).Nodup := by
  induction forwards generalizing rows with
  | nil => exact h
  | cons forward rest ih =>
    rw [appendRows_cons]
    apply ih
    rw [appendRow_eq]
    by_cases hmem : forward.1 ∈ rows.map (·.peer)
    · rw [if_pos hmem]
      exact h
    · rw [if_neg hmem]
      simp only [List.map_append, List.map_cons, List.map_nil]
      exact List.Nodup.append h (List.nodup_singleton _)
        (by simpa [List.Disjoint] using hmem)

theorem appendRows_first (forwards : List (Nat × RecentPostId)) (rows : List ForwardRow) :
    ∀ row ∈ appendRows rows forwards,
      row ∈ rows ∨
        (row.peer ∉ rows.map (·.peer) ∧
          forwards.find? (fun forward => forward.1 == row.peer) =
            some (row.peer, row.contextId)) := by
  induction forwards generalizing rows with
  | nil => intro row hrow; exact Or.inl hrow
  | cons forward rest ih =>
    intro row hrow
    rw [appendRows_cons, appendRow_eq] at hrow
    by_cases hmem : forward.1 ∈ rows.map (·.peer)
    · rw [if_pos hmem] at hrow
      rcases ih rows row hrow with h | ⟨h1, h2⟩
      · exact Or.inl h
      · refine Or.inr ⟨h1, ?_⟩
        have hne : (forward.1 == row.peer) = false := by
          rw [beq_eq_false_iff_ne]
          intro heq
          exact h1 (heq ▸ hmem)
        rw [List.find?_cons, hne]
        exact h2
    · rw [if_neg hmem] at hrow
      rcases ih _ row hrow with h | ⟨h1, h2⟩
      · rcases List.mem_append.1 h with h | h
        · exact Or.inl h
        · simp only [List.mem_singleton] at h
          subst h
          refine Or.inr ⟨hmem, ?_⟩
          simp [List.find?_cons]
      · simp only [List.map_append, List.map_cons, List.map_nil, List.mem_append,
          List.mem_singleton, not_or] at h1
        refine Or.inr ⟨h1.1, ?_⟩
        have hne : (forward.1 == row.peer) = false := by
          rw [beq_eq_false_iff_ne]
          exact fun heq => h1.2 heq.symm
        rw [List.find?_cons, hne]
        exact h2

theorem appendRows_of_present (forwards : List (Nat × RecentPostId)) (rows : List ForwardRow)
    (h : ∀ forward ∈ forwards, forward.1 ∈ rows.map (·.peer)) :
    appendRows rows forwards = rows := by
  induction forwards with
  | nil => rfl
  | cons forward rest ih =>
    rw [appendRows_cons, appendRow_eq, if_pos (h forward (by simp))]
    exact ih fun f hf => h f (List.mem_cons_of_mem _ hf)

/-- C17: the rows of the public forwards list are for pairwise distinct
peers.  `appendRow` adds nothing when the list has a row of the peer; after
`prepare()` and any loaded slices the peers of the rows are exactly the
peers of the forwards that resolved, and the row of a peer is that of the
first such forward; applying a slice a second time, in the same session,
adds no rows.  An item with a message id is resolved through it only, an
item without one through its story id, and an item that does not resolve
adds no row. -/
theorem publicForwards_rows_distinct (firstSlice : PublicForwardsSlice)
    (session : ForwardsSession) (later : List (ForwardsSession × PublicForwardsSlice)) :
    (((PublicForwardsController.prepare { firstSlice := firstSlice } session).applySlices
        later).rows.map (·.peer)).Nodup ∧
      (∀ p, p ∈ ((PublicForwardsController.prepare { firstSlice := firstSlice }
            session).applySlices later).rows.map (·.peer) ↔
          p ∈ (resolvedForwards ((session, firstSlice) :: later)).map (·.1)) ∧
      (∀ row ∈ ((PublicForwardsController.prepare { firstSlice := firstSlice }
            session).applySlices later).rows,
          (resolvedForwards ((session, firstSlice) :: later)).find?
              (fun forward => forward.1 == row.peer) =
            some (row.peer, row.contextId)) ∧
      (∀ (c : PublicForwardsController) (s : ForwardsSession) (slice : PublicForwardsSlice),
        ((c.applySlice s slice).applySlice s slice).rows = (c.applySlice s slice).rows) ∧
      (∀ (rows : List ForwardRow) (peer : Nat) (contextId : RecentPostId),
        peer ∈ rows.map (·.peer) → appendRow rows peer contextId = rows) ∧
      (∀ (s : ForwardsSession) (item : RecentPostId) (full : Moderate.FullMsgId),
        item.messageId = some full →
          resolveForward s item = if s.peerLoaded full.peer then some full.peer else none) ∧
      (∀ (s : ForwardsSession) (item : RecentPostId), item.messageId = none →
        resolveForward s item = item.storyId.bind s.storyPeer) ∧
      (∀ (s : ForwardsSession) (item : RecentPostId) (rows : List ForwardRow),
        resolveForward s item = none → applyForward s rows item = rows) := by
  have hall : (PublicForwardsController.prepare { firstSlice := firstSlice } session).applySlices
      later =
      PublicForwardsController.applySlices { firstSlice := {} }
        ((session, firstSlice) :: later) := rfl
  have hrows := applySlices_rows ((session, firstSlice) :: later) { firstSlice := {} }
  have hnil : ({ firstSlice := {} } : PublicForwardsController).rows = [] := rfl
  rw [hall, hrows, hnil]
  refine ⟨appendRows_nodup _ [] List.nodup_nil, ?_, ?_, ?_, ?_, ?_, ?_, ?_⟩
  · intro p
    rw [appendRows_mem_peer]
    simp
  · intro row hrow
    rcases appendRows_first _ [] row hrow with h | ⟨-, h⟩
    · cases h
    · exact h
  · intro c s slice
    simp only [PublicForwardsController.applySlice, foldl_applyForward]
    apply appendRows_of_present
    intro forward hforward
    rw [appendRows_mem_peer]
    exact Or.inr (List.mem_map.2 ⟨forward, hforward, rfl⟩)
  · intro rows peer contextId hmem
    rw [appendRow_eq, if_pos hmem]
  · intro s item full h
    simp [resolveForward, h]
  · intro s item h
    unfold resolveForward
    rw [h]
    cases item.storyId <;> rfl
  · intro s item rows h
    simp [applyForward, h]

/-! ## Rows of the credits list -/

theorem createCreditsRow_entry (item : CreditsHistoryEntry) (h : item.barePeerId < 2 ^ 64) :
    createCreditsRow item {} = CreditsRow.create (rowPeer item.barePeerId) item {} := by
  have hmod : (item.barePeerId + ({} : SubscriptionEntry).barePeerId) % 2 ^ 64 =
      item.barePeerId := by
    show (item.barePeerId + 0) % 2 ^ 64 = item.barePeerId
    rw [Nat.add_zero, Nat.mod_eq_of_lt h]
  unfold createCreditsRow rowPeer
  simp only [hmod]
  by_cases h0 : item.barePeerId = 0 <;> simp [h0]

theorem createCreditsRow_subscription (item : SubscriptionEntry) (h : item.barePeerId < 2 ^ 64) :
    createCreditsRow {} item = CreditsRow.create (rowPeer item.barePeerId) {} item := by
  have hmod : (({} : CreditsHistoryEntry).barePeerId + item.barePeerId) % 2 ^ 64 =
      item.barePeerId := by
    show (0 + item.barePeerId) % 2 ^ 64 = item.barePeerId
    rw [Nat.zero_add, Nat.mod_eq_of_lt h]
  unfold createCreditsRow rowPeer
  simp only [hmod]
  by_cases h0 : item.barePeerId = 0 <;> simp [h0]

theorem creditsRow_create_peer (peer : Option Nat) (entry : CreditsHistoryEntry)
    (subscription : SubscriptionEntry) :
    (CreditsRow.create peer entry subscription).peer = peer ∧
      (CreditsRow.create peer entry subscription).entry = entry ∧
      (CreditsRow.create peer entry subscription).subscription = subscription := by
  cases peer <;> exact ⟨rfl, rfl, rfl⟩

/-- C21: `CreditsController::applySlice` hands to the delegate one row per
history entry of the slice, in order, and then one row per subscription, in
order, so `|list| + |subscriptions|` rows.  The peer id of a row is the bare
peer id of its entry or of its subscription, the other summand being 0; the
row is made for that peer exactly when the id is not 0 and without a peer
otherwise.  The token stored is `tokenSubscriptions` for a controller
created with `subscription = true` and `token` otherwise. -/
theorem creditsController_applySlice_rows (c : CreditsController) (slice : CreditsStatusSlice)
    (hlist : ∀ item ∈ slice.list, item.barePeerId < 2 ^ 64)
    (hsubscriptions : ∀ item ∈ slice.subscriptions, item.barePeerId < 2 ^ 64) :
    (c.applySlice slice).rows =
        c.rows
          ++ slice.list.map (fun item => CreditsRow.create (rowPeer item.barePeerId) item {})
          ++ slice.subscriptions.map
            (fun item => CreditsRow.create (rowPeer item.barePeerId) {} item) ∧
      (c.applySlice slice).rows.length =
        c.rows.length + (slice.list.length + slice.subscriptions.length) ∧
      ({} : SubscriptionEntry).barePeerId = 0 ∧ ({} : CreditsHistoryEntry).barePeerId = 0 ∧
      (∀ item ∈ slice.list,
        (createCreditsRow item {}).entry = item ∧
        ((createCreditsRow item {}).peer = some item.barePeerId ↔ item.barePeerId ≠ 0) ∧
        ((createCreditsRow item {}).peer = none ↔ item.barePeerId = 0)) ∧
      (∀ item ∈ slice.subscriptions,
        (createCreditsRow {} item).subscription = item ∧
        ((createCreditsRow {} item).peer = some item.barePeerId ↔ item.barePeerId ≠ 0) ∧
        ((createCreditsRow {} item).peer = none ↔ item.barePeerId = 0)) ∧
      (c.applySlice slice).apiToken =
        (if c.subscription = true then slice.tokenSubscriptions else slice.token) := by
  have h1 : slice.list.map (fun item => createCreditsRow item {}) =
      slice.list.map (fun item => CreditsRow.create (rowPeer item.barePeerId) item {}) :=
    List.map_congr_left fun item hitem => createCreditsRow_entry item (hlist item hitem)
  have h2 : slice.subscriptions.map (fun item => createCreditsRow {} item) =
      slice.subscriptions.map
        (fun item => CreditsRow.create (rowPeer item.barePeerId) {} item) :=
    List.map_congr_left fun item hitem =>
      createCreditsRow_subscription item (hsubscriptions item hitem)
  have hrows : (c.applySlice slice).rows =
      c.rows
        ++ slice.list.map (fun item => CreditsRow.create (rowPeer item.barePeerId) item {})
        ++ slice.subscriptions.map
          (fun item => CreditsRow.create (rowPeer item.barePeerId) {} item) := by
    rw [← h1, ← h2]
    rfl
  refine ⟨hrows, ?_, rfl, rfl, ?_, ?_, rfl⟩
  · rw [hrows]
    simp only [List.length_append, List.length_map]
    omega
  · intro item hitem
    rw [createCreditsRow_entry item (hlist item hitem)]
    obtain ⟨hp, he, -⟩ := creditsRow_create_peer (rowPeer item.barePeerId) item {}
    rw [hp, he]
    refine ⟨rfl, ?_, ?_⟩ <;> unfold rowPeer <;> by_cases h0 : item.barePeerId = 0 <;>
      simp [h0]
  · intro item hitem
    rw [createCreditsRow_subscription item (hsubscriptions item hitem)]
    obtain ⟨hp, -, hs⟩ := creditsRow_create_peer (rowPeer item.barePeerId) {} item
    rw [hp, hs]
    refine ⟨rfl, ?_, ?_⟩ <;> unfold rowPeer <;> by_cases h0 : item.barePeerId = 0 <;>
      simp [h0]

/-- C21 at `sampleMixedSlice` for a controller of subscriptions without rows:
three rows, for the peer 9, for no peer and for the peer 7, and the token
`t`. -/
theorem creditsController_applySlice_rows_witness :
    (∀ item ∈ sampleMixedSlice.list, item.barePeerId < 2 ^ 64) ∧
      (∀ item ∈ sampleMixedSlice.subscriptions, item.barePeerId < 2 ^ 64) ∧
      ((CreditsController.applySlice { subscription := true, firstSlice := {} }
          sampleMixedSlice).rows.map (·.peer)) = [some 9, none, some 7] ∧
      (CreditsController.applySlice { subscription := true, firstSlice := {} }
          sampleMixedSlice).apiToken = "t" := by
  have h := creditsController_applySlice_rows { subscription := true, firstSlice := {} }
    sampleMixedSlice (by decide) (by decide)
  exact ⟨by decide, by decide, (congrArg (List.map (·.peer)) h.1).trans (by decide),
    h.2.2.2.2.2.2.trans (by decide)⟩

/-! ## The status of a credits row -/

/-- C22: the status of a history row is the date, then the state of the entry,
then the name part.  The state is the text, after the joiner, of the first
of refunded, pending, failed and subscription-until-set that holds, and
nothing when none holds, so at most one of them is appended.  For a row with
a subscription the status is instead the subscription status: 'none' if the
subscription is expired, else 'off' if it is cancelled, else 'on'. -/
theorem creditsRow_status_priority (tr : CreditsPhrases) (names : RowNames) (row : CreditsRow) :
    (row.subscription.nonNull = false →
      row.customStatus tr names =
        tr.langDateTimeFull row.entry.date ++ row.stateSuffix tr ++ row.nameSuffix tr names) ∧
      row.stateSuffix tr =
        (match firstHolding
            [(row.entry.refunded, tr.lng_channel_earn_history_return),
              (row.entry.pending, tr.lng_channel_earn_history_pending),
              (row.entry.failed, tr.lng_channel_earn_history_failed),
              (row.entry.subscriptionUntil.isSome,
                tr.lng_credits_box_history_entry_subscription)] with
          | some text => joiner ++ text
          | none => "") ∧
      (row.entry.refunded = true →
        row.stateSuffix tr = joiner ++ tr.lng_channel_earn_history_return) ∧
      (row.entry.refunded = false → row.entry.pending = true →
        row.stateSuffix tr = joiner ++ tr.lng_channel_earn_history_pending) ∧
      (row.entry.refunded = false → row.entry.pending = false → row.entry.failed = true →
        row.stateSuffix tr = joiner ++ tr.lng_channel_earn_history_failed) ∧
      (row.entry.refunded = false → row.entry.pending = false → row.entry.failed = false →
        row.entry.subscriptionUntil.isSome = true →
          row.stateSuffix tr = joiner ++ tr.lng_credits_box_history_entry_subscription) ∧
      (row.entry.refunded = false → row.entry.pending = false → row.entry.failed = false →
        row.entry.subscriptionUntil = none → row.stateSuffix tr = "") ∧
      (row.subscription.nonNull = true →
        row.customStatus tr names =
          (match firstHolding
              [(row.subscription.expired, tr.lng_credits_subscription_status_none),
                (row.subscription.cancelled, tr.lng_credits_subscription_status_off)] with
            | some phrase => phrase
            | none => tr.lng_credits_subscription_status_on)
            (tr.langDayOfMonthFull row.subscription.untilDate)) := by
  refine ⟨?_, ?_, ?_, ?_, ?_, ?_, ?_, ?_⟩
  · intro h
    simp [CreditsRow.customStatus, CreditsRow.entryStatus, h]
  · unfold CreditsRow.stateSuffix firstHolding firstHolding firstHolding firstHolding
      firstHolding
    cases row.entry.refunded <;> cases row.entry.pending <;> cases row.entry.failed <;>
      cases row.entry.subscriptionUntil <;> simp
  · intro h; simp [CreditsRow.stateSuffix, h]
  · intro h1 h2; simp [CreditsRow.stateSuffix, h1, h2]
  · intro h1 h2 h3; simp [CreditsRow.stateSuffix, h1, h2, h3]
  · intro h1 h2 h3 h4
    have : row.entry.subscriptionUntil.isNone = false := by
      cases hs : row.entry.subscriptionUntil with
      | none => rw [hs] at h4; cases h4
      | some _ => rfl
    simp [CreditsRow.stateSuffix, h1, h2, h3, this]
  · intro h1 h2 h3 h4; simp [CreditsRow.stateSuffix, h1, h2, h3, h4]
  · intro h
    unfold CreditsRow.customStatus CreditsRow.subscriptionStatus firstHolding firstHolding
      firstHolding
    simp only [h, if_true]
    cases row.subscription.expired <;> cases row.subscription.cancelled <;> simp

/-! ## The key of the row id of a credits row -/

theorem uniqueRowKey_data (entry : CreditsHistoryEntry) :
    (uniqueRowKey entry).data =
      entry.id.data ++
        [if entry.refunded then '1' else '0', if entry.pending then '1' else '0',
          if entry.failed then '1' else '0', if entry.in_ then '1' else '0'] := by
  simp [uniqueRowKey, String.data_push]

theorem flagChar_injective (a b : Bool)
    (h : (if a then '1' else '0') = (if b then '1' else '0')) : a = b := by
  cases a <;> cases b <;> first | rfl | (exact absurd h (by decide))

/-- C23: the key string of `UniqueRowIdFromEntry` is the id followed by four
characters `0` or `1`; two entries have the same key exactly when they have
the same id and the same `refunded`, `pending`, `failed` and `in`, and the
length of the key is that of the id plus 4. -/
theorem uniqueRowKey_injective (a b : CreditsHistoryEntry) :
    (uniqueRowKey a = uniqueRowKey b ↔
        a.id = b.id ∧ a.refunded = b.refunded ∧ a.pending = b.pending ∧
          a.failed = b.failed ∧ a.in_ = b.in_) ∧
      (uniqueRowKey a).length = a.id.length + 4 ∧
      (∀ hash : QString → Nat, UniqueRowIdFromEntry hash a = hash (uniqueRowKey a)) := by
  refine ⟨⟨?_, ?_⟩, ?_, fun _ => rfl⟩
  · intro h
    have hd := congrArg String.data h
    rw [uniqueRowKey_data, uniqueRowKey_data] at hd
    obtain ⟨hid, hflags⟩ := List.append_inj' hd rfl
    simp only [List.cons.injEq, and_true] at hflags
    exact ⟨String.ext hid, flagChar_injective _ _ hflags.1, flagChar_injective _ _ hflags.2.1,
      flagChar_injective _ _ hflags.2.2.1, flagChar_injective _ _ hflags.2.2.2⟩
  · rintro ⟨hid, h1, h2, h3, h4⟩
    simp only [uniqueRowKey, hid, h1, h2, h3, h4]
  · show (uniqueRowKey a).data.length = a.id.data.length + 4
    rw [uniqueRowKey_data]
    simp

/-- C7 at `sampleManyInviters` after the second run: the first run lists 40
of the 41 inviters, the second run adds the last one, the user 41 with the
status of 40 invitations. -/
theorem members_list_pagination_witness :
    1 ≤ 2 ∧ 0 < membersMax sampleManyInviters ∧
      (membersMax sampleManyInviters : Int) + 40 < 2 ^ 31 ∧
      ∃ first state, AddMembersList samplePhrases sampleManyInviters true = .ok first ∧
        showMoreTimes samplePhrases (membersMax sampleManyInviters) (2 - 1) first = some state ∧
        first.controller.rows.length = 40 ∧
        state.controller.rows.length = 41 ∧
        state.controller.rows.map (·.userId) = (List.range 41).map (· + 1) ∧
        state.controller.rows.getLast? = some { userId := 41, status := "i40" } := by
  obtain ⟨-, first, state, hfirst, hstate, hrows, hall, huser, hlen, -⟩ :=
    members_list_pagination samplePhrases sampleManyInviters 2 (by decide) (by decide)
      (by decide)
  obtain ⟨-, first1, state1, hfirst1, hstate1, -, -, -, hlen1, -⟩ :=
    members_list_pagination samplePhrases sampleManyInviters 1 (by decide) (by decide)
      (by decide)
  have h1 : first1 = first := by
    rw [hfirst] at hfirst1
    cases hfirst1
    rfl
  have h2 : state1 = first1 := by
    simp only [showMoreTimes] at hstate1
    cases hstate1
    rfl
  refine ⟨by decide, by decide, by decide, first, state, hfirst, hstate, ?_,
    hlen.trans (by decide), huser.trans (by decide), ?_⟩
  · rw [← h1, ← h2]
    exact hlen1.trans (by decide)
  · have hlast : (state.controller.rows.map some).getLast? =
        some (some { userId := 41, status := "i40" }) := by
      rw [hrows]
      decide
    rw [List.getLast?_map] at hlast
    cases hl : state.controller.rows.getLast? with
    | none => rw [hl] at hlast; cases hlast
    | some row =>
      rw [hl] at hlast
      simp only [Option.map_some', Option.some.injEq] at hlast
      rw [hlast]

end Statistics
